import Mathlib

/-!
# St. Petersburg paradox simulator (`PetersburgParadox.cpp`)

A shallow embedding of `main` and the properties of its two phases:
the simulation loop (lines 14-46) and the statistics of the sample means
(lines 48-82).

Modelling conventions.
* The program is embedded twice.  In the first embedding a `double` is an element
  of a linearly ordered field `F`; every definition is generic in `F` and runs on
  `ℚ`.  Rounding, overflow to infinity and NaN are outside it; `x / 0` is the
  field's `0`.  It serves for the control flow of the run, for the selection of
  median and range, and for the formulas that lines 48-69 implement.
* In the second embedding (`Dbl`, `statisticsD`, `reportD`) a `double` is an IEEE
  754 binary64 number and every operation of lines 48-82 rounds to nearest, ties
  to even, with subnormals, infinities and NaN.  It serves for every statement
  about the values that the statistics take: equality of two computed results, a
  result being exactly zero, the order of computed results, quotients by zero.
* `sqrt` from `<cmath>` is a parameter `sqrt : F → F` of the first embedding;
  statements that need its meaning are made for `F = ℝ` and `Real.sqrt`.  In the
  second embedding it is the correctly rounded root `Dbl.sqrt`.
* An `int` is an `Int`; `/` and `%` on `int` truncate (`Int.tdiv`, `Int.tmod`)
  and stop the run when the divisor is zero; `100 * j` wraps at 32 bits.
* The generator `gen` is the list of values that `dis(gen)` will return, in
  order; a draw removes the head.  A run that needs a draw from the empty list
  stops with `Stop.outOfDraws`.
* `avg_payoff` is a `List F`; an index outside it stops the run.
-/

namespace PetersburgParadox

/-- Reasons for which a run yields no value. -/
inductive Stop where
  /-- An `int` division or modulo whose divisor is zero. -/
  | divByZero
  /-- An index outside `avg_payoff`. -/
  | outOfRange
  /-- The supplied draws ended while a trial was still waiting for heads. -/
  | outOfDraws
  deriving DecidableEq

set_option linter.unusedSectionVars false

variable {F : Type} [LinearOrderedField F]

/-- The expression `v[i]` read from a `vector<double>` with an `int` index. -/
def readAt (v : List F) (i : Int) : Except Stop F :=
  if i < 0 then .error .outOfRange
  else
    match v[i.toNat]? with
    | some x => .ok x
    | none => .error .outOfRange

/-- The assignment `v[i] = x` on a `vector<double>` with an `int` index. -/
def writeAt (v : List F) (i : Int) (x : F) : Except Stop (List F) :=
  if 0 ≤ i ∧ i.toNat < v.length then .ok (v.set i.toNat x) else .error .outOfRange

/-- The `int` expression `a / b`. -/
def intDiv (a b : Int) : Except Stop Int :=
  if b = 0 then .error .divByZero else .ok (Int.tdiv a b)

/-- The `int` expression `a % b`. -/
def intMod (a b : Int) : Except Stop Int :=
  if b = 0 then .error .divByZero else .ok (Int.tmod a b)

/-- Reduction of an integer to the range of a 32-bit `int`. -/
def wrap32 (x : Int) : Int := (x + 2 ^ 31) % 2 ^ 32 - 2 ^ 31

/-- Iterations `k, k+1, ...` of a loop body, `r` of them. -/
def loopFrom {σ : Type} (body : Int → σ → Except Stop σ) : Nat → Int → σ → Except Stop σ
  | 0, _, s => .ok s
  | r + 1, k, s =>
    match body k s with
    | .ok s1 => loopFrom body r (k + 1) s1
    | .error e => .error e

/-- The statement `for(int k = 0; k < n; k++) body`. -/
def forLoop {σ : Type} (n : Int) (body : Int → σ → Except Stop σ) (s : σ) : Except Stop σ :=
  loopFrom body n.toNat 0 s

/-- The program state during the simulation: the vector of sample means, the
draws still to come, and the percentages written to `cout` so far. -/
structure Machine (F : Type) where
  avg_payoff : List F
  gen : List Nat
  cout : List Int

/-- Lines 34-43, `while(!done)`: draw until a `0` (heads) comes, counting the
draws in `count`; on heads add `pow(2,count)` to `avg_payoff[j]`. -/
def whileNotDone (j : Int) : List Nat → Nat → List F → Except Stop (List F × List Nat)
  | [], _, _ => .error .outOfDraws
  | d :: gen, count, avg_payoff =>
    if d = 0 then
      match readAt avg_payoff j with
      | .ok x =>
        match writeAt avg_payoff j (x + 2 ^ count) with
        | .ok v => .ok (v, gen)
        | .error e => .error e
      | .error e => .error e
    else whileNotDone j gen (count + 1) avg_payoff

/-- The position, counted from 1, of the first `0` (heads) among the draws. -/
def firstHeads : List Nat → Option Nat
  | [] => none
  | d :: gen => if d = 0 then some 1 else (firstHeads gen).map (· + 1)

/-- The trials read off the draws: the first-heads positions of `k` successive
trials, each starting where the one before stopped, and the draws left over. -/
def trialsOf : Nat → List Nat → Option (List Nat × List Nat)
  | 0, gen => some ([], gen)
  | k + 1, gen =>
    match firstHeads gen with
    | none => none
    | some n =>
      match trialsOf k (gen.drop n) with
      | none => none
      | some (ns, rest) => some (n :: ns, rest)

/-- The samples read off the draws: `m` successive groups of `t` trials, each
group starting where the one before stopped, and the draws left over. -/
def samplesOf : Nat → Nat → List Nat → Option (List (List Nat) × List Nat)
  | 0, _, gen => some ([], gen)
  | m + 1, t, gen =>
    match trialsOf t gen with
    | none => none
    | some (ns, rest) =>
      match samplesOf m t rest with
      | none => none
      | some (nss, rest1) => some (ns :: nss, rest1)

/-- The sum of the payoffs `2 ^ n` of the trials with first-heads positions `ns`. -/
def payoffSum (ns : List Nat) : F := (ns.map (fun n => (2 : F) ^ n)).sum

/-- The mean payoff of a sample: the sum of its payoffs over `num_trials`. -/
def sampleMean (num_trials : Int) (ns : List Nat) : F := payoffSum ns / (num_trials : F)

/-- The percentages printed by `m` successive samples starting at sample `j`. -/
def progressFrom (num_samples : Int) : Nat → Int → List Int → List Int
  | 0, _, cout => cout
  | m + 1, j, cout =>
    progressFrom num_samples m (j + 1)
      (if Int.tmod j (Int.tdiv num_samples 10) = 0
        then cout ++ [Int.tdiv (wrap32 (100 * j)) num_samples] else cout)

/-- Lines 32-43: one trial of sample `j`, started with `count = 1`. -/
def trial (j : Int) (_i : Int) (s : Machine F) : Except Stop (Machine F) :=
  match whileNotDone j s.gen 1 s.avg_payoff with
  | .ok (v, g) => .ok { s with avg_payoff := v, gen := g }
  | .error e => .error e

/-- Line 30: the progress line, printed when `j % (num_samples/10) == 0`; the
value printed is `100 * j/num_samples`. -/
def progress (num_samples j : Int) (cout : List Int) : Except Stop (List Int) :=
  match intDiv num_samples 10 with
  | .error e => .error e
  | .ok step =>
    match intMod j step with
    | .error e => .error e
    | .ok r =>
      if r = 0 then
        match intDiv (wrap32 (100 * j)) num_samples with
        | .ok p => .ok (cout ++ [p])
        | .error e => .error e
      else .ok cout

/-- Lines 30-45: the body of the loop over the samples. -/
def sample (num_samples num_trials : Int) (j : Int) (s : Machine F) : Except Stop (Machine F) :=
  match progress num_samples j s.cout with
  | .error e => .error e
  | .ok out =>
    match forLoop num_trials (trial j) { s with cout := out } with
    | .error e => .error e
    | .ok s1 =>
      match readAt s1.avg_payoff j with
      | .error e => .error e
      | .ok x =>
        match writeAt s1.avg_payoff j (x / (num_trials : F)) with
        | .ok v => .ok { s1 with avg_payoff := v }
        | .error e => .error e

/-- Lines 16-19: `avg_payoff.push_back(0)`, `num_samples` times. -/
def initPayoff (num_samples : Int) : Except Stop (List F) :=
  forLoop num_samples (fun _ v => .ok (v ++ [0])) []

/-- Lines 14-46: the simulation phase of `main`. -/
def simulate (num_samples num_trials : Int) (gen : List Nat) : Except Stop (Machine F) :=
  match initPayoff num_samples with
  | .error e => .error e
  | .ok v => forLoop num_samples (sample num_samples num_trials) ⟨v, gen, []⟩

/-- The call `sort(avg_payoff.begin(), avg_payoff.end())`.  `std::sort` is
library code; its result is the ascending rearrangement of the vector, computed
here by insertion. -/
def sort (v : List F) : List F := v.insertionSort (· ≤ ·)

/-- The arithmetic mean of a sample sequence: the sum of the values over their number. -/
def meanOf (xs : List F) : F := xs.sum / (xs.length : F)

/-- The sum of the `p`-th powers of the deviations of the values from `μ`. -/
def devSum (p : Nat) (xs : List F) (μ : F) : F := (xs.map (fun x => (x - μ) ^ p)).sum

/-- The three sums accumulated by the loop of lines 59-63. -/
structure Sums (F : Type) where
  var : F
  skewTop : F
  kurt : F

/-- Line 55: `mean += avg_payoff[k]`. -/
def meanStep (avg_payoff : List F) (k : Int) (mean : F) : Except Stop F :=
  match readAt avg_payoff k with
  | .ok x => .ok (mean + x)
  | .error e => .error e

/-- Lines 60-62: the second, third and fourth powers of the deviation are added. -/
def momentStep (avg_payoff : List F) (mean : F) (k : Int) (m : Sums F) : Except Stop (Sums F) :=
  match readAt avg_payoff k with
  | .ok x =>
    .ok { var := m.var + (x - mean) * (x - mean),
          skewTop := m.skewTop + (x - mean) * (x - mean) * (x - mean),
          kurt := m.kurt + (x - mean) * (x - mean) * (x - mean) * (x - mean) }
  | .error e => .error e

/-- The locals of `main` after line 74, with the vector as line 73 leaves it. -/
structure Stats (F : Type) where
  avg_payoff : List F
  mean : F
  var : F
  skewTop : F
  skewBot : F
  skew : F
  kurt : F
  median : F

/-- Lines 48-74: the moments and the median of the sample means. -/
def statistics (sqrt : F → F) (num_samples : Int) (avg_payoff : List F) :
    Except Stop (Stats F) :=
  match forLoop num_samples (meanStep avg_payoff) 0 with
  | .error e => .error e
  | .ok total =>
    let mean := total / (num_samples : F)
    match forLoop num_samples (momentStep avg_payoff mean) ⟨0, 0, 0⟩ with
    | .error e => .error e
    | .ok m =>
      let kurt := m.kurt * ((num_samples : F) / (m.var * m.var))
      let skewBot0 := m.var / (num_samples : F)
      let skewBot := sqrt (skewBot0 * skewBot0 * skewBot0)
      let var := m.var / ((num_samples - 1 : Int) : F)
      let skewTop := m.skewTop / (num_samples : F)
      let skew := skewTop / skewBot
      let sorted := sort avg_payoff
      match intDiv num_samples 2 with
      | .error e => .error e
      | .ok half =>
        match readAt sorted half with
        | .error e => .error e
        | .ok median => .ok ⟨sorted, mean, var, skewTop, skewBot, skew, kurt, median⟩

/-- The locals of `main` after line 69, before the vector is sorted. -/
structure Moments (F : Type) where
  mean : F
  var : F
  skewTop : F
  skewBot : F
  skew : F
  kurt : F

/-- Lines 48-69 on their own: the part of `statistics` that precedes the sort. -/
def moments (sqrt : F → F) (num_samples : Int) (avg_payoff : List F) :
    Except Stop (Moments F) :=
  match forLoop num_samples (meanStep avg_payoff) 0 with
  | .error e => .error e
  | .ok total =>
    let mean := total / (num_samples : F)
    match forLoop num_samples (momentStep avg_payoff mean) ⟨0, 0, 0⟩ with
    | .error e => .error e
    | .ok m =>
      let kurt := m.kurt * ((num_samples : F) / (m.var * m.var))
      let skewBot0 := m.var / (num_samples : F)
      let skewBot := sqrt (skewBot0 * skewBot0 * skewBot0)
      let var := m.var / ((num_samples - 1 : Int) : F)
      let skewTop := m.skewTop / (num_samples : F)
      let skew := skewTop / skewBot
      .ok ⟨mean, var, skewTop, skewBot, skew, kurt⟩

/-- The values written by lines 76-82. -/
structure Report (F : Type) where
  num_samples : Int
  num_trials : Int
  mean : F
  median : F
  stdDev : F
  rangeLo : F
  rangeHi : F
  skewness : F
  excessKurtosis : F

/-- Lines 76-82: the final report. -/
def report (sqrt : F → F) (num_samples num_trials : Int) (st : Stats F) :
    Except Stop (Report F) :=
  match readAt st.avg_payoff 0 with
  | .error e => .error e
  | .ok lo =>
    match readAt st.avg_payoff (num_samples - 1) with
    | .error e => .error e
    | .ok hi =>
      .ok ⟨num_samples, num_trials, st.mean, st.median, sqrt st.var, lo, hi, st.skew,
        st.kurt - 3⟩

/-- The whole of `main`, for given constants and draws. -/
def main (sqrt : F → F) (num_samples num_trials : Int) (gen : List Nat) :
    Except Stop (Machine F × Report F) :=
  match simulate num_samples num_trials gen with
  | .error e => .error e
  | .ok s =>
    match statistics sqrt num_samples s.avg_payoff with
    | .error e => .error e
    | .ok st =>
      match report sqrt num_samples num_trials st with
      | .error e => .error e
      | .ok r => .ok (s, r)

/-! ## Rounded `double` arithmetic

The definitions above take a `double` for an exact field element.  The ones
below redo lines 48-82 with every arithmetic operation rounded as IEEE 754
binary64 does it (round to nearest, ties to even, gradual underflow, overflow to
infinity, NaN), one rounding per operation, no fused multiply-add.

A finite `double` is an integer multiple of `2^-1074`, so `Dbl.fin k` stands for
`k · 2^-1074`; the two zeros are one value `Dbl.fin 0`, taken as `+0` where a sign
is needed. -/

/-- A `double`: a finite value `k · 2^-1074`, an infinity, or NaN. -/
inductive Dbl where
  | fin (k : Int)
  | pinf
  | ninf
  | nan
  deriving DecidableEq

namespace Dbl

/-- The natural number nearest to `n / d`, a tie going to the even one. -/
def roundHalfEven (n d : Nat) : Nat :=
  if 2 * (n % d) < d then n / d
  else if d < 2 * (n % d) then n / d + 1
  else if (n / d) % 2 = 0 then n / d else n / d + 1

/-- Auxiliary to `log2`: halve until below 2. -/
def log2Aux : Nat → Nat → Nat
  | 0, _ => 0
  | fuel + 1, n => if n < 2 then 0 else log2Aux fuel (n / 2) + 1

/-- Auxiliary to `log2`: the leading bit of `n < 2^(2^i)`, found by halving the
range of the exponent `i` times. -/
def log2Bits : Nat → Nat → Nat
  | 0, _ => 0
  | i + 1, n => if 2 ^ 2 ^ i ≤ n then 2 ^ i + log2Bits i (n / 2 ^ 2 ^ i) else log2Bits i n

/-- The position of the leading bit of `n`. -/
def log2 (n : Nat) : Nat := if n < 2 ^ 4096 then log2Bits 12 n else log2Aux n n

/-- The magnitude, in units of `2^-1074`, of the `double` nearest to `n / d`
units: below `2^53` units every integer is a `double`; from there on a `double`
has 53 significant bits. -/
def roundMag (n d : Nat) : Nat :=
  if n / d < 2 ^ 53 then roundHalfEven n d
  else roundHalfEven n (d * 2 ^ (log2 (n / d) - 52)) * 2 ^ (log2 (n / d) - 52)

/-- The `double` nearest to `± n / d` units; a rounded magnitude of `2^1024`
(`2^2098` units) or more is an infinity. -/
def mk (neg : Bool) (n d : Nat) : Dbl :=
  if 2 ^ 2098 ≤ roundMag n d then (if neg then ninf else pinf)
  else fin (if neg then -(roundMag n d : Int) else (roundMag n d : Int))

/-- The conversion of an `int` to `double`. -/
def ofInt (n : Int) : Dbl := fin (n * ((2 ^ 1074 : Nat) : Int))

/-- The `double` `m · 2^(e - 1074)`, for a significand `m` of at most 53 bits. -/
def ofScaled (m : Int) (e : Nat) : Dbl := fin (m * ((2 ^ e : Nat) : Int))

/-- The sign bit, zero counting as positive. -/
def isNeg : Dbl → Bool
  | fin a => decide (a < 0)
  | ninf => true
  | _ => false

/-- The sum `x + y` of two `double`s. -/
def add : Dbl → Dbl → Dbl
  | fin a, fin b => mk (decide (a + b < 0)) (a + b).natAbs 1
  | nan, _ => nan
  | _, nan => nan
  | pinf, ninf => nan
  | ninf, pinf => nan
  | pinf, _ => pinf
  | _, pinf => pinf
  | ninf, _ => ninf
  | _, ninf => ninf

/-- The negation `-x`. -/
def neg : Dbl → Dbl
  | fin a => fin (-a)
  | pinf => ninf
  | ninf => pinf
  | nan => nan

/-- The difference `x - y` of two `double`s. -/
def sub (x y : Dbl) : Dbl := add x (neg y)

/-- The product `x * y` of two `double`s. -/
def mul : Dbl → Dbl → Dbl
  | fin a, fin b => mk (isNeg (fin a) != isNeg (fin b)) (a.natAbs * b.natAbs) (2 ^ 1074)
  | nan, _ => nan
  | _, nan => nan
  | fin a, y => if a = 0 then nan else if (isNeg (fin a) != isNeg y) then ninf else pinf
  | x, fin b => if b = 0 then nan else if (isNeg x != isNeg (fin b)) then ninf else pinf
  | x, y => if (isNeg x != isNeg y) then ninf else pinf

/-- The quotient `x / y` of two `double`s; a zero divisor gives NaN for `0 / 0`
and an infinity otherwise. -/
def div : Dbl → Dbl → Dbl
  | fin a, fin b =>
    if b = 0 then (if a = 0 then nan else if a < 0 then ninf else pinf)
    else mk (isNeg (fin a) != isNeg (fin b)) (a.natAbs * 2 ^ 1074) b.natAbs
  | nan, _ => nan
  | _, nan => nan
  | fin _, _ => fin 0
  | x, fin b => if (isNeg x != isNeg (fin b)) then ninf else pinf
  | _, _ => nan

/-- Auxiliary to `isqrt`: the bits of the root, from the top one down. -/
def isqrtAux (n : Nat) : Nat → Nat → Nat
  | 0, r => r
  | i + 1, r =>
    if (r + 2 ^ i) * (r + 2 ^ i) ≤ n then isqrtAux n i (r + 2 ^ i) else isqrtAux n i r

/-- The integer part of the square root of `n`. -/
def isqrt (n : Nat) : Nat := isqrtAux n (log2 n / 2 + 1) 0

/-- The correctly rounded `sqrt` of `<cmath>`.  The root of `a` units is the
root of `a · 2^1074`, in units; when that is not an integer it lies strictly
between two integers and rounds as their midpoint does. -/
def sqrt : Dbl → Dbl
  | fin a =>
    if a < 0 then nan
    else if isqrt (a.natAbs * 2 ^ 1074) * isqrt (a.natAbs * 2 ^ 1074) = a.natAbs * 2 ^ 1074
      then mk false (isqrt (a.natAbs * 2 ^ 1074)) 1
      else mk false (2 * isqrt (a.natAbs * 2 ^ 1074) + 1) 2
  | pinf => pinf
  | ninf => nan
  | nan => nan

/-- The comparison `x <= y` of two `double`s, false when either is NaN. -/
def le : Dbl → Dbl → Bool
  | fin a, fin b => decide (a ≤ b)
  | ninf, fin _ => true
  | ninf, ninf => true
  | ninf, pinf => true
  | fin _, pinf => true
  | pinf, pinf => true
  | _, _ => false

/-- The comparison `x < y` of two `double`s, false when either is NaN. -/
def lt : Dbl → Dbl → Bool
  | fin a, fin b => decide (a < b)
  | ninf, fin _ => true
  | ninf, pinf => true
  | fin _, pinf => true
  | _, _ => false

end Dbl

/-- The expression `v[i]` of lines 55-80, on a vector of rounded `double`s. -/
def readAtD (v : List Dbl) (i : Int) : Except Stop Dbl :=
  if i < 0 then .error .outOfRange
  else
    match v[i.toNat]? with
    | some x => .ok x
    | none => .error .outOfRange

/-- The call `sort(avg_payoff.begin(), avg_payoff.end())` on rounded `double`s. -/
def sortD (v : List Dbl) : List Dbl := v.insertionSort (fun a b => Dbl.le a b = true)

/-- Line 55 in rounded arithmetic: `mean += avg_payoff[k]`. -/
def meanStepD (avg_payoff : List Dbl) (k : Int) (mean : Dbl) : Except Stop Dbl :=
  match readAtD avg_payoff k with
  | .ok x => .ok (Dbl.add mean x)
  | .error e => .error e

/-- The additions of lines 60-62 for one sample `x`, in rounded arithmetic; the
products associate to the left as in the source. -/
def momentAdd (mean : Dbl) (m : Sums Dbl) (x : Dbl) : Sums Dbl :=
  { var := Dbl.add m.var (Dbl.mul (Dbl.sub x mean) (Dbl.sub x mean)),
    skewTop := Dbl.add m.skewTop
      (Dbl.mul (Dbl.mul (Dbl.sub x mean) (Dbl.sub x mean)) (Dbl.sub x mean)),
    kurt := Dbl.add m.kurt
      (Dbl.mul (Dbl.mul (Dbl.mul (Dbl.sub x mean) (Dbl.sub x mean)) (Dbl.sub x mean))
        (Dbl.sub x mean)) }

/-- Lines 60-62 in rounded arithmetic. -/
def momentStepD (avg_payoff : List Dbl) (mean : Dbl) (k : Int) (m : Sums Dbl) :
    Except Stop (Sums Dbl) :=
  match readAtD avg_payoff k with
  | .ok x => .ok (momentAdd mean m x)
  | .error e => .error e

/-- Lines 48-74 in rounded arithmetic. -/
def statisticsD (num_samples : Int) (avg_payoff : List Dbl) : Except Stop (Stats Dbl) :=
  match forLoop num_samples (meanStepD avg_payoff) (Dbl.fin 0) with
  | .error e => .error e
  | .ok total =>
    let mean := Dbl.div total (Dbl.ofInt num_samples)
    match forLoop num_samples (momentStepD avg_payoff mean) ⟨Dbl.fin 0, Dbl.fin 0, Dbl.fin 0⟩ with
    | .error e => .error e
    | .ok m =>
      let kurt := Dbl.mul m.kurt (Dbl.div (Dbl.ofInt num_samples) (Dbl.mul m.var m.var))
      let skewBot0 := Dbl.div m.var (Dbl.ofInt num_samples)
      let skewBot := Dbl.sqrt (Dbl.mul (Dbl.mul skewBot0 skewBot0) skewBot0)
      let var := Dbl.div m.var (Dbl.ofInt (num_samples - 1))
      let skewTop := Dbl.div m.skewTop (Dbl.ofInt num_samples)
      let skew := Dbl.div skewTop skewBot
      let sorted := sortD avg_payoff
      match intDiv num_samples 2 with
      | .error e => .error e
      | .ok half =>
        match readAtD sorted half with
        | .error e => .error e
        | .ok median => .ok ⟨sorted, mean, var, skewTop, skewBot, skew, kurt, median⟩

/-- Lines 76-82 in rounded arithmetic. -/
def reportD (num_samples num_trials : Int) (st : Stats Dbl) : Except Stop (Report Dbl) :=
  match readAtD st.avg_payoff 0 with
  | .error e => .error e
  | .ok lo =>
    match readAtD st.avg_payoff (num_samples - 1) with
    | .error e => .error e
    | .ok hi =>
      .ok ⟨num_samples, num_trials, st.mean, st.median, Dbl.sqrt st.var, lo, hi, st.skew,
        Dbl.sub st.kurt (Dbl.ofInt 3)⟩

/-- The sum of line 55 over the whole vector, left to right from `0`. -/
def totalD (v : List Dbl) : Dbl := v.foldl Dbl.add (Dbl.fin 0)

/-- The mean of line 57. -/
def meanD (v : List Dbl) : Dbl := Dbl.div (totalD v) (Dbl.ofInt (v.length : Int))

/-- The three sums of lines 59-63 over the whole vector, left to right from `0`. -/
def sumsD (v : List Dbl) : Sums Dbl :=
  v.foldl (momentAdd (meanD v)) ⟨Dbl.fin 0, Dbl.fin 0, Dbl.fin 0⟩

/-- The divisor of the skewness, lines 65-66. -/
def skewBotD (v : List Dbl) : Dbl :=
  Dbl.sqrt (Dbl.mul (Dbl.mul (Dbl.div (sumsD v).var (Dbl.ofInt (v.length : Int)))
    (Dbl.div (sumsD v).var (Dbl.ofInt (v.length : Int))))
    (Dbl.div (sumsD v).var (Dbl.ofInt (v.length : Int))))

/-- The variance of line 67. -/
def varD (v : List Dbl) : Dbl := Dbl.div (sumsD v).var (Dbl.ofInt ((v.length : Int) - 1))

/-- The numerator of the skewness, line 68. -/
def skewTopD (v : List Dbl) : Dbl := Dbl.div (sumsD v).skewTop (Dbl.ofInt (v.length : Int))

/-- The skewness of line 69. -/
def skewD (v : List Dbl) : Dbl := Dbl.div (skewTopD v) (skewBotD v)

/-- The raw kurtosis of line 64. -/
def kurtD (v : List Dbl) : Dbl :=
  Dbl.mul (sumsD v).kurt
    (Dbl.div (Dbl.ofInt (v.length : Int)) (Dbl.mul (sumsD v).var (sumsD v).var))

/-! ## Vector access -/

theorem readAt_eq_ok_iff (v : List F) (i : Int) (x : F) :
    readAt v i = .ok x ↔ 0 ≤ i ∧ v[i.toNat]? = some x := by
  unfold readAt
  by_cases hi : i < 0
  · simp [hi]
  · cases hv : v[i.toNat]? with
    | none => simp [hi]
    | some y =>
      simp only [hi, if_false, Except.ok.injEq, Option.some.injEq]
      constructor
      · intro h
        exact ⟨not_lt.mp hi, h⟩
      · intro h
        exact h.2

theorem readAt_natCast (v : List F) (k : Nat) (h : k < v.length) :
    readAt v (k : Int) = .ok (v.get ⟨k, h⟩) := by
  rw [readAt_eq_ok_iff]
  refine ⟨Int.natCast_nonneg k, ?_⟩
  simp [List.getElem?_eq_getElem h]

theorem writeAt_of_readAt (v : List F) (i : Int) (x y : F) (h : readAt v i = .ok x) :
    writeAt v i y = .ok (v.set i.toNat y) := by
  rw [readAt_eq_ok_iff] at h
  have hlt : i.toNat < v.length := by
    by_contra hge
    rw [List.getElem?_eq_none (not_lt.mp hge)] at h
    exact absurd h.2 (by simp)
  simp [writeAt, h.1, hlt]

theorem readAt_set_self (v : List F) (i : Int) (x y : F) (h : readAt v i = .ok x) :
    readAt (v.set i.toNat y) i = .ok y := by
  rw [readAt_eq_ok_iff] at h ⊢
  refine ⟨h.1, ?_⟩
  have hlt : i.toNat < v.length := by
    by_contra hge
    rw [List.getElem?_eq_none (not_lt.mp hge)] at h
    exact absurd h.2 (by simp)
  simp [List.getElem?_set, hlt]

/-! ## The trial loop -/

theorem whileNotDone_heads (j : Int) (pre rest : List Nat) (count : Nat) (v : List F) (x : F)
    (htails : ∀ d ∈ pre, d ≠ 0) (hx : readAt v j = .ok x) :
    whileNotDone j (pre ++ 0 :: rest) count v
      = .ok (v.set j.toNat (x + 2 ^ (count + pre.length)), rest) := by
  induction pre generalizing count with
  | nil => simp [whileNotDone, hx, writeAt_of_readAt v j x _ hx]
  | cons d pre ih =>
    have hd : d ≠ 0 := htails d (List.mem_cons_self d pre)
    have ih1 := ih (count + 1) (fun e he => htails e (List.mem_cons_of_mem d he))
    have hc : count + 1 + pre.length = count + (pre.length + 1) := by omega
    rw [List.cons_append, whileNotDone, if_neg hd, ih1, List.length_cons, hc]

theorem firstHeads_eq_some (gen : List Nat) (n : Nat) (h : firstHeads gen = some n) :
    ∃ pre, gen = pre ++ 0 :: gen.drop n ∧ (∀ d ∈ pre, d ≠ 0) ∧ n = pre.length + 1 := by
  induction gen generalizing n with
  | nil => simp [firstHeads] at h
  | cons d gen ih =>
    by_cases hd : d = 0
    · subst hd
      simp only [firstHeads, if_true, Option.some.injEq] at h
      subst h
      exact ⟨[], by simp, by simp, rfl⟩
    · rw [firstHeads, if_neg hd] at h
      cases hg : firstHeads gen with
      | none => simp [hg] at h
      | some m =>
        simp only [hg, Option.map_some', Option.some.injEq] at h
        subst h
        obtain ⟨pre, hpre, ht, hm⟩ := ih m hg
        refine ⟨d :: pre, ?_, ?_, by simp [hm]⟩
        · rw [List.drop_succ_cons, List.cons_append, ← hpre]
        · intro e he
          rcases List.mem_cons.mp he with rfl | he
          · exact hd
          · exact ht e he

theorem firstHeads_eq_none (gen : List Nat) (h : firstHeads gen = none) :
    ∀ d ∈ gen, d ≠ 0 := by
  induction gen with
  | nil => simp
  | cons d gen ih =>
    by_cases hd : d = 0
    · simp [firstHeads, hd] at h
    · rw [firstHeads, if_neg hd] at h
      cases hg : firstHeads gen with
      | some m => simp [hg] at h
      | none =>
        intro e he
        rcases List.mem_cons.mp he with rfl | he
        · exact hd
        · exact ih hg e he

theorem whileNotDone_starved (j : Int) (gen : List Nat) (count : Nat) (v : List F)
    (h : ∀ d ∈ gen, d ≠ 0) : whileNotDone j gen count v = .error .outOfDraws := by
  induction gen generalizing count with
  | nil => rfl
  | cons d gen ih =>
    have hd : d ≠ 0 := h d (List.mem_cons_self d gen)
    rw [whileNotDone, if_neg hd]
    exact ih (count + 1) (fun e he => h e (List.mem_cons_of_mem d he))

theorem trial_of_firstHeads (j i : Int) (s : Machine F) (n : Nat) (x : F)
    (hheads : firstHeads s.gen = some n) (hx : readAt s.avg_payoff j = .ok x) :
    trial j i s = .ok ⟨s.avg_payoff.set j.toNat (x + 2 ^ n), s.gen.drop n, s.cout⟩ := by
  obtain ⟨pre, hpre, ht, hn⟩ := firstHeads_eq_some s.gen n hheads
  have hw := whileNotDone_heads j pre (s.gen.drop n) 1 s.avg_payoff x ht hx
  rw [← hpre] at hw
  have hc : 1 + pre.length = n := by omega
  rw [hc] at hw
  simp [trial, hw]

theorem trial_starved (j i : Int) (s : Machine F) (h : firstHeads s.gen = none) :
    trial j i s = .error .outOfDraws := by
  simp [trial, whileNotDone_starved j s.gen 1 s.avg_payoff (firstHeads_eq_none s.gen h)]

/-- C1: when the first heads (draw `0`) of the coming draws is at position `n`,
counted from 1, the trial of sample `j` ends normally, has consumed exactly the
first `n` draws, and has added exactly `2 ^ n` to `avg_payoff[j]`, all else
unchanged; `n ≥ 1`, and heads on the first draw adds `2`. -/
theorem trial_first_heads (j i : Int) (s : Machine F) (n : Nat) (x : F)
    (hheads : firstHeads s.gen = some n) (hx : readAt s.avg_payoff j = .ok x) :
    1 ≤ n ∧
    trial j i s = .ok ⟨s.avg_payoff.set j.toNat (x + 2 ^ n), s.gen.drop n, s.cout⟩ ∧
    readAt (s.avg_payoff.set j.toNat (x + 2 ^ n)) j = .ok (x + 2 ^ n) ∧
    (s.gen.drop n).length + n = s.gen.length ∧
    (n = 1 → trial j i s = .ok ⟨s.avg_payoff.set j.toNat (x + 2), s.gen.drop 1, s.cout⟩) := by
  obtain ⟨pre, hpre, ht, hn⟩ := firstHeads_eq_some s.gen n hheads
  have hrun := trial_of_firstHeads j i s n x hheads hx
  refine ⟨by omega, hrun, readAt_set_self _ _ _ _ hx, ?_, ?_⟩
  · have hlen : n ≤ s.gen.length := by
      have := congrArg List.length hpre
      simp only [List.length_append, List.length_cons] at this
      omega
    rw [List.length_drop]
    omega
  · intro h1
    subst h1
    simpa using hrun

/-- C1 at a concrete state: tails, tails, heads adds `2 ^ 3 = 8` to entry 1 and
leaves the fourth draw. -/
theorem trial_first_heads_witness :
    trial 1 0 (⟨[5, 0], [1, 1, 0, 1], []⟩ : Machine ℚ) = .ok ⟨[5, 8], [1], []⟩ := by
  have h := (trial_first_heads 1 0 (⟨[5, 0], [1, 1, 0, 1], []⟩ : Machine ℚ) 3 0
    (by decide) (by simp [readAt])).2.1
  rw [h]
  norm_num

/-! ## The loop over the trials of a sample -/

theorem set_of_readAt (v : List F) (i : Int) (x : F) (h : readAt v i = .ok x) :
    v.set i.toNat x = v := by
  rw [readAt_eq_ok_iff] at h
  apply List.ext_getElem?
  intro k
  rw [List.getElem?_set]
  by_cases hk : i.toNat = k
  · subst hk
    by_cases hlt : i.toNat < v.length
    · simp [hlt, h.2]
    · rw [List.getElem?_eq_none (not_lt.mp hlt)] at h
      exact absurd h.2 (by simp)
  · simp [hk]

theorem loopFrom_trial (j : Int) (k : Nat) (i : Int) (s : Machine F) (x : F)
    (hx : readAt s.avg_payoff j = .ok x) :
    loopFrom (trial j) k i s =
      match trialsOf k s.gen with
      | some (ns, rest) => .ok ⟨s.avg_payoff.set j.toNat (x + payoffSum ns), rest, s.cout⟩
      | none => .error .outOfDraws := by
  induction k generalizing i s x with
  | zero =>
    simp only [loopFrom, trialsOf, payoffSum, List.map_nil, List.sum_nil, add_zero]
    rw [set_of_readAt _ _ _ hx]
  | succ k ih =>
    rw [loopFrom, trialsOf]
    cases hf : firstHeads s.gen with
    | none => simp [trial_starved j i s hf]
    | some n =>
      rw [trial_of_firstHeads j i s n x hf hx]
      have hx1 := readAt_set_self s.avg_payoff j x (x + 2 ^ n) hx
      simp only []
      rw [ih (i + 1) ⟨s.avg_payoff.set j.toNat (x + 2 ^ n), s.gen.drop n, s.cout⟩ (x + 2 ^ n) hx1]
      simp only []
      cases ht : trialsOf k (s.gen.drop n) with
      | none => rfl
      | some p =>
        obtain ⟨ns, rest⟩ := p
        simp only [List.set_set, payoffSum, List.map_cons, List.sum_cons, add_assoc]

theorem trialsOf_spec (k : Nat) (gen : List Nat) (ns rest : List Nat)
    (h : trialsOf k gen = some (ns, rest)) : ns.length = k ∧ ∀ n ∈ ns, 1 ≤ n := by
  induction k generalizing gen ns with
  | zero =>
    simp only [trialsOf, Option.some.injEq, Prod.mk.injEq] at h
    simp [← h.1]
  | succ k ih =>
    rw [trialsOf] at h
    cases hf : firstHeads gen with
    | none => simp [hf] at h
    | some n =>
      cases ht : trialsOf k (gen.drop n) with
      | none => simp [hf, ht] at h
      | some p =>
        obtain ⟨ms, r⟩ := p
        simp only [hf, ht, Option.some.injEq, Prod.mk.injEq] at h
        obtain ⟨pre, -, -, hn⟩ := firstHeads_eq_some gen n hf
        obtain ⟨hl, hpos⟩ := ih (gen.drop n) ms (h.2 ▸ ht)
        rw [← h.1]
        refine ⟨by simp [hl], ?_⟩
        intro m hm
        rcases List.mem_cons.mp hm with rfl | hm
        · omega
        · exact hpos m hm

/-! ## The loop over the samples -/

theorem progress_of_step (num_samples j : Int) (cout : List Int)
    (hstep : Int.tdiv num_samples 10 ≠ 0) :
    progress num_samples j cout = .ok
      (if Int.tmod j (Int.tdiv num_samples 10) = 0
        then cout ++ [Int.tdiv (wrap32 (100 * j)) num_samples] else cout) := by
  have hns : num_samples ≠ 0 := by
    rintro rfl
    exact hstep (by decide)
  unfold progress intDiv intMod
  simp only [show (10 : Int) ≠ 0 by decide, if_false, hstep, hns]
  split <;> rfl

theorem progress_no_step (num_samples j : Int) (cout : List Int)
    (hstep : Int.tdiv num_samples 10 = 0) :
    progress num_samples j cout = .error .divByZero := by
  unfold progress intDiv intMod
  simp [hstep]

theorem sample_of_step (num_samples num_trials j : Int) (s : Machine F) (x : F)
    (hstep : Int.tdiv num_samples 10 ≠ 0) (hx : readAt s.avg_payoff j = .ok x) :
    sample num_samples num_trials j s =
      match trialsOf num_trials.toNat s.gen with
      | some (ns, rest) =>
        .ok ⟨s.avg_payoff.set j.toNat ((x + payoffSum ns) / (num_trials : F)), rest,
          if Int.tmod j (Int.tdiv num_samples 10) = 0
            then s.cout ++ [Int.tdiv (wrap32 (100 * j)) num_samples] else s.cout⟩
      | none => .error .outOfDraws := by
  unfold sample forLoop
  rw [progress_of_step num_samples j s.cout hstep]
  simp only []
  have hloop := fun out : List Int =>
    loopFrom_trial j num_trials.toNat 0 (⟨s.avg_payoff, s.gen, out⟩ : Machine F) x hx
  simp only [] at hloop
  rw [hloop]
  cases ht : trialsOf num_trials.toNat s.gen with
  | none => rfl
  | some p =>
    obtain ⟨ns, rest⟩ := p
    have h1 := readAt_set_self s.avg_payoff j x (x + payoffSum ns) hx
    simp only [h1, writeAt_of_readAt _ j _ _ h1, List.set_set]

theorem readAt_append_replicate (done : List F) (m : Nat) :
    readAt (done ++ List.replicate (m + 1) (0 : F)) (done.length : Int) = .ok 0 := by
  rw [readAt_eq_ok_iff]
  refine ⟨Int.natCast_nonneg _, ?_⟩
  rw [Int.toNat_ofNat, List.getElem?_append_right (le_refl _)]
  simp [List.replicate_succ]

theorem set_append_replicate (done : List F) (m : Nat) (y : F) :
    (done ++ List.replicate (m + 1) (0 : F)).set ((done.length : Int)).toNat y
      = (done ++ [y]) ++ List.replicate m 0 := by
  simp [List.replicate_succ, List.set_append_right]

theorem loopFrom_sample (num_samples num_trials : Int)
    (hstep : Int.tdiv num_samples 10 ≠ 0) (m : Nat) (done : List F) (gen : List Nat)
    (cout : List Int) :
    loopFrom (sample num_samples num_trials) m (done.length : Int)
        ⟨done ++ List.replicate m 0, gen, cout⟩ =
      match samplesOf m num_trials.toNat gen with
      | some (nss, rest) =>
        .ok ⟨done ++ nss.map (sampleMean num_trials), rest,
          progressFrom num_samples m (done.length : Int) cout⟩
      | none => .error .outOfDraws := by
  induction m generalizing done gen cout with
  | zero => simp [loopFrom, samplesOf, progressFrom]
  | succ m ih =>
    rw [loopFrom, samplesOf, progressFrom,
      sample_of_step num_samples num_trials _ _ 0 hstep (readAt_append_replicate done m)]
    simp only []
    cases ht : trialsOf num_trials.toNat gen with
    | none => rfl
    | some p =>
      obtain ⟨ns, rest⟩ := p
      simp only []
      rw [set_append_replicate]
      have hlen : (done.length : Int) + 1 = ((done ++ [(0 + payoffSum ns) / (num_trials : F)]).length : Int) := by
        simp
      rw [hlen, ih]
      cases hs : samplesOf m num_trials.toNat rest with
      | none => rfl
      | some q =>
        obtain ⟨nss, rest1⟩ := q
        simp [sampleMean]

theorem initPayoff_eq (num_samples : Int) :
    initPayoff num_samples = .ok (List.replicate num_samples.toNat (0 : F)) := by
  have h : ∀ (r : Nat) (k : Int) (v : List F),
      loopFrom (fun _ v => .ok (v ++ [(0 : F)])) r k v = .ok (v ++ List.replicate r 0) := by
    intro r
    induction r with
    | zero => intro k v; simp [loopFrom]
    | succ r ih =>
      intro k v
      rw [loopFrom]
      simp only []
      rw [ih]
      simp [List.replicate_succ]
  simp [initPayoff, forLoop, h]

/-- With a non-zero progress step `num_samples/10`, the simulation phase returns
exactly the sample means read off the draws, or runs out of draws. -/
theorem simulate_of_step (num_samples num_trials : Int) (gen : List Nat)
    (hstep : Int.tdiv num_samples 10 ≠ 0) :
    simulate num_samples num_trials gen =
      match samplesOf num_samples.toNat num_trials.toNat gen with
      | some (nss, rest) =>
        (.ok ⟨nss.map (sampleMean num_trials), rest,
          progressFrom num_samples num_samples.toNat 0 []⟩ : Except Stop (Machine F))
      | none => .error .outOfDraws := by
  unfold simulate forLoop
  rw [initPayoff_eq]
  simp only []
  have h := loopFrom_sample (F := F) num_samples num_trials hstep num_samples.toNat [] gen []
  simp only [List.nil_append, List.length_nil, Nat.cast_zero] at h
  exact h

/-- With a zero progress step the first sample, if there is one, stops the run. -/
theorem simulate_no_step (num_samples num_trials : Int) (gen : List Nat)
    (hstep : Int.tdiv num_samples 10 = 0) :
    simulate num_samples num_trials gen =
      if num_samples ≤ 0 then (.ok ⟨[], gen, []⟩ : Except Stop (Machine F))
      else .error .divByZero := by
  unfold simulate forLoop
  rw [initPayoff_eq]
  simp only []
  by_cases h0 : num_samples ≤ 0
  · simp [h0, Int.toNat_eq_zero.mpr h0, loopFrom]
  · obtain ⟨m, hm⟩ : ∃ m, num_samples.toNat = m + 1 :=
      Nat.exists_eq_succ_of_ne_zero (by rw [Ne, Int.toNat_eq_zero]; exact h0)
    rw [hm, loopFrom, sample, progress_no_step _ _ _ hstep]
    simp [h0]

theorem samplesOf_spec (m t : Nat) (gen : List Nat) (nss : List (List Nat)) (rest : List Nat)
    (h : samplesOf m t gen = some (nss, rest)) :
    nss.length = m ∧ ∀ ns ∈ nss, ns.length = t ∧ ∀ n ∈ ns, 1 ≤ n := by
  induction m generalizing gen nss with
  | zero =>
    simp only [samplesOf, Option.some.injEq, Prod.mk.injEq] at h
    simp [← h.1]
  | succ m ih =>
    rw [samplesOf] at h
    cases ht : trialsOf t gen with
    | none => simp [ht] at h
    | some p =>
      obtain ⟨ns, r⟩ := p
      cases hs : samplesOf m t r with
      | none => simp [ht, hs] at h
      | some q =>
        obtain ⟨mss, r1⟩ := q
        simp only [ht, hs, Option.some.injEq, Prod.mk.injEq] at h
        obtain ⟨hl, hall⟩ := ih r mss (h.2 ▸ hs)
        rw [← h.1]
        refine ⟨by simp [hl], ?_⟩
        intro ks hks
        rcases List.mem_cons.mp hks with rfl | hks
        · exact trialsOf_spec t gen ks r ht
        · exact hall ks hks

theorem payoffSum_ge (ns : List Nat) (h : ∀ n ∈ ns, 1 ≤ n) :
    2 * (ns.length : F) ≤ payoffSum ns := by
  induction ns with
  | nil => simp [payoffSum]
  | cons n ns ih =>
    have h1 : 1 ≤ n := h n (List.mem_cons_self n ns)
    have h2 : (2 : F) ≤ 2 ^ n := by
      calc (2 : F) = 2 ^ 1 := (pow_one 2).symm
        _ ≤ 2 ^ n := pow_le_pow_right₀ (by norm_num) h1
    have h3 := ih (fun k hk => h k (List.mem_cons_of_mem n hk))
    simp only [payoffSum, List.length_cons, List.map_cons, List.sum_cons, Nat.cast_add,
      Nat.cast_one] at h3 ⊢
    linarith

theorem sampleMean_ge (num_trials : Int) (ns : List Nat) (hnt : 1 ≤ num_trials)
    (hlen : ns.length = num_trials.toNat) (h : ∀ n ∈ ns, 1 ≤ n) :
    (2 : F) ≤ sampleMean num_trials ns := by
  have hpos : (0 : F) < (num_trials : F) := by
    exact_mod_cast (by omega : (0 : Int) < num_trials)
  have hcast : ((ns.length : Nat) : F) = (num_trials : F) := by
    have : ((ns.length : Nat) : Int) = num_trials := by omega
    exact_mod_cast this
  have hsum := payoffSum_ge (F := F) ns h
  rw [hcast] at hsum
  rw [sampleMean, le_div_iff₀ hpos]
  exact hsum

/-- C2 (the run that the claim covers and the code cannot finish): with
`num_samples = 5` and `num_trials = 1` the first sample evaluates
`j % (num_samples/10)` with divisor `0`, so no sample mean is produced. -/
theorem simulate_five_samples_stops :
    simulate 5 1 [0, 0, 0, 0, 0] = (.error .divByZero : Except Stop (Machine ℚ)) := by
  rw [simulate_no_step 5 1 _ (by decide)]
  simp

/-- C3: for `num_samples ≥ 1` and `num_trials ≥ 1`, every sample mean of a
completed simulation is at least `2`, hence strictly positive. -/
theorem sample_means_ge_two (num_samples num_trials : Int) (gen : List Nat) (s : Machine F)
    (hns : 1 ≤ num_samples) (hnt : 1 ≤ num_trials)
    (hrun : simulate num_samples num_trials gen = .ok s) :
    ∀ x ∈ s.avg_payoff, 2 ≤ x ∧ 0 < x := by
  have hge : ∀ x ∈ s.avg_payoff, (2 : F) ≤ x := by
    by_cases hstep : Int.tdiv num_samples 10 = 0
    · rw [simulate_no_step num_samples num_trials gen hstep,
        if_neg (by omega : ¬ num_samples ≤ 0)] at hrun
      cases hrun
    · rw [simulate_of_step num_samples num_trials gen hstep] at hrun
      cases hs : samplesOf num_samples.toNat num_trials.toNat gen with
      | none => simp [hs] at hrun
      | some p =>
        obtain ⟨nss, rest⟩ := p
        simp only [hs, Except.ok.injEq] at hrun
        obtain ⟨-, hall⟩ := samplesOf_spec _ _ _ _ _ hs
        intro x hx
        rw [← hrun] at hx
        obtain ⟨ns, hmem, rfl⟩ := List.mem_map.mp hx
        exact sampleMean_ge num_trials ns hnt (hall ns hmem).1 (hall ns hmem).2
  intro x hx
  have h2 := hge x hx
  exact ⟨h2, by linarith⟩

/-- C3 on a run of 10 samples of 2 trials: the first sample needs 1 and 2 draws
(mean 3), the others 1 and 1 (mean 2). -/
theorem sample_means_ge_two_witness :
    simulate 10 2 [0, 1, 0, 0, 0, 0, 0, 0, 0, 0, 0, 0, 0, 0, 0, 0, 0, 0, 0, 0, 0] =
      (.ok ⟨[3, 2, 2, 2, 2, 2, 2, 2, 2, 2], [], [0, 10, 20, 30, 40, 50, 60, 70, 80, 90]⟩ :
        Except Stop (Machine ℚ)) ∧
    ∀ x ∈ [(3 : ℚ), 2, 2, 2, 2, 2, 2, 2, 2, 2], 2 ≤ x ∧ 0 < x := by
  have hrun : simulate 10 2 [0, 1, 0, 0, 0, 0, 0, 0, 0, 0, 0, 0, 0, 0, 0, 0, 0, 0, 0, 0, 0] =
      (.ok ⟨[3, 2, 2, 2, 2, 2, 2, 2, 2, 2], [], [0, 10, 20, 30, 40, 50, 60, 70, 80, 90]⟩ :
        Except Stop (Machine ℚ)) := by
    rw [simulate_of_step _ _ _ (by decide)]
    norm_num [samplesOf, trialsOf, firstHeads, sampleMean, payoffSum, progressFrom, wrap32,
      Int.tdiv, Int.tmod]
  exact ⟨hrun, sample_means_ge_two 10 2 _ _ (by decide) (by decide) hrun⟩

theorem samplesOf_one (m : Nat) (gen : List Nat) (nss : List (List Nat)) (rest : List Nat)
    (h : samplesOf m 1 gen = some (nss, rest)) :
    ∃ counts : List Nat, nss = counts.map (fun n => [n]) ∧ counts.length = m ∧
      ∀ n ∈ counts, 1 ≤ n := by
  obtain ⟨hlen, hall⟩ := samplesOf_spec m 1 gen nss rest h
  clear h
  induction nss generalizing m with
  | nil => exact ⟨[], rfl, by simpa using hlen, by simp⟩
  | cons ns nss ih =>
    obtain ⟨h1, hpos⟩ := hall ns (List.mem_cons_self ns nss)
    obtain ⟨n, rfl⟩ := List.length_eq_one.mp h1
    obtain ⟨counts, hc, hcl, hcp⟩ :=
      ih nss.length rfl (fun ks hks => hall ks (List.mem_cons_of_mem _ hks))
    refine ⟨n :: counts, by simp [hc], by simp [hcl, ← hlen], ?_⟩
    intro k hk
    rcases List.mem_cons.mp hk with rfl | hk
    · exact hpos k (List.mem_singleton_self k)
    · exact hcp k hk

/-- C4: with `num_trials = 1`, for any draws, the sample means of a completed
simulation are the payoffs `2 ^ n` of the single trials read off the draws in
order, `n ≥ 1` being the first-heads position of the trial; each is a power of
two and at least `2`. -/
theorem single_trial_sample_is_payoff (num_samples : Int) (gen : List Nat) (s : Machine F)
    (hrun : simulate num_samples 1 gen = .ok s) :
    ∃ counts : List Nat,
      samplesOf num_samples.toNat 1 gen = some (counts.map (fun n => [n]), s.gen) ∧
      counts.length = num_samples.toNat ∧
      s.avg_payoff = counts.map (fun n => (2 : F) ^ n) ∧
      (∀ n ∈ counts, 1 ≤ n) ∧
      ∀ x ∈ s.avg_payoff, (∃ n : Nat, 1 ≤ n ∧ x = 2 ^ n) ∧ 2 ≤ x := by
  have key : ∃ counts : List Nat,
      samplesOf num_samples.toNat 1 gen = some (counts.map (fun n => [n]), s.gen) ∧
      counts.length = num_samples.toNat ∧
      s.avg_payoff = counts.map (fun n => (2 : F) ^ n) ∧ (∀ n ∈ counts, 1 ≤ n) := by
    by_cases hstep : Int.tdiv num_samples 10 = 0
    · rw [simulate_no_step num_samples 1 gen hstep] at hrun
      by_cases h0 : num_samples ≤ 0
      · simp only [h0, if_true, Except.ok.injEq] at hrun
        refine ⟨[], ?_, ?_, ?_, by simp⟩
        · simp [Int.toNat_eq_zero.mpr h0, samplesOf, ← hrun]
        · simp [Int.toNat_eq_zero.mpr h0]
        · simp [← hrun]
      · simp [h0] at hrun
    · rw [simulate_of_step num_samples 1 gen hstep] at hrun
      have h1 : (1 : Int).toNat = 1 := rfl
      rw [h1] at hrun
      cases hs : samplesOf num_samples.toNat 1 gen with
      | none => simp [hs] at hrun
      | some p =>
        obtain ⟨nss, rest⟩ := p
        simp only [hs, Except.ok.injEq] at hrun
        obtain ⟨counts, hc, hcl, hcp⟩ := samplesOf_one _ _ _ _ hs
        refine ⟨counts, ?_, hcl, ?_, hcp⟩
        · rw [hc, ← hrun]
        · rw [← hrun, hc]
          simp [sampleMean, payoffSum, Function.comp_def]
  obtain ⟨counts, h1, h2, h3, h4⟩ := key
  refine ⟨counts, h1, h2, h3, h4, ?_⟩
  intro x hx
  rw [h3] at hx
  obtain ⟨n, hn, rfl⟩ := List.mem_map.mp hx
  refine ⟨⟨n, h4 n hn, rfl⟩, ?_⟩
  calc (2 : F) = 2 ^ 1 := (pow_one 2).symm
    _ ≤ 2 ^ n := pow_le_pow_right₀ (by norm_num) (h4 n hn)

/-- C4 on a run of 10 samples of one trial: the second trial needs 3 draws and
pays `8`, every other one pays `2`. -/
theorem single_trial_sample_is_payoff_witness :
    simulate 10 1 [0, 1, 1, 0, 0, 0, 0, 0, 0, 0, 0, 0, 1] =
      (.ok ⟨[2, 8, 2, 2, 2, 2, 2, 2, 2, 2], [1], [0, 10, 20, 30, 40, 50, 60, 70, 80, 90]⟩ :
        Except Stop (Machine ℚ)) ∧
    ∀ x ∈ [(2 : ℚ), 8, 2, 2, 2, 2, 2, 2, 2, 2], (∃ n : Nat, 1 ≤ n ∧ x = 2 ^ n) ∧ 2 ≤ x := by
  have hrun : simulate 10 1 [0, 1, 1, 0, 0, 0, 0, 0, 0, 0, 0, 0, 1] =
      (.ok ⟨[2, 8, 2, 2, 2, 2, 2, 2, 2, 2], [1], [0, 10, 20, 30, 40, 50, 60, 70, 80, 90]⟩ :
        Except Stop (Machine ℚ)) := by
    rw [simulate_of_step _ _ _ (by decide)]
    norm_num [samplesOf, trialsOf, firstHeads, sampleMean, payoffSum, progressFrom, wrap32,
      Int.tdiv, Int.tmod]
  obtain ⟨counts, -, -, -, -, hall⟩ := single_trial_sample_is_payoff 10 _ _ hrun
  exact ⟨hrun, hall⟩

/-! ## The statistics of the sample means -/

theorem loopFrom_fold {σ : Type} (v : List F) (f : σ → F → σ)
    (body : Int → σ → Except Stop σ)
    (hbody : ∀ k s x, readAt v k = .ok x → body k s = .ok (f s x))
    (ys pre : List F) (s : σ) (hv : v = pre ++ ys) :
    loopFrom body ys.length (pre.length : Int) s = .ok (ys.foldl f s) := by
  induction ys generalizing pre s with
  | nil => rfl
  | cons y ys ih =>
    have hread : readAt v (pre.length : Int) = .ok y := by
      rw [readAt_eq_ok_iff]
      refine ⟨Int.natCast_nonneg _, ?_⟩
      rw [hv, Int.toNat_ofNat, List.getElem?_append_right (le_refl _)]
      simp
    rw [List.length_cons, loopFrom, hbody _ s y hread]
    simp only [List.foldl_cons]
    have hlen : (pre.length : Int) + 1 = ((pre ++ [y]).length : Int) := by simp
    rw [hlen]
    exact ih (pre ++ [y]) (f s y) (by simp [hv])

theorem forLoop_fold {σ : Type} (v : List F) (f : σ → F → σ)
    (body : Int → σ → Except Stop σ)
    (hbody : ∀ k s x, readAt v k = .ok x → body k s = .ok (f s x)) (s : σ) :
    forLoop (v.length : Int) body s = .ok (v.foldl f s) := by
  have h := loopFrom_fold v f body hbody v [] s rfl
  simpa [forLoop] using h

theorem foldl_add (xs : List F) (a : F) : xs.foldl (fun m x => m + x) a = a + xs.sum := by
  induction xs generalizing a with
  | nil => simp
  | cons x xs ih => simp [ih, add_assoc]

theorem foldl_moments (xs : List F) (μ : F) (m : Sums F) :
    xs.foldl (fun (m : Sums F) x =>
        ({ var := m.var + (x - μ) * (x - μ),
           skewTop := m.skewTop + (x - μ) * (x - μ) * (x - μ),
           kurt := m.kurt + (x - μ) * (x - μ) * (x - μ) * (x - μ) } : Sums F)) m
      = ⟨m.var + devSum 2 xs μ, m.skewTop + devSum 3 xs μ, m.kurt + devSum 4 xs μ⟩ := by
  induction xs generalizing m with
  | nil => simp [devSum]
  | cons x xs ih =>
    rw [List.foldl_cons, ih]
    simp only [devSum, List.map_cons, List.sum_cons, Sums.mk.injEq]
    refine ⟨by ring, by ring, by ring⟩

theorem meanLoop_eq (xs : List F) :
    forLoop (xs.length : Int) (meanStep xs) 0 = .ok xs.sum := by
  rw [forLoop_fold xs (fun m x => m + x) (meanStep xs)
    (fun k s x h => by simp [meanStep, h]) 0, foldl_add, zero_add]

theorem momentLoop_eq (xs : List F) (μ : F) :
    forLoop (xs.length : Int) (momentStep xs μ) ⟨0, 0, 0⟩
      = .ok ⟨devSum 2 xs μ, devSum 3 xs μ, devSum 4 xs μ⟩ := by
  rw [forLoop_fold xs (fun (m : Sums F) x =>
        ({ var := m.var + (x - μ) * (x - μ),
           skewTop := m.skewTop + (x - μ) * (x - μ) * (x - μ),
           kurt := m.kurt + (x - μ) * (x - μ) * (x - μ) * (x - μ) } : Sums F))
      (momentStep xs μ) (fun k s x h => by simp only [momentStep, h]) ⟨0, 0, 0⟩,
    foldl_moments]
  simp

theorem length_sort (xs : List F) : (sort xs).length = xs.length :=
  List.length_insertionSort _ xs

/-- What lines 48-74 compute from a non-empty sample sequence. -/
theorem statistics_eq (sqrt : F → F) (xs : List F) (hlen : 1 ≤ xs.length) :
    ∃ med, (sort xs)[xs.length / 2]? = some med ∧
      statistics sqrt (xs.length : Int) xs = .ok
        { avg_payoff := sort xs
          mean := meanOf xs
          var := devSum 2 xs (meanOf xs) / ((xs.length : F) - 1)
          skewTop := devSum 3 xs (meanOf xs) / (xs.length : F)
          skewBot := sqrt (devSum 2 xs (meanOf xs) / (xs.length : F)
            * (devSum 2 xs (meanOf xs) / (xs.length : F))
            * (devSum 2 xs (meanOf xs) / (xs.length : F)))
          skew := devSum 3 xs (meanOf xs) / (xs.length : F)
            / sqrt (devSum 2 xs (meanOf xs) / (xs.length : F)
              * (devSum 2 xs (meanOf xs) / (xs.length : F))
              * (devSum 2 xs (meanOf xs) / (xs.length : F)))
          kurt := devSum 4 xs (meanOf xs)
            * ((xs.length : F) / (devSum 2 xs (meanOf xs) * devSum 2 xs (meanOf xs)))
          median := med } := by
  have hidx : xs.length / 2 < (sort xs).length := by
    rw [length_sort]
    omega
  refine ⟨(sort xs).get ⟨xs.length / 2, hidx⟩, by simp [List.getElem?_eq_getElem hidx], ?_⟩
  have hhalf : intDiv (xs.length : Int) 2 = .ok ((xs.length / 2 : Nat) : Int) := by
    rw [Int.ofNat_tdiv]
    simp [intDiv]
  have hmed := readAt_natCast (sort xs) (xs.length / 2) hidx
  unfold statistics
  rw [meanLoop_eq]
  simp only [Int.cast_natCast]
  rw [show xs.sum / (xs.length : F) = meanOf xs from rfl, momentLoop_eq]
  simp only [hhalf, hmed, Int.cast_sub, Int.cast_natCast, Int.cast_one]

/-- What lines 76-82 print for a non-empty sample sequence. -/
theorem report_eq (sqrt : F → F) (num_trials : Int) (st : Stats F) (n : Nat)
    (hlen : st.avg_payoff.length = n) (hn : 1 ≤ n) :
    ∃ lo hi, st.avg_payoff[0]? = some lo ∧ st.avg_payoff[n - 1]? = some hi ∧
      report sqrt (n : Int) num_trials st = .ok
        ⟨(n : Int), num_trials, st.mean, st.median, sqrt st.var, lo, hi, st.skew, st.kurt - 3⟩ := by
  have h0 : 0 < st.avg_payoff.length := by omega
  have h1 : n - 1 < st.avg_payoff.length := by omega
  refine ⟨st.avg_payoff.get ⟨0, h0⟩, st.avg_payoff.get ⟨n - 1, h1⟩,
    by simp [List.getElem?_eq_getElem h0], by simp [List.getElem?_eq_getElem h1], ?_⟩
  have hlo := readAt_natCast st.avg_payoff 0 h0
  have hhi := readAt_natCast st.avg_payoff (n - 1) h1
  have hcast : ((n - 1 : Nat) : Int) = (n : Int) - 1 := by omega
  rw [hcast] at hhi
  simp only [Nat.cast_zero] at hlo
  simp only [report, hlo, hhi]

/-- What lines 48-82 compute and print for a non-empty sample sequence. -/
theorem analysis_eq (sqrt : F → F) (xs : List F) (num_trials : Int) (hlen : 1 ≤ xs.length) :
    ∃ st r, statistics sqrt (xs.length : Int) xs = .ok st ∧
      report sqrt (xs.length : Int) num_trials st = .ok r ∧
      st.avg_payoff = sort xs ∧
      st.mean = meanOf xs ∧
      st.var = devSum 2 xs (meanOf xs) / ((xs.length : F) - 1) ∧
      st.skewTop = devSum 3 xs (meanOf xs) / (xs.length : F) ∧
      st.skewBot = sqrt (devSum 2 xs (meanOf xs) / (xs.length : F)
            * (devSum 2 xs (meanOf xs) / (xs.length : F))
            * (devSum 2 xs (meanOf xs) / (xs.length : F))) ∧
      st.skew = st.skewTop / st.skewBot ∧
      st.kurt = devSum 4 xs (meanOf xs)
            * ((xs.length : F) / (devSum 2 xs (meanOf xs) * devSum 2 xs (meanOf xs))) ∧
      (sort xs)[xs.length / 2]? = some st.median ∧
      r.mean = st.mean ∧ r.median = st.median ∧ r.stdDev = sqrt st.var ∧
      (sort xs)[0]? = some r.rangeLo ∧ (sort xs)[xs.length - 1]? = some r.rangeHi ∧
      r.skewness = st.skew ∧ r.excessKurtosis = st.kurt - 3 := by
  obtain ⟨med, hmed, hst⟩ := statistics_eq sqrt xs hlen
  obtain ⟨lo, hi, hlo, hhi, hr⟩ := report_eq sqrt num_trials
    { avg_payoff := sort xs
      mean := meanOf xs
      var := devSum 2 xs (meanOf xs) / ((xs.length : F) - 1)
      skewTop := devSum 3 xs (meanOf xs) / (xs.length : F)
      skewBot := sqrt (devSum 2 xs (meanOf xs) / (xs.length : F)
        * (devSum 2 xs (meanOf xs) / (xs.length : F))
        * (devSum 2 xs (meanOf xs) / (xs.length : F)))
      skew := devSum 3 xs (meanOf xs) / (xs.length : F)
        / sqrt (devSum 2 xs (meanOf xs) / (xs.length : F)
          * (devSum 2 xs (meanOf xs) / (xs.length : F))
          * (devSum 2 xs (meanOf xs) / (xs.length : F)))
      kurt := devSum 4 xs (meanOf xs)
        * ((xs.length : F) / (devSum 2 xs (meanOf xs) * devSum 2 xs (meanOf xs)))
      median := med } xs.length (length_sort xs) hlen
  exact ⟨_, _, hst, hr, rfl, rfl, rfl, rfl, rfl, rfl, rfl, hmed, rfl, rfl, rfl, hlo, hhi,
    rfl, rfl⟩

theorem devSum_two_nonneg (xs : List F) (μ : F) : 0 ≤ devSum 2 xs μ := by
  unfold devSum
  apply List.sum_nonneg
  intro y hy
  obtain ⟨x, -, rfl⟩ := List.mem_map.mp hy
  exact sq_nonneg _

/-- C5: for a sample sequence of length at least 2, the mean is the sum over the
length, the variance given to the standard deviation is the sum of the squared
deviations over the length less one, and the reported standard deviation is the
non-negative square root of that variance. -/
theorem mean_variance_stdDev (xs : List ℝ) (num_trials : Int) (hlen : 2 ≤ xs.length) :
    ∃ st r, statistics Real.sqrt (xs.length : Int) xs = .ok st ∧
      report Real.sqrt (xs.length : Int) num_trials st = .ok r ∧
      r.mean = xs.sum / (xs.length : ℝ) ∧
      st.var = (xs.map (fun x => (x - r.mean) ^ 2)).sum / ((xs.length : ℝ) - 1) ∧
      r.stdDev = Real.sqrt st.var ∧ 0 ≤ r.stdDev ∧ r.stdDev ^ 2 = st.var := by
  obtain ⟨st, r, hst, hr, -, hmean, hvar, -, -, -, -, -, hrm, -, hsd, -⟩ :=
    analysis_eq Real.sqrt xs num_trials (by omega)
  refine ⟨st, r, hst, hr, by rw [hrm, hmean, meanOf], ?_, hsd, ?_, ?_⟩
  · rw [hvar, hrm, hmean, devSum]
  · rw [hsd]
    exact Real.sqrt_nonneg _
  rw [hsd]
  apply Real.sq_sqrt
  rw [hvar]
  apply div_nonneg (devSum_two_nonneg xs _)
  have h2 : (2 : ℝ) ≤ (xs.length : ℝ) := by exact_mod_cast hlen
  linarith

/-- C5 on `[1, 2, 3, 4, 5]`: mean `3`, variance `2.5`, and the standard
deviation squares to `2.5`. -/
theorem mean_variance_stdDev_witness :
    ∃ st r, statistics Real.sqrt 5 [1, 2, 3, 4, 5] = .ok st ∧
      report Real.sqrt 5 1000000 st = .ok r ∧
      r.mean = 3 ∧ st.var = 2.5 ∧ 0 ≤ r.stdDev ∧ r.stdDev ^ 2 = 2.5 := by
  obtain ⟨st, r, hst, hr, hmean, hvar, -, hnn, hsq⟩ :=
    mean_variance_stdDev [1, 2, 3, 4, 5] 1000000 (by decide)
  have hm : r.mean = 3 := by
    rw [hmean]
    norm_num
  have hv : st.var = 2.5 := by
    rw [hvar, hm]
    norm_num
  exact ⟨st, r, hst, hr, hm, hv, hnn, by rw [hsq, hv]⟩

theorem sort_unique (xs ys : List F) (hperm : ys.Perm xs) (hsorted : ys.Sorted (· ≤ ·)) :
    ys = sort xs :=
  List.eq_of_perm_of_sorted (hperm.trans (List.perm_insertionSort _ xs).symm) hsorted
    (List.sorted_insertionSort _ xs)

/-- C6: for a non-empty sample sequence of length `n`, the reported median is
the element at index `n / 2` (integer division, from 0) of the ascending
rearrangement of the sequence; for `n = 2 * m` this is index `m`, the upper of
the two middle elements. -/
theorem median_is_upper_middle (sqrt : F → F) (xs : List F) (num_trials : Int)
    (hlen : 1 ≤ xs.length) :
    ∃ st r, statistics sqrt (xs.length : Int) xs = .ok st ∧
      report sqrt (xs.length : Int) num_trials st = .ok r ∧
      (∀ ys : List F, ys.Perm xs → ys.Sorted (· ≤ ·) →
        ys[xs.length / 2]? = some r.median) ∧
      (∀ (ys : List F) (m : Nat), ys.Perm xs → ys.Sorted (· ≤ ·) → xs.length = 2 * m →
        ys[m]? = some r.median) := by
  obtain ⟨st, r, hst, hr, -, -, -, -, -, -, -, hmed, -, hrmed, -⟩ :=
    analysis_eq sqrt xs num_trials hlen
  have hmain : ∀ ys : List F, ys.Perm xs → ys.Sorted (· ≤ ·) →
      ys[xs.length / 2]? = some r.median := by
    intro ys hp hs
    rw [sort_unique xs ys hp hs, hrmed]
    exact hmed
  refine ⟨st, r, hst, hr, hmain, ?_⟩
  intro ys m hp hs hm
  have h := hmain ys hp hs
  have hidx : xs.length / 2 = m := by omega
  rw [hidx] at h
  exact h

/-- C6 on `[1, 3, 2, 5, 4]` and `[1, 2, 3, 4]`: both medians are `3`, and the
second is not the average `2.5` of the two middle elements. -/
theorem median_is_upper_middle_witness :
    (∃ st r, statistics (fun x => x) 5 [(1 : ℚ), 3, 2, 5, 4] = .ok st ∧
      report (fun x => x) 5 1000000 st = .ok r ∧ r.median = 3) ∧
    (∃ st r, statistics (fun x => x) 4 [(1 : ℚ), 2, 3, 4] = .ok st ∧
      report (fun x => x) 4 1000000 st = .ok r ∧ r.median = 3 ∧ r.median ≠ (2 + 3) / 2) := by
  constructor
  · obtain ⟨st, r, hst, hr, hmed, -⟩ :=
      median_is_upper_middle (fun x => x) [(1 : ℚ), 3, 2, 5, 4] 1000000 (by decide)
    have h := hmed [1, 2, 3, 4, 5] (by decide) (by norm_num [List.Sorted])
    simp only [List.length_cons, List.length_nil] at h
    norm_num at h
    exact ⟨st, r, hst, hr, h.symm⟩
  · obtain ⟨st, r, hst, hr, -, hmed⟩ :=
      median_is_upper_middle (fun x => x) [(1 : ℚ), 2, 3, 4] 1000000 (by decide)
    have h := hmed [1, 2, 3, 4] 2 (List.Perm.refl _) (by norm_num [List.Sorted]) rfl
    norm_num at h
    refine ⟨st, r, hst, hr, h.symm, ?_⟩
    rw [← h]
    norm_num

theorem sqrt_cube_eq_rpow (y : ℝ) (hy : 0 ≤ y) :
    Real.sqrt (y * y * y) = y ^ ((3 : ℝ) / 2) := by
  have h3 : y * y * y = y ^ (3 : ℝ) := by
    rw [show (3 : ℝ) = ((3 : Nat) : ℝ) by norm_num, Real.rpow_natCast]
    ring
  rw [h3, Real.sqrt_eq_rpow, ← Real.rpow_mul hy]
  norm_num

/-- C7: for a non-empty sample sequence of length `n` whose sum of squared
deviations `Σd²` is positive, the reported skewness is
`(Σd³ / n) / ((Σd² / n) ^ (3/2))`: the divisor `skewBot` is built from `Σd² / n`,
while the variance is `Σd² / (n - 1)`, and the square root of the cube that the
code takes is the power `3/2`. -/
theorem skewness_formula (xs : List ℝ) (num_trials : Int) (hlen : 1 ≤ xs.length)
    (hpos : 0 < devSum 2 xs (meanOf xs)) :
    ∃ st r, statistics Real.sqrt (xs.length : Int) xs = .ok st ∧
      report Real.sqrt (xs.length : Int) num_trials st = .ok r ∧
      r.skewness = (devSum 3 xs (meanOf xs) / (xs.length : ℝ))
        / ((devSum 2 xs (meanOf xs) / (xs.length : ℝ)) ^ ((3 : ℝ) / 2)) ∧
      st.skewBot = (devSum 2 xs (meanOf xs) / (xs.length : ℝ)) ^ ((3 : ℝ) / 2) ∧
      st.var = devSum 2 xs (meanOf xs) / ((xs.length : ℝ) - 1) ∧
      Real.sqrt ((devSum 2 xs (meanOf xs) / (xs.length : ℝ)) ^ 3)
        = (devSum 2 xs (meanOf xs) / (xs.length : ℝ)) ^ ((3 : ℝ) / 2) := by
  obtain ⟨st, r, hst, hr, -, -, hvar, htop, hbot, hskew, -, -, -, -, -, -, -, hrs, -⟩ :=
    analysis_eq Real.sqrt xs num_trials hlen
  have hn : (0 : ℝ) < (xs.length : ℝ) := by exact_mod_cast hlen
  have hy : 0 ≤ devSum 2 xs (meanOf xs) / (xs.length : ℝ) := (div_pos hpos hn).le
  have hb : st.skewBot = (devSum 2 xs (meanOf xs) / (xs.length : ℝ)) ^ ((3 : ℝ) / 2) := by
    rw [hbot, sqrt_cube_eq_rpow _ hy]
  refine ⟨st, r, hst, hr, ?_, hb, hvar, ?_⟩
  · rw [hrs, hskew, htop, hb]
  · rw [← sqrt_cube_eq_rpow _ hy]
    congr 1
    ring

/-- C7 on `[0, 0, 3]`: `Σd² = 6`, `Σd³ = 6`, so the skewness is
`(6/3) / (6/3)^(3/2)`. -/
theorem skewness_formula_witness :
    ∃ st r, statistics Real.sqrt 3 [0, 0, 3] = .ok st ∧
      report Real.sqrt 3 1000000 st = .ok r ∧
      r.skewness = (6 / 3) / ((6 / 3 : ℝ) ^ ((3 : ℝ) / 2)) := by
  have h2 : devSum 2 [(0 : ℝ), 0, 3] (meanOf [0, 0, 3]) = 6 := by
    norm_num [devSum, meanOf]
  have h3 : devSum 3 [(0 : ℝ), 0, 3] (meanOf [0, 0, 3]) = 6 := by
    norm_num [devSum, meanOf]
  obtain ⟨st, r, hst, hr, hskew, -⟩ :=
    skewness_formula [0, 0, 3] 1000000 (by decide) (by rw [h2]; norm_num)
  refine ⟨st, r, hst, hr, ?_⟩
  rw [hskew, h2, h3]
  norm_num

/-- C8: for a non-empty sample sequence of length `n` with `Σd² ≠ 0`, the raw
kurtosis is `n · Σd⁴ / (Σd²)²`, with `Σd²` the sum of squared deviations itself
(the variance is that sum over `n - 1`), and the reported excess kurtosis is the
raw kurtosis less 3. -/
theorem excess_kurtosis_formula (sqrt : F → F) (xs : List F) (num_trials : Int)
    (hlen : 1 ≤ xs.length) (_hne : devSum 2 xs (meanOf xs) ≠ 0) :
    ∃ st r, statistics sqrt (xs.length : Int) xs = .ok st ∧
      report sqrt (xs.length : Int) num_trials st = .ok r ∧
      st.kurt = (xs.length : F) * devSum 4 xs (meanOf xs) / (devSum 2 xs (meanOf xs)) ^ 2 ∧
      st.var = devSum 2 xs (meanOf xs) / ((xs.length : F) - 1) ∧
      r.excessKurtosis = st.kurt - 3 ∧
      r.excessKurtosis
        = (xs.length : F) * devSum 4 xs (meanOf xs) / (devSum 2 xs (meanOf xs)) ^ 2 - 3 := by
  obtain ⟨st, r, hst, hr, -, -, hvar, -, -, -, hkurt, -, -, -, -, -, -, -, hex⟩ :=
    analysis_eq sqrt xs num_trials hlen
  have hk : st.kurt
      = (xs.length : F) * devSum 4 xs (meanOf xs) / (devSum 2 xs (meanOf xs)) ^ 2 := by
    rw [hkurt]
    ring
  exact ⟨st, r, hst, hr, hk, hvar, hex, by rw [hex, hk]⟩

/-- C8 on `[1, 2, 3, 4, 5]`: `Σd² = 10`, `Σd⁴ = 34`, raw kurtosis `1.7`, excess
kurtosis `-1.3`. -/
theorem excess_kurtosis_formula_witness :
    devSum 2 [(1 : ℚ), 2, 3, 4, 5] (meanOf [1, 2, 3, 4, 5]) = 10 ∧
    devSum 4 [(1 : ℚ), 2, 3, 4, 5] (meanOf [1, 2, 3, 4, 5]) = 34 ∧
    ∃ st r, statistics (fun x => x) 5 [(1 : ℚ), 2, 3, 4, 5] = .ok st ∧
      report (fun x => x) 5 1000000 st = .ok r ∧
      st.kurt = 1.7 ∧ r.excessKurtosis = -1.3 := by
  have h2 : devSum 2 [(1 : ℚ), 2, 3, 4, 5] (meanOf [1, 2, 3, 4, 5]) = 10 := by
    norm_num [devSum, meanOf]
  have h4 : devSum 4 [(1 : ℚ), 2, 3, 4, 5] (meanOf [1, 2, 3, 4, 5]) = 34 := by
    norm_num [devSum, meanOf]
  obtain ⟨st, r, hst, hr, hk, -, -, hex⟩ :=
    excess_kurtosis_formula (fun x => x) [(1 : ℚ), 2, 3, 4, 5] 1000000 (by decide)
      (by rw [h2]; norm_num)
  refine ⟨h2, h4, st, r, hst, hr, ?_, ?_⟩
  · rw [hk, h2, h4]
    norm_num
  · rw [hex, h2, h4]
    norm_num

theorem sorted_sort (xs : List F) : (sort xs).Sorted (· ≤ ·) :=
  List.sorted_insertionSort _ xs

theorem mem_sort (xs : List F) (x : F) : x ∈ sort xs ↔ x ∈ xs :=
  List.mem_insertionSort _

/-- C9: for a non-empty sample sequence, the reported range is the first and
the last element of the ascending rearrangement; both are elements of the
sequence, the first is at most every element and every element is at most the
last. -/
theorem range_is_min_max (sqrt : F → F) (xs : List F) (num_trials : Int)
    (hlen : 1 ≤ xs.length) :
    ∃ st r, statistics sqrt (xs.length : Int) xs = .ok st ∧
      report sqrt (xs.length : Int) num_trials st = .ok r ∧
      st.avg_payoff.Perm xs ∧ st.avg_payoff.Sorted (· ≤ ·) ∧
      st.avg_payoff.head? = some r.rangeLo ∧ st.avg_payoff.getLast? = some r.rangeHi ∧
      r.rangeLo ∈ xs ∧ r.rangeHi ∈ xs ∧ ∀ x ∈ xs, r.rangeLo ≤ x ∧ x ≤ r.rangeHi := by
  obtain ⟨st, r, hst, hr, hsorted, -, -, -, -, -, -, -, -, -, -, hlo, hhi, -⟩ :=
    analysis_eq sqrt xs num_trials hlen
  have hl : (sort xs).length = xs.length := length_sort xs
  have h0 : 0 < (sort xs).length := by omega
  have h1 : xs.length - 1 < (sort xs).length := by omega
  rw [List.getElem?_eq_getElem h0, Option.some.injEq] at hlo
  rw [List.getElem?_eq_getElem h1, Option.some.injEq] at hhi
  have hs := sorted_sort xs
  refine ⟨st, r, hst, hr, ?_, ?_, ?_, ?_, ?_, ?_, ?_⟩
  · rw [hsorted]
    exact List.perm_insertionSort _ xs
  · rw [hsorted]
    exact hs
  · rw [hsorted, List.head?_eq_getElem?, List.getElem?_eq_getElem h0, hlo]
  · rw [hsorted, List.getLast?_eq_getElem?, hl, List.getElem?_eq_getElem h1, hhi]
  · rw [← hlo, ← mem_sort]
    exact List.getElem_mem _
  · rw [← hhi, ← mem_sort]
    exact List.getElem_mem _
  · intro x hx
    rw [← mem_sort] at hx
    obtain ⟨i, hi, rfl⟩ := List.getElem_of_mem hx
    constructor
    · rw [← hlo]
      exact hs.rel_get_of_le (a := ⟨0, h0⟩) (b := ⟨i, hi⟩) (Nat.zero_le i)
    · rw [← hhi]
      exact hs.rel_get_of_le (a := ⟨i, hi⟩) (b := ⟨xs.length - 1, h1⟩) (by
        show i ≤ xs.length - 1
        omega)

/-- C9 on `[3, 1, 2]`: the range is `1` to `3`. -/
theorem range_is_min_max_witness :
    ∃ st r, statistics (fun x => x) 3 [(3 : ℚ), 1, 2] = .ok st ∧
      report (fun x => x) 3 1000000 st = .ok r ∧ r.rangeLo = 1 ∧ r.rangeHi = 3 := by
  obtain ⟨st, r, hst, hr, -, -, -, -, hlo, hhi, hall⟩ :=
    range_is_min_max (fun x => x) [(3 : ℚ), 1, 2] 1000000 (by decide)
  refine ⟨st, r, hst, hr, ?_, ?_⟩
  · have h1 := (hall 1 (by simp)).1
    simp only [List.mem_cons, List.mem_singleton, List.not_mem_nil, or_false] at hlo
    rcases hlo with h | h | h <;> rw [h] at h1 ⊢ <;> norm_num at h1 ⊢
  · have h3 := (hall 3 (by simp)).2
    simp only [List.mem_cons, List.mem_singleton, List.not_mem_nil, or_false] at hhi
    rcases hhi with h | h | h <;> rw [h] at h3 ⊢ <;> norm_num at h3 ⊢

/-! ## Degenerate configurations -/

theorem samplesOf_zero_trials (m : Nat) (gen : List Nat) :
    samplesOf m 0 gen = some (List.replicate m [], gen) := by
  induction m with
  | zero => rfl
  | succ m ih => simp [samplesOf, trialsOf, ih, List.replicate_succ]

/-- C10, the claim refuted: with `num_samples = 10`, `num_trials = 0` and no
draws at all, the run is not rejected; the simulation ends normally, every
sample mean is the quotient of line 45 with divisor `num_trials = 0`, and `main`
goes on to print its report. -/
theorem zero_trials_not_rejected :
    (¬ ∃ e, simulate 10 0 [] = (.error e : Except Stop (Machine ℚ))) ∧
    simulate 10 0 [] = (.ok ⟨List.replicate 10 ((0 : ℚ) / ((0 : Int) : ℚ)), [],
      [0, 10, 20, 30, 40, 50, 60, 70, 80, 90]⟩ : Except Stop (Machine ℚ)) ∧
    ∃ out, main (fun x => x) 10 0 [] = (.ok out : Except Stop (Machine ℚ × Report ℚ)) := by
  have hrun : simulate 10 0 [] = (.ok ⟨List.replicate 10 ((0 : ℚ) / ((0 : Int) : ℚ)), [],
      [0, 10, 20, 30, 40, 50, 60, 70, 80, 90]⟩ : Except Stop (Machine ℚ)) := by
    rw [simulate_of_step _ _ _ (by decide)]
    norm_num [samplesOf, trialsOf, sampleMean, payoffSum, progressFrom, wrap32,
      Int.tdiv, Int.tmod, List.replicate]
  refine ⟨?_, hrun, ?_⟩
  · rintro ⟨e, he⟩
    rw [hrun] at he
    cases he
  · obtain ⟨st, r, hst, hr, -⟩ := analysis_eq (fun x => x)
      (List.replicate 10 ((0 : ℚ) / ((0 : Int) : ℚ))) 0 (by decide)
    have hlen : ((List.replicate 10 ((0 : ℚ) / ((0 : Int) : ℚ))).length : Int) = 10 := by
      simp
    rw [hlen] at hst hr
    refine ⟨(⟨List.replicate 10 ((0 : ℚ) / ((0 : Int) : ℚ)), [],
      [0, 10, 20, 30, 40, 50, 60, 70, 80, 90]⟩, r), ?_⟩
    simp only [main, hrun, hst, hr]

/-- C10 as amended: `num_trials = 0` is not rejected.  Whenever the progress
step `num_samples/10` is non-zero, each sample consumes no draw and line 45
stores `avg_payoff[j] / num_trials` with `num_trials = 0`; the simulation ends
normally with every sample mean equal to that quotient of `0` by `0`, and all
draws left. -/
theorem zero_trials_runs (num_samples : Int) (gen : List Nat)
    (hstep : Int.tdiv num_samples 10 ≠ 0) :
    (∀ (j : Int) (s : Machine F) (x : F), readAt s.avg_payoff j = .ok x →
      sample num_samples 0 j s
        = .ok ⟨s.avg_payoff.set j.toNat (x / ((0 : Int) : F)), s.gen,
            progressFrom num_samples 1 j s.cout⟩) ∧
    simulate num_samples 0 gen =
      (.ok ⟨List.replicate num_samples.toNat ((0 : F) / ((0 : Int) : F)), gen,
        progressFrom num_samples num_samples.toNat 0 []⟩ : Except Stop (Machine F)) := by
  constructor
  · intro j s x hx
    rw [sample_of_step num_samples 0 j s x hstep hx]
    simp [trialsOf, payoffSum, progressFrom]
  · rw [simulate_of_step num_samples 0 gen hstep]
    have h0 : (0 : Int).toNat = 0 := rfl
    rw [h0, samplesOf_zero_trials]
    simp [sampleMean, payoffSum]

/-- C10 as amended, on 10 samples: the run ends normally, the draws are
untouched and every entry is `0 / 0`. -/
theorem zero_trials_runs_witness :
    simulate 10 0 [1, 0, 1] =
      (.ok ⟨List.replicate 10 ((0 : ℚ) / ((0 : Int) : ℚ)), [1, 0, 1],
        progressFrom 10 10 0 []⟩ : Except Stop (Machine ℚ)) :=
  (zero_trials_runs 10 [1, 0, 1] (by decide)).2

/-! ## Small sample counts -/

/-- Lines 48-74 are lines 48-69 followed by the sort and the read of the median. -/
theorem statistics_of_moments (sqrt : F → F) (num_samples : Int) (avg_payoff : List F) :
    statistics sqrt num_samples avg_payoff =
      match moments sqrt num_samples avg_payoff with
      | .error e => .error e
      | .ok m =>
        match intDiv num_samples 2 with
        | .error e => .error e
        | .ok half =>
          match readAt (sort avg_payoff) half with
          | .error e => .error e
          | .ok median =>
            .ok ⟨sort avg_payoff, m.mean, m.var, m.skewTop, m.skewBot, m.skew, m.kurt, median⟩ := by
  unfold statistics moments
  cases forLoop num_samples (meanStep avg_payoff) 0 with
  | error e => rfl
  | ok total =>
    simp only []
    cases forLoop num_samples (momentStep avg_payoff (total / (num_samples : F))) ⟨0, 0, 0⟩ with
    | error e => rfl
    | ok m => rfl

theorem forLoop_toNat {σ : Type} (n : Int) (body : Int → σ → Except Stop σ) (s : σ) :
    forLoop n body s = forLoop ((n.toNat : Nat) : Int) body s := by
  unfold forLoop
  rw [Int.toNat_ofNat]

/-- What lines 48-69 compute when the vector has `num_samples` entries (none
when `num_samples ≤ 0`). -/
theorem moments_eq (sqrt : F → F) (num_samples : Int) (xs : List F)
    (hlen : xs.length = num_samples.toNat) :
    moments sqrt num_samples xs = .ok
      { mean := xs.sum / (num_samples : F)
        var := devSum 2 xs (xs.sum / (num_samples : F)) / ((num_samples - 1 : Int) : F)
        skewTop := devSum 3 xs (xs.sum / (num_samples : F)) / (num_samples : F)
        skewBot := sqrt (devSum 2 xs (xs.sum / (num_samples : F)) / (num_samples : F)
          * (devSum 2 xs (xs.sum / (num_samples : F)) / (num_samples : F))
          * (devSum 2 xs (xs.sum / (num_samples : F)) / (num_samples : F)))
        skew := devSum 3 xs (xs.sum / (num_samples : F)) / (num_samples : F)
          / sqrt (devSum 2 xs (xs.sum / (num_samples : F)) / (num_samples : F)
            * (devSum 2 xs (xs.sum / (num_samples : F)) / (num_samples : F))
            * (devSum 2 xs (xs.sum / (num_samples : F)) / (num_samples : F)))
        kurt := devSum 4 xs (xs.sum / (num_samples : F))
          * ((num_samples : F) / (devSum 2 xs (xs.sum / (num_samples : F))
            * devSum 2 xs (xs.sum / (num_samples : F)))) } := by
  unfold moments
  rw [forLoop_toNat, ← hlen, meanLoop_eq]
  simp only []
  rw [forLoop_toNat, ← hlen, momentLoop_eq]

theorem statistics_of_moments_ok (sqrt : F → F) (num_samples : Int) (avg_payoff : List F)
    (m : Moments F) (median : F) (hm : moments sqrt num_samples avg_payoff = .ok m)
    (hmed : readAt (sort avg_payoff) (Int.tdiv num_samples 2) = .ok median) :
    statistics sqrt num_samples avg_payoff
      = .ok ⟨sort avg_payoff, m.mean, m.var, m.skewTop, m.skewBot, m.skew, m.kurt, median⟩ := by
  rw [statistics_of_moments, hm]
  simp [intDiv, hmed]

theorem readAt_sort_singleton (x : F) : readAt (sort [x]) (Int.tdiv 1 2) = .ok x := by
  have h : Int.tdiv 1 2 = 0 := by decide
  rw [h]
  simp [sort, readAt]

theorem simulate_nonpos (num_samples num_trials : Int) (gen : List Nat)
    (hns : num_samples ≤ 0) :
    simulate num_samples num_trials gen = (.ok ⟨[], gen, []⟩ : Except Stop (Machine F)) := by
  by_cases hstep : Int.tdiv num_samples 10 = 0
  · rw [simulate_no_step num_samples num_trials gen hstep, if_pos hns]
  · rw [simulate_of_step num_samples num_trials gen hstep, Int.toNat_eq_zero.mpr hns]
    simp [samplesOf, progressFrom]

/-- C11, the claim refuted: with `num_samples = 0` nothing is rejected, the
simulation phase ends normally on the empty vector, and lines 48-69 run through
line 67 with divisor `num_samples - 1 = -1`; with a single sample mean `7`,
lines 48-74 run to the end and line 67 divides by `num_samples - 1 = 0`. -/
theorem small_sample_count_not_rejected :
    (¬ ∃ e, simulate 0 1 [] = (.error e : Except Stop (Machine ℚ))) ∧
    simulate 0 1 [] = (.ok ⟨[], [], []⟩ : Except Stop (Machine ℚ)) ∧
    (∃ m, moments (fun x => x) 0 ([] : List ℚ) = .ok m ∧
      m.var = devSum 2 [] m.mean / (((0 : Int) - 1 : Int) : ℚ) ∧ (0 : Int) - 1 ≤ 0) ∧
    (∃ st, statistics (fun x => x) 1 [(7 : ℚ)] = .ok st ∧
      st.var = devSum 2 [7] st.mean / (((1 : Int) - 1 : Int) : ℚ) ∧ (1 : Int) - 1 ≤ 0) := by
  have hrun : simulate 0 1 [] = (.ok ⟨[], [], []⟩ : Except Stop (Machine ℚ)) :=
    simulate_nonpos 0 1 [] (le_refl 0)
  refine ⟨?_, hrun, ?_, ?_⟩
  · rintro ⟨e, he⟩
    rw [hrun] at he
    cases he
  · exact ⟨_, moments_eq (fun x => x) 0 ([] : List ℚ) rfl, rfl, by decide⟩
  · exact ⟨_, statistics_of_moments_ok (fun x => x) 1 [(7 : ℚ)] _ 7
      (moments_eq (fun x => x) 1 [(7 : ℚ)] rfl) (readAt_sort_singleton 7), rfl, by decide⟩

/-- C11 as amended: `num_samples < 2` is not rejected.  Given a vector of
`num_samples` entries (none when `num_samples ≤ 0`), lines 48-69 run to the end
and line 67 divides the sum of squared deviations by `num_samples - 1 ≤ 0`; when
`num_samples ≤ 0` the simulation phase ends normally with the empty vector, and
for a single sample mean lines 48-74 complete with that quotient as variance. -/
theorem small_sample_count_reaches_variance (sqrt : F → F) (num_samples : Int)
    (xs : List F) (hns : num_samples < 2) (hlen : xs.length = num_samples.toNat) :
    ∃ m, moments sqrt num_samples xs = .ok m ∧
      m.mean = xs.sum / (num_samples : F) ∧
      m.var = devSum 2 xs m.mean / ((num_samples - 1 : Int) : F) ∧
      num_samples - 1 ≤ 0 ∧
      (num_samples ≤ 0 → ∀ (num_trials : Int) (gen : List Nat),
        simulate num_samples num_trials gen
          = (.ok ⟨[], gen, []⟩ : Except Stop (Machine F))) ∧
      (num_samples = 1 → ∃ st, statistics sqrt num_samples xs = .ok st ∧ st.var = m.var) := by
  refine ⟨_, moments_eq sqrt num_samples xs hlen, rfl, rfl, by omega, ?_, ?_⟩
  · intro h0 num_trials gen
    exact simulate_nonpos num_samples num_trials gen h0
  · intro h1
    subst h1
    obtain ⟨x, rfl⟩ := List.length_eq_one.mp (show xs.length = 1 from hlen)
    exact ⟨_, statistics_of_moments_ok sqrt 1 [x] _ x (moments_eq sqrt 1 [x] rfl)
      (readAt_sort_singleton x), rfl⟩

/-- C11 as amended, on the single sample mean `7`: lines 48-69 complete and the
variance is the quotient by `1 - 1`. -/
theorem small_sample_count_reaches_variance_witness :
    ∃ m, moments (fun x => x) 1 [(7 : ℚ)] = .ok m ∧
      m.var = devSum 2 [7] m.mean / (((1 : Int) - 1 : Int) : ℚ) ∧
      ∃ st, statistics (fun x => x) 1 [(7 : ℚ)] = .ok st ∧ st.var = m.var := by
  obtain ⟨m, hm, -, hvar, -, -, hst⟩ :=
    small_sample_count_reaches_variance (fun x => x) 1 [(7 : ℚ)] (by decide) rfl
  exact ⟨m, hm, hvar, hst rfl⟩

/-- When `num_samples ≥ 10` and the draws suffice for every trial, `main` runs to
the end: no division or modulo by zero, no index outside the vector. -/
theorem main_of_step (sqrt : F → F) (num_samples num_trials : Int) (gen : List Nat)
    (nss : List (List Nat)) (rest : List Nat) (h10 : 10 ≤ num_samples)
    (hs : samplesOf num_samples.toNat num_trials.toNat gen = some (nss, rest)) :
    ∃ r, main sqrt num_samples num_trials gen
      = .ok (⟨nss.map (sampleMean num_trials), rest,
          progressFrom num_samples num_samples.toNat 0 []⟩, r) := by
  have hstep : Int.tdiv num_samples 10 ≠ 0 := by
    rw [Int.tdiv_eq_ediv (by omega) (by decide)]
    omega
  have hsim := simulate_of_step (F := F) num_samples num_trials gen hstep
  rw [hs] at hsim
  simp only [] at hsim
  obtain ⟨hlen, -⟩ := samplesOf_spec _ _ _ _ _ hs
  have hl : ((nss.map (sampleMean (F := F) num_trials)).length : Int) = num_samples := by
    rw [List.length_map, hlen]
    omega
  obtain ⟨st, r, hst, hr, -⟩ := analysis_eq sqrt (nss.map (sampleMean (F := F) num_trials))
    num_trials (by rw [List.length_map, hlen]; omega)
  rw [hl] at hst hr
  refine ⟨r, ?_⟩
  simp only [main, hsim, hst, hr]

/-- C12 (the run that the claim covers and the code cannot finish): with
`num_samples = 5`, `num_trials = 1` and heads on every first draw, `main` stops
at the first progress test with a modulo by zero. -/
theorem main_five_samples_divides_by_zero :
    main (fun x => x) 5 1 [0, 0, 0, 0, 0]
      = (.error .divByZero : Except Stop (Machine ℚ × Report ℚ)) := by
  have h := simulate_no_step (F := ℚ) 5 1 [0, 0, 0, 0, 0] (by decide)
  rw [if_neg (by decide)] at h
  simp only [main, h]

/-! ## Order independence in exact arithmetic -/

theorem meanOf_perm (xs ys : List F) (hperm : ys.Perm xs) : meanOf ys = meanOf xs := by
  rw [meanOf, meanOf, hperm.sum_eq, hperm.length_eq]

theorem devSum_perm (p : Nat) (xs ys : List F) (μ : F) (hperm : ys.Perm xs) :
    devSum p ys μ = devSum p xs μ := by
  rw [devSum, devSum, (hperm.map _).sum_eq]

theorem sort_perm (xs ys : List F) (hperm : ys.Perm xs) : sort ys = sort xs :=
  (sort_unique xs (sort ys) ((List.perm_insertionSort _ ys).trans hperm) (sorted_sort ys)).trans
    rfl

theorem statistics_perm (sqrt : F → F) (xs ys : List F) (hlen : 1 ≤ xs.length)
    (hperm : ys.Perm xs) :
    statistics sqrt (ys.length : Int) ys = statistics sqrt (xs.length : Int) xs := by
  obtain ⟨med, hmed, hst⟩ := statistics_eq sqrt xs hlen
  obtain ⟨med1, hmed1, hst1⟩ := statistics_eq sqrt ys (by rw [hperm.length_eq]; exact hlen)
  rw [sort_perm xs ys hperm, hperm.length_eq] at hmed1
  have hm : med1 = med := Option.some.inj (hmed1.symm.trans hmed)
  rw [hst, hst1, hm, sort_perm xs ys hperm, meanOf_perm xs ys hperm, hperm.length_eq,
    devSum_perm 2 xs ys _ hperm, devSum_perm 3 xs ys _ hperm, devSum_perm 4 xs ys _ hperm]

/-- Exact arithmetic only: for a sample sequence `xs` of length at least 2 and any
rearrangement `ys` of it, lines 48-82 without rounding compute from `ys` the
same locals and the same report as from `xs`; so does a second run on the
vector as the first run leaves it, sorted.  In `double` arithmetic the sums
depend on the order of the additions. -/
theorem exact_statistics_order_independent (sqrt : F → F) (xs ys : List F) (num_trials : Int)
    (hlen : 2 ≤ xs.length) (hperm : ys.Perm xs) :
    ∃ st r, statistics sqrt (xs.length : Int) xs = .ok st ∧
      report sqrt (xs.length : Int) num_trials st = .ok r ∧
      statistics sqrt (ys.length : Int) ys = .ok st ∧
      report sqrt (ys.length : Int) num_trials st = .ok r ∧
      statistics sqrt (st.avg_payoff.length : Int) st.avg_payoff = .ok st ∧
      report sqrt (st.avg_payoff.length : Int) num_trials st = .ok r := by
  obtain ⟨st, r, hst, hr, hsorted, -⟩ := analysis_eq sqrt xs num_trials (by omega)
  have hps : (sort xs).Perm xs := List.perm_insertionSort _ xs
  refine ⟨st, r, hst, hr, ?_, ?_, ?_, ?_⟩
  · rw [statistics_perm sqrt xs ys (by omega) hperm, hst]
  · rw [hperm.length_eq, hr]
  · rw [hsorted, statistics_perm sqrt xs (sort xs) (by omega) hps, hst]
  · rw [hsorted, hps.length_eq, hr]

/-- Exact arithmetic only, on `[1, 3, 2, 5, 4]` and its rearrangement
`[5, 4, 3, 2, 1]`: one and the same result. -/
theorem exact_statistics_order_independent_witness :
    ∃ st r, statistics (fun x => x) 5 [(1 : ℚ), 3, 2, 5, 4] = .ok st ∧
      report (fun x => x) 5 1000000 st = .ok r ∧
      statistics (fun x => x) 5 [(5 : ℚ), 4, 3, 2, 1] = .ok st ∧
      report (fun x => x) 5 1000000 st = .ok r := by
  obtain ⟨st, r, h1, h2, h3, h4, -⟩ := exact_statistics_order_independent (fun x => x)
    [(1 : ℚ), 3, 2, 5, 4] [5, 4, 3, 2, 1] 1000000 (by decide) (by decide)
  exact ⟨st, r, h1, h2, h3, h4⟩

/-! ## Constant and symmetric samples in exact arithmetic -/

theorem sum_const (xs : List F) (c : F) (h : ∀ x ∈ xs, x = c) :
    xs.sum = (xs.length : F) * c := by
  induction xs with
  | nil => simp
  | cons x xs ih =>
    have hx : x = c := h x (List.mem_cons_self x xs)
    have ih1 := ih (fun y hy => h y (List.mem_cons_of_mem x hy))
    rw [List.sum_cons, ih1, hx, List.length_cons, Nat.cast_add, Nat.cast_one]
    ring

theorem meanOf_const (xs : List F) (c : F) (hlen : 1 ≤ xs.length) (h : ∀ x ∈ xs, x = c) :
    meanOf xs = c := by
  have hn : (xs.length : F) ≠ 0 := by
    have : (0 : F) < (xs.length : F) := by exact_mod_cast hlen
    exact ne_of_gt this
  rw [meanOf, sum_const xs c h, mul_div_cancel_left₀ c hn]

theorem devSum_const (p : Nat) (xs : List F) (c : F) (hp : 1 ≤ p) (h : ∀ x ∈ xs, x = c) :
    devSum p xs c = 0 := by
  unfold devSum
  apply List.sum_eq_zero
  intro y hy
  obtain ⟨x, hx, rfl⟩ := List.mem_map.mp hy
  rw [h x hx, sub_self]
  exact zero_pow (by omega)

theorem devSum_two_eq_zero_iff (xs : List F) (μ : F) :
    devSum 2 xs μ = 0 ↔ ∀ x ∈ xs, x = μ := by
  induction xs with
  | nil => simp [devSum]
  | cons x xs ih =>
    have hsplit : devSum 2 (x :: xs) μ = (x - μ) ^ 2 + devSum 2 xs μ := by
      simp [devSum]
    have h1 : 0 ≤ (x - μ) ^ 2 := sq_nonneg _
    have h2 : 0 ≤ devSum 2 xs μ := devSum_two_nonneg xs μ
    rw [hsplit]
    constructor
    · intro h
      have hx : (x - μ) ^ 2 = 0 := by linarith
      have hr : devSum 2 xs μ = 0 := by linarith
      intro y hy
      rcases List.mem_cons.mp hy with rfl | hy
      · exact sub_eq_zero.mp (pow_eq_zero_iff (by norm_num) |>.mp hx)
      · exact ih.mp hr y hy
    · intro h
      have hx : x = μ := h x (List.mem_cons_self x xs)
      have hr : devSum 2 xs μ = 0 := ih.mpr (fun y hy => h y (List.mem_cons_of_mem x hy))
      rw [hr, hx, sub_self]
      norm_num

/-- Exact arithmetic only: for a constant sample sequence of length at least 2,
the mean is the common value, every deviation from it is `0`, and the variance
and the standard deviation are `0`.  In `double` arithmetic the mean of a
constant sequence can differ from the common value. -/
theorem exact_constant_sequence_zero_variance (xs : List ℝ) (c : ℝ) (num_trials : Int)
    (hlen : 2 ≤ xs.length) (hconst : ∀ x ∈ xs, x = c) :
    ∃ st r, statistics Real.sqrt (xs.length : Int) xs = .ok st ∧
      report Real.sqrt (xs.length : Int) num_trials st = .ok r ∧
      r.mean = c ∧ (∀ x ∈ xs, x - r.mean = 0) ∧ st.var = 0 ∧ r.stdDev = 0 := by
  obtain ⟨st, r, hst, hr, -, hmean, hvar, -, -, -, -, -, hrm, -, hsd, -⟩ :=
    analysis_eq Real.sqrt xs num_trials (by omega)
  have hm : meanOf xs = c := meanOf_const xs c (by omega) hconst
  have hv : st.var = 0 := by
    rw [hvar, hm, devSum_const 2 xs c (by norm_num) hconst, zero_div]
  refine ⟨st, r, hst, hr, by rw [hrm, hmean, hm], ?_, hv, by rw [hsd, hv, Real.sqrt_zero]⟩
  intro x hx
  rw [hrm, hmean, hm, hconst x hx, sub_self]

/-- Exact arithmetic only, on `[5, 5, 5, 5]`: mean `5`, variance `0`, standard
deviation `0`. -/
theorem exact_constant_sequence_zero_variance_witness :
    ∃ st r, statistics Real.sqrt 4 [5, 5, 5, 5] = .ok st ∧
      report Real.sqrt 4 1000000 st = .ok r ∧ r.mean = 5 ∧ st.var = 0 ∧ r.stdDev = 0 := by
  obtain ⟨st, r, hst, hr, hm, -, hv, hs⟩ :=
    exact_constant_sequence_zero_variance [5, 5, 5, 5] 5 1000000 (by decide) (by simp)
  exact ⟨st, r, hst, hr, hm, hv, hs⟩

theorem devSum_three_reflect (xs : List F) (μ : F) :
    devSum 3 (xs.map (fun x => 2 * μ - x)) μ = - devSum 3 xs μ := by
  induction xs with
  | nil => simp [devSum]
  | cons x xs ih =>
    simp only [devSum, List.map_cons, List.sum_cons] at ih ⊢
    rw [ih]
    ring

/-- Exact arithmetic only: when the sum of squared deviations is positive and the
values are carried onto themselves, as a multiset, by the reflection
`x ↦ 2·mean − x`, the sum of the cubed deviations is `0` and the reported
skewness is `0`, its divisor being non-zero.  In `double` arithmetic the cubes
need not cancel. -/
theorem exact_symmetric_zero_skewness (xs : List ℝ) (num_trials : Int)
    (hpos : 0 < devSum 2 xs (meanOf xs))
    (hsym : (xs.map (fun x => 2 * meanOf xs - x)).Perm xs) :
    devSum 3 xs (meanOf xs) = 0 ∧
    ∃ st r, statistics Real.sqrt (xs.length : Int) xs = .ok st ∧
      report Real.sqrt (xs.length : Int) num_trials st = .ok r ∧
      st.skewBot ≠ 0 ∧ r.skewness = 0 := by
  have hlen : 1 ≤ xs.length := by
    cases xs with
    | nil => simp [devSum] at hpos
    | cons x xs => simp
  have h3 : devSum 3 xs (meanOf xs) = 0 := by
    have h := devSum_perm 3 xs _ (meanOf xs) hsym
    rw [devSum_three_reflect] at h
    linarith
  obtain ⟨st, r, hst, hr, -, -, -, htop, hbot, hskew, -, -, -, -, -, -, -, hrs, -⟩ :=
    analysis_eq Real.sqrt xs num_trials hlen
  have hn : (0 : ℝ) < (xs.length : ℝ) := by exact_mod_cast hlen
  have hy : 0 < devSum 2 xs (meanOf xs) / (xs.length : ℝ) := div_pos hpos hn
  refine ⟨h3, st, r, hst, hr, ?_, ?_⟩
  · rw [hbot]
    exact ne_of_gt (Real.sqrt_pos.mpr (mul_pos (mul_pos hy hy) hy))
  · rw [hrs, hskew, htop, h3, zero_div, zero_div]

/-- Exact arithmetic only, on `[1, 2, 3, 4, 5]`: the skewness is `0`. -/
theorem exact_symmetric_zero_skewness_witness :
    ∃ st r, statistics Real.sqrt 5 [1, 2, 3, 4, 5] = .ok st ∧
      report Real.sqrt 5 1000000 st = .ok r ∧ r.skewness = 0 := by
  have hm : meanOf [(1 : ℝ), 2, 3, 4, 5] = 3 := by norm_num [meanOf]
  have h2 : devSum 2 [(1 : ℝ), 2, 3, 4, 5] (meanOf [1, 2, 3, 4, 5]) = 10 := by
    rw [hm]
    norm_num [devSum]
  have hsym : ([(1 : ℝ), 2, 3, 4, 5].map (fun x => 2 * meanOf [(1 : ℝ), 2, 3, 4, 5] - x)).Perm
      [1, 2, 3, 4, 5] := by
    rw [hm]
    have hmap : [(1 : ℝ), 2, 3, 4, 5].map (fun x => 2 * 3 - x) = [(1 : ℝ), 2, 3, 4, 5].reverse := by
      norm_num
    rw [hmap]
    exact List.reverse_perm _
  obtain ⟨-, st, r, hst, hr, -, hs⟩ :=
    exact_symmetric_zero_skewness [1, 2, 3, 4, 5] 1000000 (by rw [h2]; norm_num) hsym
  exact ⟨st, r, hst, hr, hs⟩

/-- Exact arithmetic only: for a non-empty sample sequence, the sum of squared
deviations is `0` exactly when all samples are equal; then the divisor of the
skewness (`skewBot`, the root of the cube of that sum over `n`) and the divisor
of the kurtosis (the square of that sum) are both `0`.  The value of a quotient
by zero is not modelled here; the rounded arithmetic further down gives it. -/
theorem exact_zero_variance_degenerate (xs : List ℝ) (num_trials : Int) (hlen : 1 ≤ xs.length) :
    (devSum 2 xs (meanOf xs) = 0 ↔ ∀ x ∈ xs, ∀ y ∈ xs, x = y) ∧
    ∃ st r, statistics Real.sqrt (xs.length : Int) xs = .ok st ∧
      report Real.sqrt (xs.length : Int) num_trials st = .ok r ∧
      st.skew = st.skewTop / st.skewBot ∧
      st.kurt = devSum 4 xs (meanOf xs)
        * ((xs.length : ℝ) / (devSum 2 xs (meanOf xs) * devSum 2 xs (meanOf xs))) ∧
      r.skewness = st.skew ∧ r.excessKurtosis = st.kurt - 3 ∧
      (devSum 2 xs (meanOf xs) = 0 →
        st.skewBot = 0 ∧ devSum 2 xs (meanOf xs) * devSum 2 xs (meanOf xs) = 0) := by
  constructor
  · rw [devSum_two_eq_zero_iff]
    constructor
    · intro h x hx y hy
      rw [h x hx, h y hy]
    · intro h x hx
      have hc : ∀ y ∈ xs, y = x := fun y hy => h y hy x hx
      rw [meanOf_const xs x hlen hc]
  · obtain ⟨st, r, hst, hr, -, -, -, -, hbot, hskew, hkurt, -, -, -, -, -, -, hrs, hex⟩ :=
      analysis_eq Real.sqrt xs num_trials hlen
    refine ⟨st, r, hst, hr, hskew, hkurt, hrs, hex, ?_⟩
    intro h0
    constructor
    · rw [hbot, h0]
      simp
    · rw [h0, mul_zero]

/-- Exact arithmetic only, on `[7, 7, 7]`: both divisors are `0`. -/
theorem exact_zero_variance_degenerate_witness :
    ∃ st r, statistics Real.sqrt 3 [7, 7, 7] = .ok st ∧
      report Real.sqrt 3 1000000 st = .ok r ∧ st.skewBot = 0 ∧
      devSum 2 [(7 : ℝ), 7, 7] (meanOf [7, 7, 7]) * devSum 2 [(7 : ℝ), 7, 7] (meanOf [7, 7, 7])
        = 0 := by
  obtain ⟨hiff, st, r, hst, hr, -, -, -, -, hdeg⟩ :=
    exact_zero_variance_degenerate [7, 7, 7] 1000000 (by decide)
  have h0 : devSum 2 [(7 : ℝ), 7, 7] (meanOf [7, 7, 7]) = 0 := by
    rw [hiff]
    intro x hx y hy
    simp only [List.mem_cons, List.mem_singleton, List.not_mem_nil, or_false, or_self] at hx hy
    rw [hx, hy]
  exact ⟨st, r, hst, hr, (hdeg h0).1, (hdeg h0).2⟩

/-! ## Order of the location statistics and bounds on the moments in exact arithmetic -/

theorem sort_bounds (xs : List F) (lo hi : F) (hlo : (sort xs)[0]? = some lo)
    (hhi : (sort xs)[xs.length - 1]? = some hi) : ∀ x ∈ xs, lo ≤ x ∧ x ≤ hi := by
  intro x hx
  have hl : (sort xs).length = xs.length := length_sort xs
  have hne : 0 < xs.length := List.length_pos_of_mem hx
  have h0 : 0 < (sort xs).length := by omega
  have h1 : xs.length - 1 < (sort xs).length := by omega
  rw [List.getElem?_eq_getElem h0, Option.some.injEq] at hlo
  rw [List.getElem?_eq_getElem h1, Option.some.injEq] at hhi
  have hs := sorted_sort xs
  rw [← mem_sort] at hx
  obtain ⟨i, hi1, rfl⟩ := List.getElem_of_mem hx
  constructor
  · rw [← hlo]
    exact hs.rel_get_of_le (a := ⟨0, h0⟩) (b := ⟨i, hi1⟩) (Nat.zero_le i)
  · rw [← hhi]
    exact hs.rel_get_of_le (a := ⟨i, hi1⟩) (b := ⟨xs.length - 1, h1⟩) (by
      show i ≤ xs.length - 1
      omega)

theorem sum_bounds (xs : List F) (lo hi : F) (h : ∀ x ∈ xs, lo ≤ x ∧ x ≤ hi) :
    (xs.length : F) * lo ≤ xs.sum ∧ xs.sum ≤ (xs.length : F) * hi := by
  induction xs with
  | nil => simp
  | cons x xs ih =>
    obtain ⟨h1, h2⟩ := ih (fun y hy => h y (List.mem_cons_of_mem x hy))
    obtain ⟨h3, h4⟩ := h x (List.mem_cons_self x xs)
    simp only [List.length_cons, List.sum_cons, Nat.cast_add, Nat.cast_one]
    constructor <;> linarith

/-- Exact arithmetic only: for a non-empty sample sequence, with `min`, `median`,
`max` the elements at indices `0`, `n / 2`, `n - 1` of the sorted sequence and
`mean` the sum over `n`: `min ≤ median ≤ max` and `min ≤ mean ≤ max`.  In
`double` arithmetic the mean can leave the range. -/
theorem exact_location_statistics_ordered (sqrt : F → F) (xs : List F) (num_trials : Int)
    (hlen : 1 ≤ xs.length) :
    ∃ st r, statistics sqrt (xs.length : Int) xs = .ok st ∧
      report sqrt (xs.length : Int) num_trials st = .ok r ∧
      (sort xs)[0]? = some r.rangeLo ∧ (sort xs)[xs.length / 2]? = some r.median ∧
      (sort xs)[xs.length - 1]? = some r.rangeHi ∧ r.mean = xs.sum / (xs.length : F) ∧
      r.rangeLo ≤ r.median ∧ r.median ≤ r.rangeHi ∧
      r.rangeLo ≤ r.mean ∧ r.mean ≤ r.rangeHi := by
  obtain ⟨st, r, hst, hr, -, hmean, -, -, -, -, -, hmed, hrm, hrmed, -, hlo, hhi, -⟩ :=
    analysis_eq sqrt xs num_trials hlen
  have hb := sort_bounds xs r.rangeLo r.rangeHi hlo hhi
  have hmem : r.median ∈ xs := by
    rw [hrmed, ← mem_sort]
    exact List.getElem?_mem hmed
  have hn : (0 : F) < (xs.length : F) := by exact_mod_cast hlen
  obtain ⟨hs1, hs2⟩ := sum_bounds xs r.rangeLo r.rangeHi hb
  have hm : r.mean = xs.sum / (xs.length : F) := by rw [hrm, hmean, meanOf]
  refine ⟨st, r, hst, hr, hlo, by rw [hrmed]; exact hmed, hhi, hm, (hb _ hmem).1,
    (hb _ hmem).2, ?_, ?_⟩
  · rw [hm, le_div_iff₀ hn]
    linarith
  · rw [hm, div_le_iff₀ hn]
    linarith

/-- Exact arithmetic only, on `[4, 1, 3, 2]`: `1 ≤ 3 ≤ 4` and `1 ≤ 2.5 ≤ 4`. -/
theorem exact_location_statistics_ordered_witness :
    ∃ st r, statistics (fun x => x) 4 [(4 : ℚ), 1, 3, 2] = .ok st ∧
      report (fun x => x) 4 1000000 st = .ok r ∧ r.mean = 2.5 ∧
      r.rangeLo ≤ r.median ∧ r.median ≤ r.rangeHi ∧ r.rangeLo ≤ r.mean ∧ r.mean ≤ r.rangeHi := by
  obtain ⟨st, r, hst, hr, -, -, -, hm, h1, h2, h3, h4⟩ :=
    exact_location_statistics_ordered (fun x => x) [(4 : ℚ), 1, 3, 2] 1000000 (by decide)
  refine ⟨st, r, hst, hr, ?_, h1, h2, h3, h4⟩
  rw [hm]
  norm_num

theorem devSum_cons (p : Nat) (x : F) (xs : List F) (μ : F) :
    devSum p (x :: xs) μ = (x - μ) ^ p + devSum p xs μ := by
  simp [devSum]

theorem devSum_cross (xs : List F) (μ a : F) :
    2 * a * devSum 2 xs μ ≤ (xs.length : F) * a ^ 2 + devSum 4 xs μ := by
  induction xs with
  | nil => simp [devSum]
  | cons x xs ih =>
    rw [devSum_cons, devSum_cons, List.length_cons, Nat.cast_add, Nat.cast_one]
    nlinarith [sq_nonneg (a - (x - μ) ^ 2)]

theorem devSum_two_sq_le (xs : List F) (μ : F) :
    (devSum 2 xs μ) ^ 2 ≤ (xs.length : F) * devSum 4 xs μ := by
  induction xs with
  | nil => simp [devSum]
  | cons x xs ih =>
    have hc := devSum_cross xs μ ((x - μ) ^ 2)
    rw [devSum_cons, devSum_cons, List.length_cons, Nat.cast_add, Nat.cast_one]
    nlinarith [ih, hc]

theorem devSum_four_le (xs : List F) (μ : F) :
    devSum 4 xs μ ≤ (devSum 2 xs μ) ^ 2 := by
  induction xs with
  | nil => simp [devSum]
  | cons x xs ih =>
    have h1 : 0 ≤ (x - μ) ^ 2 := sq_nonneg _
    have h2 : 0 ≤ devSum 2 xs μ := devSum_two_nonneg xs μ
    rw [devSum_cons, devSum_cons]
    nlinarith [ih, mul_nonneg h1 h2]

/-- Exact arithmetic only: for a sample sequence of length `n ≥ 2` the variance
`Σd²/(n-1)` is non-negative, and when `Σd² ≠ 0` the raw kurtosis
`n·Σd⁴/(Σd²)²` lies between `1` and `n`, so the excess kurtosis lies between
`-2` and `n - 3`.  In `double` arithmetic the kurtosis can fall below `1`. -/
theorem exact_moment_bounds (sqrt : F → F) (xs : List F) (num_trials : Int)
    (hlen : 2 ≤ xs.length) :
    ∃ st r, statistics sqrt (xs.length : Int) xs = .ok st ∧
      report sqrt (xs.length : Int) num_trials st = .ok r ∧
      st.var = devSum 2 xs (meanOf xs) / ((xs.length : F) - 1) ∧ 0 ≤ st.var ∧
      (devSum 2 xs (meanOf xs) ≠ 0 →
        st.kurt = (xs.length : F) * devSum 4 xs (meanOf xs) / (devSum 2 xs (meanOf xs)) ^ 2 ∧
        1 ≤ st.kurt ∧ st.kurt ≤ (xs.length : F) ∧
        -2 ≤ r.excessKurtosis ∧ r.excessKurtosis ≤ (xs.length : F) - 3) := by
  obtain ⟨st, r, hst, hr, -, -, hvar, -, -, -, hkurt, -, -, -, -, -, -, -, hex⟩ :=
    analysis_eq sqrt xs num_trials (by omega)
  have hn2 : (2 : F) ≤ (xs.length : F) := by exact_mod_cast hlen
  refine ⟨st, r, hst, hr, hvar, ?_, ?_⟩
  · rw [hvar]
    exact div_nonneg (devSum_two_nonneg xs _) (by linarith)
  · intro hne
    have hk : st.kurt
        = (xs.length : F) * devSum 4 xs (meanOf xs) / (devSum 2 xs (meanOf xs)) ^ 2 := by
      rw [hkurt]
      ring
    have hsq : 0 < (devSum 2 xs (meanOf xs)) ^ 2 := by positivity
    have hlow : 1 ≤ st.kurt := by
      rw [hk, le_div_iff₀ hsq, one_mul]
      exact devSum_two_sq_le xs _
    have hhigh : st.kurt ≤ (xs.length : F) := by
      rw [hk, div_le_iff₀ hsq]
      exact mul_le_mul_of_nonneg_left (devSum_four_le xs _) (by linarith)
    refine ⟨hk, hlow, hhigh, ?_, ?_⟩
    · rw [hex]
      linarith
    · rw [hex]
      linarith

/-- Exact arithmetic only, on `[1, 2, 3, 4, 5]`: variance `2.5`, raw kurtosis
`1.7` in `[1, 5]`, excess kurtosis `-1.3` in `[-2, 2]`. -/
theorem exact_moment_bounds_witness :
    ∃ st r, statistics (fun x => x) 5 [(1 : ℚ), 2, 3, 4, 5] = .ok st ∧
      report (fun x => x) 5 1000000 st = .ok r ∧ 0 ≤ st.var ∧
      1 ≤ st.kurt ∧ st.kurt ≤ 5 ∧ -2 ≤ r.excessKurtosis ∧ r.excessKurtosis ≤ 5 - 3 := by
  have h2 : devSum 2 [(1 : ℚ), 2, 3, 4, 5] (meanOf [1, 2, 3, 4, 5]) = 10 := by
    norm_num [devSum, meanOf]
  obtain ⟨st, r, hst, hr, -, hv, hk⟩ :=
    exact_moment_bounds (fun x => x) [(1 : ℚ), 2, 3, 4, 5] 1000000 (by decide)
  obtain ⟨-, k1, k2, k3, k4⟩ := hk (by rw [h2]; norm_num)
  refine ⟨st, r, hst, hr, hv, k1, ?_, k3, ?_⟩
  · simpa using k2
  · simpa using k4

/-! ## The progress lines -/

theorem wrap32_of_range (x : Int) (h0 : 0 ≤ x) (h1 : x < 2147483648) : wrap32 x = x := by
  unfold wrap32
  norm_num
  omega

theorem progressFrom_add (num_samples : Int) (a b : Nat) (j : Int) (cout : List Int) :
    progressFrom num_samples (a + b) j cout
      = progressFrom num_samples b (j + a) (progressFrom num_samples a j cout) := by
  induction a generalizing j cout with
  | zero => simp [progressFrom]
  | succ a ih =>
    have h1 : a + 1 + b = (a + b) + 1 := by omega
    have h2 : j + ((a + 1 : Nat) : Int) = j + 1 + (a : Int) := by push_cast; ring
    rw [h1, progressFrom, ih, progressFrom, h2]

theorem progressFrom_quiet (num_samples : Int) (k : Nat)
    (hstep : Int.tdiv num_samples 10 = (k : Int)) (m base r : Nat) (hr : 1 ≤ r)
    (hm : r + m ≤ k) (cout : List Int) :
    progressFrom num_samples m ((base * k + r : Nat) : Int) cout = cout := by
  induction m generalizing r with
  | zero => rfl
  | succ m ih =>
    have hmod : Int.tmod ((base * k + r : Nat) : Int) (k : Int) ≠ 0 := by
      rw [← Int.ofNat_tmod, Nat.mul_add_mod_of_lt (by omega)]
      exact_mod_cast (by omega : r ≠ 0)
    have hnext : ((base * k + r : Nat) : Int) + 1 = ((base * k + (r + 1) : Nat) : Int) := by
      push_cast
      ring
    rw [progressFrom, hstep, if_neg hmod, hnext]
    exact ih (r + 1) (by omega) (by omega)

theorem progressFrom_block (num_samples : Int) (k : Nat)
    (hstep : Int.tdiv num_samples 10 = (k : Int)) (hk : 1 ≤ k) (base : Nat)
    (cout : List Int) :
    progressFrom num_samples k ((base * k : Nat) : Int) cout
      = cout ++ [Int.tdiv (wrap32 (100 * ((base * k : Nat) : Int))) num_samples] := by
  obtain ⟨m, rfl⟩ : ∃ m, k = m + 1 := ⟨k - 1, by omega⟩
  have hmod : Int.tmod ((base * (m + 1) : Nat) : Int) ((m + 1 : Nat) : Int) = 0 := by
    rw [← Int.ofNat_tmod, Nat.mul_mod_left]
    rfl
  have hnext : ((base * (m + 1) : Nat) : Int) + 1 = ((base * (m + 1) + 1 : Nat) : Int) := by
    push_cast
    ring
  rw [progressFrom, hstep, if_pos hmod, hnext]
  exact progressFrom_quiet num_samples (m + 1) hstep m base 1 (le_refl 1) (by omega) _

theorem progressFrom_blocks (num_samples : Int) (k : Nat)
    (hstep : Int.tdiv num_samples 10 = (k : Int)) (hk : 1 ≤ k) (q : Nat) :
    progressFrom num_samples (q * k) 0 []
      = (List.range q).map
          (fun t => Int.tdiv (wrap32 (100 * ((t * k : Nat) : Int))) num_samples) := by
  induction q with
  | zero => simp [progressFrom]
  | succ q ih =>
    have h1 : (q + 1) * k = q * k + k := by ring
    have h2 : (0 : Int) + ((q * k : Nat) : Int) = ((q * k : Nat) : Int) := zero_add _
    rw [h1, progressFrom_add, ih, h2, progressFrom_block num_samples k hstep hk q,
      List.range_succ, List.map_append]
    rfl

theorem percent_of_decile (k t : Nat) (hk : 1 ≤ k) (ht : t ≤ 9) (hbound : 900 * k < 2 ^ 31) :
    Int.tdiv (wrap32 (100 * ((t * k : Nat) : Int))) ((10 * k : Nat) : Int)
      = ((10 * t : Nat) : Int) := by
  have htk : t * k ≤ 9 * k := Nat.mul_le_mul_right k ht
  have hb : 900 * k < 2147483648 := by norm_num at hbound; exact hbound
  have hx0 : (0 : Int) ≤ 100 * ((t * k : Nat) : Int) := by positivity
  have hx1 : 100 * ((t * k : Nat) : Int) < 2147483648 := by
    have : 100 * (t * k) < 2147483648 := by omega
    exact_mod_cast this
  rw [wrap32_of_range _ hx0 hx1, Int.tdiv_eq_ediv hx0 (Int.natCast_nonneg _)]
  have hfac : 100 * ((t * k : Nat) : Int) = ((10 * t : Nat) : Int) * ((10 * k : Nat) : Int) := by
    push_cast
    ring
  have hne : ((10 * k : Nat) : Int) ≠ 0 := by
    have : 10 * k ≠ 0 := by omega
    exact_mod_cast this
  rw [hfac, Int.mul_ediv_cancel _ hne]

theorem progressFrom_deciles (k : Nat) (hk : 1 ≤ k) (hbound : 900 * k < 2 ^ 31) :
    progressFrom ((10 * k : Nat) : Int) (10 * k) 0 []
      = [0, 10, 20, 30, 40, 50, 60, 70, 80, 90] := by
  have hstep : Int.tdiv ((10 * k : Nat) : Int) 10 = (k : Int) := by
    rw [Int.tdiv_eq_ediv (Int.natCast_nonneg _) (by decide)]
    push_cast
    omega
  rw [progressFrom_blocks _ k hstep hk 10]
  have hcongr : (List.range 10).map
      (fun t => Int.tdiv (wrap32 (100 * ((t * k : Nat) : Int))) ((10 * k : Nat) : Int))
      = (List.range 10).map (fun t => ((10 * t : Nat) : Int)) := by
    apply List.map_congr_left
    intro t ht
    exact percent_of_decile k t hk (by have := List.mem_range.mp ht; omega) hbound
  rw [hcongr]
  decide

theorem tdiv_ten_of_multiple (k : Nat) : Int.tdiv ((10 * k : Nat) : Int) 10 = (k : Int) := by
  rw [Int.tdiv_eq_ediv (Int.natCast_nonneg _) (by decide)]
  push_cast
  omega

theorem progress_of_multiple (k : Nat) (hk : 1 ≤ k) (hbound : 900 * k < 2 ^ 31) (j : Nat)
    (hj : j < 10 * k) (cout : List Int) :
    progress ((10 * k : Nat) : Int) (j : Int) cout = .ok
      (if j % k = 0 then cout ++ [((10 * (j / k) : Nat) : Int)] else cout) := by
  have hstep := tdiv_ten_of_multiple k
  have hne : Int.tdiv ((10 * k : Nat) : Int) 10 ≠ 0 := by
    rw [hstep]
    exact_mod_cast (by omega : k ≠ 0)
  rw [progress_of_step _ _ _ hne, hstep, ← Int.ofNat_tmod]
  by_cases hmod : j % k = 0
  · have hjk : j = (j / k) * k := by
      have := Nat.div_add_mod j k
      rw [hmod, add_zero, Nat.mul_comm] at this
      exact this.symm
    have ht : j / k ≤ 9 := by
      have : j / k < 10 := Nat.div_lt_of_lt_mul (by rw [Nat.mul_comm]; exact hj)
      omega
    have hp := percent_of_decile k (j / k) hk ht hbound
    rw [← hjk] at hp
    have hc : ((j % k : Nat) : Int) = 0 := by exact_mod_cast hmod
    rw [if_pos hc, if_pos hmod, hp]
  · have hc : ¬ ((j % k : Nat) : Int) = 0 := by exact_mod_cast hmod
    rw [if_neg hc, if_neg hmod]

/-- C17, the claim refuted: with `num_samples = 15` the progress line is printed
for every sample, fifteen times, with percentages `0, 6, 13, ...`; and with
`num_samples = 30000000` the line printed at `j = 24000000` shows `-63`, the
product `100 * j` being outside the range of `int`. -/
theorem progress_fifteen_samples :
    simulate 15 1 (List.replicate 15 0) =
      (.ok ⟨List.replicate 15 2, [],
        [0, 6, 13, 20, 26, 33, 40, 46, 53, 60, 66, 73, 80, 86, 93]⟩ :
        Except Stop (Machine ℚ)) ∧
    [(0 : Int), 6, 13, 20, 26, 33, 40, 46, 53, 60, 66, 73, 80, 86, 93].length = 15 ∧
    progress 30000000 24000000 [] = .ok [-63] := by
  refine ⟨?_, rfl, rfl⟩
  rw [simulate_of_step _ _ _ (by decide)]
  norm_num [samplesOf, trialsOf, firstHeads, sampleMean, payoffSum, progressFrom, wrap32,
    Int.tdiv, Int.tmod, List.replicate]

/-- C17 as amended: when `num_samples` is a multiple of 10, at least 10 and at
most 23860920 (so that `100 * j` stays in the range of `int`), sample `j`
prints a line exactly when `j` is a multiple of `num_samples/10`, the line
shows `10 * (j / (num_samples/10))`, the lines of a whole simulation are
`0, 10, ..., 90` in that order, and the sample means and the draws left are
those read off the draws, whatever is printed. -/
theorem progress_at_each_decile (num_samples num_trials : Int) (gen : List Nat)
    (h10 : 10 ≤ num_samples) (hdiv : num_samples % 10 = 0) (hmax : num_samples ≤ 23860920) :
    (∀ (j : Int) (cout : List Int), 0 ≤ j → j < num_samples →
      progress num_samples j cout = .ok
        (if j % (num_samples / 10) = 0 then cout ++ [10 * (j / (num_samples / 10))]
          else cout)) ∧
    progressFrom num_samples num_samples.toNat 0 [] = [0, 10, 20, 30, 40, 50, 60, 70, 80, 90] ∧
    (∀ s : Machine F, simulate num_samples num_trials gen = .ok s →
      s.cout = [0, 10, 20, 30, 40, 50, 60, 70, 80, 90]) ∧
    (∀ nss rest, samplesOf num_samples.toNat num_trials.toNat gen = some (nss, rest) →
      simulate num_samples num_trials gen
        = (.ok ⟨nss.map (sampleMean num_trials), rest,
            [0, 10, 20, 30, 40, 50, 60, 70, 80, 90]⟩ : Except Stop (Machine F))) := by
  obtain ⟨k, rfl⟩ : ∃ k : Nat, num_samples = ((10 * k : Nat) : Int) :=
    ⟨(num_samples / 10).toNat, by push_cast; omega⟩
  have hk : 1 ≤ k := by omega
  have hbound : 900 * k < 2 ^ 31 := by norm_num; omega
  have hq : ((10 * k : Nat) : Int) / 10 = (k : Int) := by push_cast; omega
  have hstep : Int.tdiv ((10 * k : Nat) : Int) 10 ≠ 0 := by
    rw [tdiv_ten_of_multiple]
    exact_mod_cast (by omega : k ≠ 0)
  have hprog : progressFrom ((10 * k : Nat) : Int) (((10 * k : Nat) : Int)).toNat 0 []
      = [0, 10, 20, 30, 40, 50, 60, 70, 80, 90] := by
    rw [Int.toNat_ofNat]
    exact progressFrom_deciles k hk hbound
  have hsim := simulate_of_step (F := F) ((10 * k : Nat) : Int) num_trials gen hstep
  rw [hprog] at hsim
  refine ⟨?_, hprog, ?_, ?_⟩
  · intro j cout hj0 hjlt
    obtain ⟨jn, rfl⟩ : ∃ jn : Nat, j = (jn : Int) := ⟨j.toNat, by omega⟩
    rw [progress_of_multiple k hk hbound jn (by omega) cout, hq]
    by_cases hmod : jn % k = 0
    · have hc : (jn : Int) % (k : Int) = 0 := by exact_mod_cast hmod
      rw [if_pos hmod, if_pos hc]
      push_cast
      rfl
    · have hc : ¬ (jn : Int) % (k : Int) = 0 := by exact_mod_cast hmod
      rw [if_neg hmod, if_neg hc]
  · intro s hs
    rw [hsim] at hs
    cases hso : samplesOf (((10 * k : Nat) : Int)).toNat num_trials.toNat gen with
    | none =>
      rw [hso] at hs
      cases hs
    | some p =>
      rw [hso] at hs
      cases hs
      rfl
  · intro nss rest hso
    rw [hsim, hso]

/-- C17 as amended, on `num_samples = 500`: lines at `j = 0, 50, ..., 450` and at
no other `j`, showing `0, 10, ..., 90`. -/
theorem progress_at_each_decile_witness :
    progressFrom 500 500 0 [] = [0, 10, 20, 30, 40, 50, 60, 70, 80, 90] ∧
    (∀ (j : Int) (cout : List Int), 0 ≤ j → j < 500 →
      progress 500 j cout = .ok (if j % 50 = 0 then cout ++ [10 * (j / 50)] else cout)) ∧
    progress 500 450 [] = .ok [90] ∧ progress 500 451 [] = .ok [] := by
  obtain ⟨h1, h2, -, -⟩ := progress_at_each_decile (F := ℚ) 500 1000000 []
    (by decide) (by decide) (by decide)
  refine ⟨h2, h1, ?_, ?_⟩
  · rw [h1 450 [] (by decide) (by decide)]
    rfl
  · rw [h1 451 [] (by decide) (by decide)]
    rfl

/-! ## Lines 48-82 in rounded arithmetic -/

theorem readAtD_eq_ok_iff (v : List Dbl) (i : Int) (x : Dbl) :
    readAtD v i = .ok x ↔ 0 ≤ i ∧ v[i.toNat]? = some x := by
  unfold readAtD
  by_cases hi : i < 0
  · simp [hi]
  · cases hv : v[i.toNat]? with
    | none => simp [hi]
    | some y =>
      simp only [hi, if_false, Except.ok.injEq, Option.some.injEq]
      constructor
      · intro h
        exact ⟨not_lt.mp hi, h⟩
      · intro h
        exact h.2

theorem readAtD_natCast (v : List Dbl) (k : Nat) (h : k < v.length) :
    readAtD v (k : Int) = .ok (v.get ⟨k, h⟩) := by
  rw [readAtD_eq_ok_iff]
  refine ⟨Int.natCast_nonneg k, ?_⟩
  simp [List.getElem?_eq_getElem h]

theorem loopFrom_foldD {σ : Type} (v : List Dbl) (f : σ → Dbl → σ)
    (body : Int → σ → Except Stop σ)
    (hbody : ∀ k s x, readAtD v k = .ok x → body k s = .ok (f s x))
    (ys pre : List Dbl) (s : σ) (hv : v = pre ++ ys) :
    loopFrom body ys.length (pre.length : Int) s = .ok (ys.foldl f s) := by
  induction ys generalizing pre s with
  | nil => rfl
  | cons y ys ih =>
    have hread : readAtD v (pre.length : Int) = .ok y := by
      rw [readAtD_eq_ok_iff]
      refine ⟨Int.natCast_nonneg _, ?_⟩
      rw [hv, Int.toNat_ofNat, List.getElem?_append_right (le_refl _)]
      simp
    rw [List.length_cons, loopFrom, hbody _ s y hread]
    simp only [List.foldl_cons]
    have hlen : (pre.length : Int) + 1 = ((pre ++ [y]).length : Int) := by simp
    rw [hlen]
    exact ih (pre ++ [y]) (f s y) (by simp [hv])

theorem forLoop_foldD {σ : Type} (v : List Dbl) (f : σ → Dbl → σ)
    (body : Int → σ → Except Stop σ)
    (hbody : ∀ k s x, readAtD v k = .ok x → body k s = .ok (f s x)) (s : σ) :
    forLoop (v.length : Int) body s = .ok (v.foldl f s) := by
  have h := loopFrom_foldD v f body hbody v [] s rfl
  simpa [forLoop] using h

theorem length_sortD (v : List Dbl) : (sortD v).length = v.length :=
  List.length_insertionSort _ v

/-- What lines 48-82 compute and print, in rounded arithmetic, for a non-empty
vector: the left-to-right sums of `totalD` and `sumsD` and the quotients built
from them, the sorted vector, and its entries `n/2`, `0` and `n-1`. -/
theorem analysisD_eq (v : List Dbl) (num_trials : Int) (hlen : 1 ≤ v.length) :
    ∃ st r, statisticsD (v.length : Int) v = .ok st ∧
      reportD (v.length : Int) num_trials st = .ok r ∧
      st.avg_payoff = sortD v ∧ st.mean = meanD v ∧ st.var = varD v ∧
      st.skewTop = skewTopD v ∧ st.skewBot = skewBotD v ∧ st.skew = skewD v ∧
      st.kurt = kurtD v ∧ (sortD v)[v.length / 2]? = some st.median ∧
      r.mean = st.mean ∧ r.median = st.median ∧ r.stdDev = Dbl.sqrt st.var ∧
      (sortD v)[0]? = some r.rangeLo ∧ (sortD v)[v.length - 1]? = some r.rangeHi ∧
      r.skewness = st.skew ∧ r.excessKurtosis = Dbl.sub st.kurt (Dbl.ofInt 3) := by
  have hl : (sortD v).length = v.length := length_sortD v
  have hidx : v.length / 2 < (sortD v).length := by omega
  have h0 : 0 < (sortD v).length := by omega
  have h1 : v.length - 1 < (sortD v).length := by omega
  have hhalf : intDiv (v.length : Int) 2 = .ok ((v.length / 2 : Nat) : Int) := by
    rw [Int.ofNat_tdiv]
    simp [intDiv]
  have hmed := readAtD_natCast (sortD v) (v.length / 2) hidx
  have hlo := readAtD_natCast (sortD v) 0 h0
  have hhi := readAtD_natCast (sortD v) (v.length - 1) h1
  have hcast : ((v.length - 1 : Nat) : Int) = (v.length : Int) - 1 := by omega
  rw [hcast] at hhi
  simp only [Nat.cast_zero] at hlo
  have hmean : forLoop (v.length : Int) (meanStepD v) (Dbl.fin 0) = .ok (totalD v) :=
    forLoop_foldD v Dbl.add (meanStepD v) (fun k s x h => by simp [meanStepD, h]) _
  have hmom : forLoop (v.length : Int) (momentStepD v (meanD v))
      ⟨Dbl.fin 0, Dbl.fin 0, Dbl.fin 0⟩ = .ok (sumsD v) :=
    forLoop_foldD v (momentAdd (meanD v)) (momentStepD v (meanD v))
      (fun k s x h => by simp [momentStepD, h]) _
  have hst : statisticsD (v.length : Int) v = .ok
      ⟨sortD v, meanD v, varD v, skewTopD v, skewBotD v, skewD v, kurtD v,
        (sortD v).get ⟨v.length / 2, hidx⟩⟩ := by
    unfold statisticsD
    rw [hmean]
    simp only []
    rw [show Dbl.div (totalD v) (Dbl.ofInt (v.length : Int)) = meanD v from rfl, hmom]
    simp only [hhalf, hmed]
    rfl
  have hr : reportD (v.length : Int) num_trials
      ⟨sortD v, meanD v, varD v, skewTopD v, skewBotD v, skewD v, kurtD v,
        (sortD v).get ⟨v.length / 2, hidx⟩⟩ = .ok
      ⟨(v.length : Int), num_trials, meanD v, (sortD v).get ⟨v.length / 2, hidx⟩,
        Dbl.sqrt (varD v), (sortD v).get ⟨0, h0⟩, (sortD v).get ⟨v.length - 1, h1⟩, skewD v,
        Dbl.sub (kurtD v) (Dbl.ofInt 3)⟩ := by
    simp only [reportD, hlo, hhi]
  exact ⟨_, _, hst, hr, rfl, rfl, rfl, rfl, rfl, rfl, rfl,
    by simp [List.getElem?_eq_getElem hidx], rfl, rfl, rfl,
    by simp [List.getElem?_eq_getElem h0], by simp [List.getElem?_eq_getElem h1], rfl, rfl⟩

/-! ## Sorting finite `double`s -/

theorem le_fin (a b : Int) : Dbl.le (Dbl.fin a) (Dbl.fin b) = true ↔ a ≤ b := by
  simp [Dbl.le]

theorem orderedInsert_map_fin (a : Int) (l : List Int) :
    List.orderedInsert (fun x y => Dbl.le x y = true) (Dbl.fin a) (l.map Dbl.fin)
      = (List.orderedInsert (· ≤ ·) a l).map Dbl.fin := by
  induction l with
  | nil => rfl
  | cons b l ih =>
    simp only [List.map_cons, List.orderedInsert, le_fin]
    by_cases h : a ≤ b
    · simp [h]
    · simp [h, ih]

theorem sortD_map_fin (ks : List Int) :
    sortD (ks.map Dbl.fin) = (ks.insertionSort (· ≤ ·)).map Dbl.fin := by
  induction ks with
  | nil => rfl
  | cons a ks ih =>
    have h : sortD ((a :: ks).map Dbl.fin)
        = List.orderedInsert (fun x y => Dbl.le x y = true) (Dbl.fin a)
            (sortD (ks.map Dbl.fin)) := rfl
    rw [h, ih, orderedInsert_map_fin]
    rfl

theorem sortD_perm (ks ls : List Int) (hperm : ls.Perm ks) :
    sortD (ls.map Dbl.fin) = sortD (ks.map Dbl.fin) := by
  rw [sortD_map_fin, sortD_map_fin]
  congr 1
  exact List.eq_of_perm_of_sorted
    (((List.perm_insertionSort _ ls).trans hperm).trans (List.perm_insertionSort _ ks).symm)
    (List.sorted_insertionSort _ ls) (List.sorted_insertionSort _ ks)

theorem sortD_sortD (ks : List Int) :
    sortD (sortD (ks.map Dbl.fin)) = sortD (ks.map Dbl.fin) := by
  have h := sortD_perm ks (ks.insertionSort (· ≤ ·)) (List.perm_insertionSort _ ks)
  rw [← sortD_map_fin] at h
  exact h

/-- Two runs of lines 48-82, in rounded arithmetic, on vectors with the same
sorted rearrangement leave the same vector and report the same median and range. -/
theorem sorted_fields_eq (v w : List Dbl) (num_trials : Int) (hlen : 1 ≤ v.length)
    (hl : w.length = v.length) (hsort : sortD w = sortD v) :
    ∃ st r st1 r1, statisticsD (v.length : Int) v = .ok st ∧
      reportD (v.length : Int) num_trials st = .ok r ∧
      statisticsD (v.length : Int) w = .ok st1 ∧
      reportD (v.length : Int) num_trials st1 = .ok r1 ∧
      st.avg_payoff = sortD v ∧
      st1.avg_payoff = st.avg_payoff ∧ r1.median = r.median ∧
      r1.rangeLo = r.rangeLo ∧ r1.rangeHi = r.rangeHi := by
  obtain ⟨st, r, hst, hr, hs, -, -, -, -, -, -, hmed, -, hrmed, -, hlo, hhi, -⟩ :=
    analysisD_eq v num_trials hlen
  obtain ⟨st1, r1, hst1, hr1, hs1, -, -, -, -, -, -, hmed1, -, hrmed1, -, hlo1, hhi1, -⟩ :=
    analysisD_eq w num_trials (by omega)
  rw [hl] at hst1 hr1 hmed1 hhi1
  rw [hsort] at hs1 hmed1 hlo1 hhi1
  refine ⟨st, r, st1, r1, hst, hr, hst1, hr1, hs, by rw [hs1, hs], ?_, ?_, ?_⟩
  · rw [hrmed1, hrmed]
    exact Option.some.inj (hmed1.symm.trans hmed)
  · exact Option.some.inj (hlo1.symm.trans hlo)
  · exact Option.some.inj (hhi1.symm.trans hhi)

/-! ## Operations on zero -/

theorem roundMag_zero (d : Nat) (hd : 0 < d) : Dbl.roundMag 0 d = 0 := by
  unfold Dbl.roundMag Dbl.roundHalfEven
  rw [Nat.zero_div, Nat.zero_mod, if_pos (pow_pos two_pos 53), if_pos (by omega)]

theorem mk_zero (neg : Bool) (d : Nat) (hd : 0 < d) : Dbl.mk neg 0 d = Dbl.fin 0 := by
  unfold Dbl.mk
  rw [roundMag_zero d hd, if_neg (not_le.mpr (pow_pos two_pos 2098))]
  cases neg <;> simp

theorem sub_self_fin (k : Int) : Dbl.sub (Dbl.fin k) (Dbl.fin k) = Dbl.fin 0 := by
  show Dbl.mk (decide (k + -k < 0)) (k + -k).natAbs 1 = Dbl.fin 0
  rw [add_neg_cancel, Int.natAbs_zero]
  exact mk_zero _ 1 Nat.one_pos

theorem mul_zero_zero : Dbl.mul (Dbl.fin 0) (Dbl.fin 0) = Dbl.fin 0 := by
  show Dbl.mk _ ((0 : Int).natAbs * (0 : Int).natAbs) (2 ^ 1074) = Dbl.fin 0
  rw [Int.natAbs_zero, Nat.mul_zero]
  exact mk_zero _ _ (pow_pos two_pos 1074)

theorem add_zero_zero : Dbl.add (Dbl.fin 0) (Dbl.fin 0) = Dbl.fin 0 := by
  show Dbl.mk _ ((0 : Int) + 0).natAbs 1 = Dbl.fin 0
  rw [add_zero, Int.natAbs_zero]
  exact mk_zero _ 1 Nat.one_pos

theorem ofInt_eq (m : Int) : Dbl.ofInt m = Dbl.fin (m * ((2 ^ 1074 : Nat) : Int)) := rfl

theorem scaled_pos (m : Int) (hm : 0 < m) : 0 < m * ((2 ^ 1074 : Nat) : Int) := by
  have h2 : (0 : Int) < ((2 ^ 1074 : Nat) : Int) := Int.natCast_pos.mpr (pow_pos two_pos 1074)
  exact mul_pos hm h2

theorem scaled_ne_zero (m : Int) (hm : m ≠ 0) : m * ((2 ^ 1074 : Nat) : Int) ≠ 0 := by
  have h2 : ((2 ^ 1074 : Nat) : Int) ≠ 0 :=
    ne_of_gt (Int.natCast_pos.mpr (pow_pos two_pos 1074))
  exact mul_ne_zero hm h2

theorem div_zero_fin (b : Int) (hb : b ≠ 0) : Dbl.div (Dbl.fin 0) (Dbl.fin b) = Dbl.fin 0 := by
  show (if b = 0 then (if (0 : Int) = 0 then Dbl.nan else if (0 : Int) < 0 then Dbl.ninf
      else Dbl.pinf)
    else Dbl.mk (Dbl.isNeg (Dbl.fin 0) != Dbl.isNeg (Dbl.fin b))
      ((0 : Int).natAbs * 2 ^ 1074) b.natAbs) = Dbl.fin 0
  rw [if_neg hb, Int.natAbs_zero, Nat.zero_mul]
  exact mk_zero _ _ (Int.natAbs_pos.mpr hb)

theorem div_zero_ofInt (m : Int) (hm : m ≠ 0) : Dbl.div (Dbl.fin 0) (Dbl.ofInt m) = Dbl.fin 0 :=
  div_zero_fin _ (scaled_ne_zero m hm)

theorem sqrt_zero : Dbl.sqrt (Dbl.fin 0) = Dbl.fin 0 := by decide!

theorem momentAdd_zero (μ x : Dbl) (h : Dbl.sub x μ = Dbl.fin 0) :
    momentAdd μ ⟨Dbl.fin 0, Dbl.fin 0, Dbl.fin 0⟩ x = ⟨Dbl.fin 0, Dbl.fin 0, Dbl.fin 0⟩ := by
  simp only [momentAdd, h, mul_zero_zero, add_zero_zero]

theorem foldl_momentAdd_zero (μ : Dbl) (l : List Dbl) (h : ∀ x ∈ l, Dbl.sub x μ = Dbl.fin 0) :
    l.foldl (momentAdd μ) ⟨Dbl.fin 0, Dbl.fin 0, Dbl.fin 0⟩
      = ⟨Dbl.fin 0, Dbl.fin 0, Dbl.fin 0⟩ := by
  induction l with
  | nil => rfl
  | cons x l ih =>
    rw [List.foldl_cons, momentAdd_zero μ x (h x (List.mem_cons_self x l))]
    exact ih (fun y hy => h y (List.mem_cons_of_mem x hy))

/-- When every deviation `x - mean` computed in `double` is zero, the three sums
of lines 59-63 are zero. -/
theorem sumsD_zero (v : List Dbl) (h : ∀ x ∈ v, Dbl.sub x (meanD v) = Dbl.fin 0) :
    sumsD v = ⟨Dbl.fin 0, Dbl.fin 0, Dbl.fin 0⟩ :=
  foldl_momentAdd_zero (meanD v) v h

theorem div_zero_zero : Dbl.div (Dbl.fin 0) (Dbl.fin 0) = Dbl.nan := rfl

theorem mul_zero_pinf : Dbl.mul (Dbl.fin 0) Dbl.pinf = Dbl.nan := rfl

theorem mk_false_nonneg (n d : Nat) : Dbl.le (Dbl.fin 0) (Dbl.mk false n d) = true := by
  unfold Dbl.mk
  split
  · rfl
  · simp [Dbl.le]

theorem mk_ne_nan (neg : Bool) (n d : Nat) : Dbl.mk neg n d ≠ Dbl.nan := by
  unfold Dbl.mk
  split
  · cases neg <;> simp
  · simp

theorem mul_self_nonneg_of_ne_nan (x : Dbl) (hx : x ≠ Dbl.nan) :
    Dbl.le (Dbl.fin 0) (Dbl.mul x x) = true := by
  cases x with
  | fin a =>
    show Dbl.le (Dbl.fin 0) (Dbl.mk (Dbl.isNeg (Dbl.fin a) != Dbl.isNeg (Dbl.fin a)) _ _) = true
    rw [bne_self_eq_false]
    exact mk_false_nonneg _ _
  | pinf => rfl
  | ninf => rfl
  | nan => exact absurd rfl hx

theorem add_nonneg_of_nonneg (a b : Dbl) (ha : Dbl.le (Dbl.fin 0) a = true)
    (hb : Dbl.le (Dbl.fin 0) b = true) : Dbl.le (Dbl.fin 0) (Dbl.add a b) = true := by
  cases a with
  | fin x =>
    cases b with
    | fin y =>
      rw [le_fin] at ha hb
      have hxy : ¬ x + y < 0 := by omega
      show Dbl.le (Dbl.fin 0) (Dbl.mk (decide (x + y < 0)) _ _) = true
      rw [decide_eq_false hxy]
      exact mk_false_nonneg _ _
    | pinf => rfl
    | ninf => simp [Dbl.le] at hb
    | nan => simp [Dbl.le] at hb
  | pinf =>
    cases b with
    | fin y => rfl
    | pinf => rfl
    | ninf => simp [Dbl.le] at hb
    | nan => simp [Dbl.le] at hb
  | ninf => simp [Dbl.le] at ha
  | nan => simp [Dbl.le] at ha

theorem div_nonneg_of_pos (a : Dbl) (b : Int) (ha : Dbl.le (Dbl.fin 0) a = true) (hb : 0 < b) :
    Dbl.le (Dbl.fin 0) (Dbl.div a (Dbl.fin b)) = true := by
  cases a with
  | fin x =>
    rw [le_fin] at ha
    have hx : ¬ x < 0 := by omega
    have hb0 : ¬ b < 0 := by omega
    show Dbl.le (Dbl.fin 0) (if b = 0 then _ else
      Dbl.mk (decide (x < 0) != decide (b < 0)) _ _) = true
    rw [if_neg (by omega), decide_eq_false hx, decide_eq_false hb0]
    exact mk_false_nonneg _ _
  | pinf =>
    have hb0 : ¬ b < 0 := by omega
    show Dbl.le (Dbl.fin 0)
      (if (Dbl.isNeg Dbl.pinf != Dbl.isNeg (Dbl.fin b)) then Dbl.ninf else Dbl.pinf) = true
    have hs : (Dbl.isNeg Dbl.pinf != Dbl.isNeg (Dbl.fin b)) = false := by
      simp [Dbl.isNeg, hb0]
    rw [hs]
    rfl
  | ninf => simp [Dbl.le] at ha
  | nan => simp [Dbl.le] at ha

theorem add_fin_ne_nan (a : Dbl) (k : Int) (ha : a ≠ Dbl.nan) :
    Dbl.add a (Dbl.fin k) ≠ Dbl.nan := by
  cases a with
  | fin x => exact mk_ne_nan _ _ _
  | pinf => simp [Dbl.add]
  | ninf => simp [Dbl.add]
  | nan => exact absurd rfl ha

theorem foldl_add_ne_nan (ks : List Int) (acc : Dbl) (ha : acc ≠ Dbl.nan) :
    (ks.map Dbl.fin).foldl Dbl.add acc ≠ Dbl.nan := by
  induction ks generalizing acc with
  | nil => exact ha
  | cons k ks ih => exact ih _ (add_fin_ne_nan acc k ha)

theorem div_fin_ne_nan (a : Dbl) (b : Int) (ha : a ≠ Dbl.nan) (hb : b ≠ 0) :
    Dbl.div a (Dbl.fin b) ≠ Dbl.nan := by
  cases a with
  | fin x =>
    show (if b = 0 then _ else Dbl.mk _ _ _) ≠ Dbl.nan
    rw [if_neg hb]
    exact mk_ne_nan _ _ _
  | pinf =>
    show (if (Dbl.isNeg Dbl.pinf != Dbl.isNeg (Dbl.fin b)) then Dbl.ninf else Dbl.pinf)
      ≠ Dbl.nan
    split <;> simp
  | ninf =>
    show (if (Dbl.isNeg Dbl.ninf != Dbl.isNeg (Dbl.fin b)) then Dbl.ninf else Dbl.pinf)
      ≠ Dbl.nan
    split <;> simp
  | nan => exact absurd rfl ha

theorem meanD_ne_nan (ks : List Int) (hlen : 1 ≤ ks.length) :
    meanD (ks.map Dbl.fin) ≠ Dbl.nan := by
  unfold meanD totalD
  rw [List.length_map]
  exact div_fin_ne_nan _ _ (foldl_add_ne_nan ks _ (by simp)) (scaled_ne_zero _ (by omega))

theorem sub_fin_ne_nan (k : Int) (μ : Dbl) (hμ : μ ≠ Dbl.nan) :
    Dbl.sub (Dbl.fin k) μ ≠ Dbl.nan := by
  cases μ with
  | fin m =>
    show Dbl.add (Dbl.fin k) (Dbl.fin (-m)) ≠ Dbl.nan
    exact add_fin_ne_nan _ _ (fun h => Dbl.noConfusion h)
  | pinf => simp [Dbl.sub, Dbl.neg, Dbl.add]
  | ninf => simp [Dbl.sub, Dbl.neg, Dbl.add]
  | nan => exact absurd rfl hμ

theorem foldl_momentAdd_var_nonneg (μ : Dbl) (hμ : μ ≠ Dbl.nan) (ks : List Int)
    (m : Sums Dbl) (hm : Dbl.le (Dbl.fin 0) m.var = true) :
    Dbl.le (Dbl.fin 0) ((ks.map Dbl.fin).foldl (momentAdd μ) m).var = true := by
  induction ks generalizing m with
  | nil => exact hm
  | cons k ks ih =>
    rw [List.map_cons, List.foldl_cons]
    apply ih
    exact add_nonneg_of_nonneg _ _ hm
      (mul_self_nonneg_of_ne_nan _ (sub_fin_ne_nan k μ hμ))

/-! ## Operations that do not round -/

theorem log2Aux_le (fuel n : Nat) (hn : 1 ≤ n) : 2 ^ Dbl.log2Aux fuel n ≤ n := by
  induction fuel generalizing n with
  | zero => exact hn
  | succ fuel ih =>
    unfold Dbl.log2Aux
    by_cases h : n < 2
    · rw [if_pos h]
      exact hn
    · rw [if_neg h, pow_succ]
      have h1 : 1 ≤ n / 2 := by omega
      have h2 := ih (n / 2) h1
      omega

theorem log2Bits_le (i n : Nat) (hn : 1 ≤ n) : 2 ^ Dbl.log2Bits i n ≤ n := by
  induction i generalizing n with
  | zero => exact hn
  | succ i ih =>
    unfold Dbl.log2Bits
    by_cases h : 2 ^ 2 ^ i ≤ n
    · rw [if_pos h, pow_add]
      have hp : 0 < 2 ^ 2 ^ i := pow_pos two_pos _
      have h1 : 1 ≤ n / 2 ^ 2 ^ i := (Nat.one_le_div_iff hp).mpr h
      have h2 := ih (n / 2 ^ 2 ^ i) h1
      calc 2 ^ 2 ^ i * 2 ^ Dbl.log2Bits i (n / 2 ^ 2 ^ i)
          ≤ 2 ^ 2 ^ i * (n / 2 ^ 2 ^ i) := Nat.mul_le_mul_left _ h2
        _ ≤ n := Nat.mul_div_le n _
    · rw [if_neg h]
      exact ih n hn

theorem log2_le (n : Nat) (hn : 1 ≤ n) : 2 ^ Dbl.log2 n ≤ n := by
  unfold Dbl.log2
  split
  · exact log2Bits_le 12 n hn
  · exact log2Aux_le n n hn

theorem roundHalfEven_mul (q d : Nat) (hd : 0 < d) : Dbl.roundHalfEven (q * d) d = q := by
  unfold Dbl.roundHalfEven
  rw [Nat.mul_mod_left, Nat.mul_zero, if_pos hd, Nat.mul_div_cancel _ hd]

theorem roundHalfEven_ge (n d : Nat) : n / d ≤ Dbl.roundHalfEven n d := by
  unfold Dbl.roundHalfEven
  split
  · exact le_rfl
  · split
    · exact Nat.le_succ _
    · split
      · exact le_rfl
      · exact Nat.le_succ _

theorem roundMag_exact (m d p : Nat) (hm : m < 2 ^ 53) (hd : 0 < d) :
    Dbl.roundMag (m * 2 ^ p * d) d = m * 2 ^ p := by
  unfold Dbl.roundMag
  rw [Nat.mul_div_cancel _ hd]
  by_cases h : m * 2 ^ p < 2 ^ 53
  · rw [if_pos h]
    exact roundHalfEven_mul _ _ hd
  · rw [if_neg h]
    have hq : 1 ≤ m * 2 ^ p := le_trans (Nat.one_le_two_pow) (not_lt.mp h)
    have hL := log2_le (m * 2 ^ p) hq
    generalize Dbl.log2 (m * 2 ^ p) = L at hL
    have hlt : 2 ^ L < 2 ^ (53 + p) := by
      calc 2 ^ L ≤ m * 2 ^ p := hL
        _ < 2 ^ 53 * 2 ^ p := Nat.mul_lt_mul_of_pos_right hm (pow_pos two_pos _)
        _ = 2 ^ (53 + p) := (pow_add 2 53 p).symm
    have hL1 : L < 53 + p := (Nat.pow_lt_pow_iff_right (le_refl 2)).mp hlt
    obtain ⟨s, hs⟩ : ∃ s, p = s + (L - 52) := ⟨p - (L - 52), by omega⟩
    generalize L - 52 = t at hs
    have e1 : (2 : Nat) ^ p = 2 ^ s * 2 ^ t := by rw [hs, pow_add]
    have e2 : m * 2 ^ p * d = m * 2 ^ s * (d * 2 ^ t) := by
      rw [e1]
      ring
    rw [e2, roundHalfEven_mul _ _ (Nat.mul_pos hd (pow_pos two_pos _)), e1]
    ring

theorem mk_exact_pow (neg : Bool) (m d p : Nat) (hm : m < 2 ^ 53) (hd : 0 < d)
    (hp : 53 + p ≤ 2098) :
    Dbl.mk neg (m * 2 ^ p * d) d
      = Dbl.fin (if neg then -((m * 2 ^ p : Nat) : Int) else ((m * 2 ^ p : Nat) : Int)) := by
  unfold Dbl.mk
  rw [roundMag_exact m d p hm hd]
  have h : ¬ 2 ^ 2098 ≤ m * 2 ^ p := by
    rw [not_le]
    calc m * 2 ^ p < 2 ^ 53 * 2 ^ p := Nat.mul_lt_mul_of_pos_right hm (pow_pos two_pos _)
      _ = 2 ^ (53 + p) := (pow_add 2 53 p).symm
      _ ≤ 2 ^ 2098 := pow_le_pow_right₀ one_le_two hp
  rw [if_neg h]

theorem mk_exact (neg : Bool) (m d : Nat) (hm : m < 2 ^ 53) (hd : 0 < d) :
    Dbl.mk neg (m * 2 ^ 1074 * d) d
      = Dbl.fin (if neg then -((m * 2 ^ 1074 : Nat) : Int) else ((m * 2 ^ 1074 : Nat) : Int)) :=
  mk_exact_pow neg m d 1074 hm hd (by decide)

theorem unit_pos : (0 : Int) < ((2 ^ 1074 : Nat) : Int) :=
  Int.natCast_pos.mpr (pow_pos two_pos 1074)

theorem scaled_neg_iff (x : Int) : x * ((2 ^ 1074 : Nat) : Int) < 0 ↔ x < 0 := by
  constructor
  · intro h
    by_contra hx
    exact absurd h (not_lt.mpr (mul_nonneg (not_lt.mp hx) unit_pos.le))
  · intro h
    exact mul_neg_of_neg_of_pos h unit_pos

theorem scaled_natAbs (x : Int) :
    (x * ((2 ^ 1074 : Nat) : Int)).natAbs = x.natAbs * 2 ^ 1074 := by
  rw [Int.natAbs_mul, Int.natAbs_ofNat]

theorem ofInt_zero : Dbl.ofInt 0 = Dbl.fin 0 := by rw [ofInt_eq, zero_mul]

theorem mk_ofInt (neg : Bool) (z : Int) (d : Nat) (hz : z.natAbs < 2 ^ 53) (hd : 0 < d)
    (hneg : z < 0 → neg = true) (hpos : 0 < z → neg = false) :
    Dbl.mk neg (z.natAbs * 2 ^ 1074 * d) d = Dbl.ofInt z := by
  rw [mk_exact neg _ d hz hd, ofInt_eq]
  congr 1
  rw [← scaled_natAbs]
  rcases lt_trichotomy z 0 with h | h | h
  · rw [hneg h, if_pos rfl, Int.natCast_natAbs, abs_of_neg ((scaled_neg_iff z).mpr h), neg_neg]
  · subst h
    rw [zero_mul, Int.natAbs_zero, Nat.cast_zero, neg_zero, ite_self]
  · rw [hpos h, if_neg Bool.false_ne_true, Int.natCast_natAbs,
      abs_of_pos (mul_pos h unit_pos)]

theorem add_ofInt (x y : Int) (h : (x + y).natAbs < 2 ^ 53) :
    Dbl.add (Dbl.ofInt x) (Dbl.ofInt y) = Dbl.ofInt (x + y) := by
  show Dbl.mk (decide (x * ((2 ^ 1074 : Nat) : Int) + y * ((2 ^ 1074 : Nat) : Int) < 0))
    (x * ((2 ^ 1074 : Nat) : Int) + y * ((2 ^ 1074 : Nat) : Int)).natAbs 1 = Dbl.ofInt (x + y)
  rw [← add_mul, scaled_natAbs]
  have key := mk_ofInt (decide ((x + y) * ((2 ^ 1074 : Nat) : Int) < 0)) (x + y) 1 h one_pos
    (fun hz => decide_eq_true ((scaled_neg_iff _).mpr hz))
    (fun hz => decide_eq_false (fun hc => absurd ((scaled_neg_iff _).mp hc) (not_lt.mpr hz.le)))
  rw [Nat.mul_one] at key
  exact key

theorem sub_ofInt (x y : Int) (h : (x - y).natAbs < 2 ^ 53) :
    Dbl.sub (Dbl.ofInt x) (Dbl.ofInt y) = Dbl.ofInt (x - y) := by
  have e : Dbl.neg (Dbl.ofInt y) = Dbl.ofInt (-y) := by
    show Dbl.fin (-(y * ((2 ^ 1074 : Nat) : Int))) = Dbl.fin (-y * ((2 ^ 1074 : Nat) : Int))
    rw [neg_mul]
  unfold Dbl.sub
  rw [e, sub_eq_add_neg]
  exact add_ofInt x (-y) (by rw [← sub_eq_add_neg]; exact h)

theorem isNeg_ofInt (x : Int) : Dbl.isNeg (Dbl.ofInt x) = decide (x < 0) := by
  show decide (x * ((2 ^ 1074 : Nat) : Int) < 0) = decide (x < 0)
  exact decide_eq_decide.mpr (scaled_neg_iff x)

theorem mul_ofInt (x y : Int) (h : (x * y).natAbs < 2 ^ 53) :
    Dbl.mul (Dbl.ofInt x) (Dbl.ofInt y) = Dbl.ofInt (x * y) := by
  show Dbl.mk (Dbl.isNeg (Dbl.ofInt x) != Dbl.isNeg (Dbl.ofInt y))
    ((x * ((2 ^ 1074 : Nat) : Int)).natAbs * (y * ((2 ^ 1074 : Nat) : Int)).natAbs) (2 ^ 1074)
    = Dbl.ofInt (x * y)
  rw [isNeg_ofInt, isNeg_ofInt, scaled_natAbs, scaled_natAbs]
  have e : x.natAbs * 2 ^ 1074 * (y.natAbs * 2 ^ 1074)
      = (x * y).natAbs * 2 ^ 1074 * 2 ^ 1074 := by
    rw [Int.natAbs_mul]
    generalize (2 : Nat) ^ 1074 = P
    ring
  rw [e]
  refine mk_ofInt (decide (x < 0) != decide (y < 0)) (x * y) (2 ^ 1074) h
    (pow_pos two_pos 1074) ?_ ?_
  · intro hz
    rcases mul_neg_iff.mp hz with ⟨h1, h2⟩ | ⟨h1, h2⟩
    · simp [h2, not_lt.mpr h1.le]
    · simp [h1, not_lt.mpr h2.le]
  · intro hz
    rcases mul_pos_iff.mp hz with ⟨h1, h2⟩ | ⟨h1, h2⟩
    · simp [not_lt.mpr h1.le, not_lt.mpr h2.le]
    · simp [h1, h2]

theorem div_ofInt_exact (n m : Int) (hn : 0 < n) (hm : m.natAbs < 2 ^ 53) :
    Dbl.div (Dbl.ofInt (n * m)) (Dbl.ofInt n) = Dbl.ofInt m := by
  show (if n * ((2 ^ 1074 : Nat) : Int) = 0 then
      (if n * m * ((2 ^ 1074 : Nat) : Int) = 0 then Dbl.nan
        else if n * m * ((2 ^ 1074 : Nat) : Int) < 0 then Dbl.ninf else Dbl.pinf)
    else Dbl.mk (Dbl.isNeg (Dbl.ofInt (n * m)) != Dbl.isNeg (Dbl.ofInt n))
      ((n * m * ((2 ^ 1074 : Nat) : Int)).natAbs * 2 ^ 1074)
      (n * ((2 ^ 1074 : Nat) : Int)).natAbs) = Dbl.ofInt m
  rw [if_neg (ne_of_gt (mul_pos hn unit_pos)), isNeg_ofInt, isNeg_ofInt, scaled_natAbs,
    scaled_natAbs]
  have e : (n * m).natAbs * 2 ^ 1074 * 2 ^ 1074
      = m.natAbs * 2 ^ 1074 * (n.natAbs * 2 ^ 1074) := by
    rw [Int.natAbs_mul]
    generalize (2 : Nat) ^ 1074 = P
    ring
  rw [e]
  refine mk_ofInt (decide (n * m < 0) != decide (n < 0)) m (n.natAbs * 2 ^ 1074) hm
    (Nat.mul_pos (Int.natAbs_pos.mpr (ne_of_gt hn)) (pow_pos two_pos 1074)) ?_ ?_
  · intro hz
    simp [not_lt.mpr hn.le, mul_neg_of_pos_of_neg hn hz]
  · intro hz
    simp [not_lt.mpr hn.le, not_lt.mpr (mul_pos hn hz).le]

theorem foldl_add_ofInt (ks : List Int) (A : Int) (B : Nat) (hB : ∀ k ∈ ks, k.natAbs ≤ B)
    (hA : A.natAbs + ks.length * B < 2 ^ 53) :
    (ks.map Dbl.ofInt).foldl Dbl.add (Dbl.ofInt A) = Dbl.ofInt (A + ks.sum) := by
  induction ks generalizing A with
  | nil => rw [List.map_nil, List.foldl_nil, List.sum_nil, add_zero]
  | cons k ks ih =>
    rw [List.map_cons, List.foldl_cons, List.sum_cons, ← add_assoc]
    have hk : k.natAbs ≤ B := hB k (List.mem_cons_self _ _)
    have hs : (A + k).natAbs ≤ A.natAbs + k.natAbs := Int.natAbs_add_le A k
    rw [List.length_cons, Nat.succ_mul] at hA
    rw [add_ofInt A k (by omega)]
    exact ih (A + k) (fun x hx => hB x (List.mem_cons_of_mem _ hx)) (by omega)

theorem foldl_momentAdd_var (c : Int) (ks : List Int) (D : Nat) (m : Sums Dbl) (A : Int)
    (hm : m.var = Dbl.ofInt A) (hD : ∀ k ∈ ks, (k - c).natAbs ≤ D) (hD1 : D < 2 ^ 53)
    (hA : A.natAbs + ks.length * (D * D) < 2 ^ 53) :
    ((ks.map Dbl.ofInt).foldl (momentAdd (Dbl.ofInt c)) m).var
      = Dbl.ofInt (A + (ks.map (fun k => (k - c) * (k - c))).sum) := by
  induction ks generalizing m A with
  | nil => rw [List.map_nil, List.foldl_nil, List.map_nil, List.sum_nil, add_zero, hm]
  | cons k ks ih =>
    rw [List.map_cons, List.foldl_cons, List.map_cons, List.sum_cons, ← add_assoc]
    have hd : (k - c).natAbs ≤ D := hD k (List.mem_cons_self _ _)
    have h2 : ((k - c) * (k - c)).natAbs ≤ D * D := by
      rw [Int.natAbs_mul]
      exact Nat.mul_le_mul hd hd
    have hs : (A + (k - c) * (k - c)).natAbs ≤ A.natAbs + ((k - c) * (k - c)).natAbs :=
      Int.natAbs_add_le _ _
    rw [List.length_cons, Nat.succ_mul] at hA
    refine ih _ (A + (k - c) * (k - c)) ?_ (fun x hx => hD x (List.mem_cons_of_mem _ hx))
      (by omega)
    show Dbl.add m.var (Dbl.mul (Dbl.sub (Dbl.ofInt k) (Dbl.ofInt c))
      (Dbl.sub (Dbl.ofInt k) (Dbl.ofInt c))) = Dbl.ofInt (A + (k - c) * (k - c))
    rw [hm, sub_ofInt k c (lt_of_le_of_lt hd hD1), mul_ofInt _ _ (by omega),
      add_ofInt _ _ (by omega)]

theorem foldl_momentAdd_skewTop (c : Int) (ks : List Int) (D : Nat) (m : Sums Dbl) (A : Int)
    (hm : m.skewTop = Dbl.ofInt A) (hD : ∀ k ∈ ks, (k - c).natAbs ≤ D) (hD1 : D < 2 ^ 53)
    (hD2 : D * D < 2 ^ 53) (hA : A.natAbs + ks.length * (D * D * D) < 2 ^ 53) :
    ((ks.map Dbl.ofInt).foldl (momentAdd (Dbl.ofInt c)) m).skewTop
      = Dbl.ofInt (A + (ks.map (fun k => (k - c) * (k - c) * (k - c))).sum) := by
  induction ks generalizing m A with
  | nil => rw [List.map_nil, List.foldl_nil, List.map_nil, List.sum_nil, add_zero, hm]
  | cons k ks ih =>
    rw [List.map_cons, List.foldl_cons, List.map_cons, List.sum_cons, ← add_assoc]
    have hd : (k - c).natAbs ≤ D := hD k (List.mem_cons_self _ _)
    have h2 : ((k - c) * (k - c)).natAbs ≤ D * D := by
      rw [Int.natAbs_mul]
      exact Nat.mul_le_mul hd hd
    have h3 : ((k - c) * (k - c) * (k - c)).natAbs ≤ D * D * D := by
      rw [Int.natAbs_mul]
      exact Nat.mul_le_mul h2 hd
    have hs : (A + (k - c) * (k - c) * (k - c)).natAbs
        ≤ A.natAbs + ((k - c) * (k - c) * (k - c)).natAbs := Int.natAbs_add_le _ _
    rw [List.length_cons, Nat.succ_mul] at hA
    refine ih _ (A + (k - c) * (k - c) * (k - c)) ?_
      (fun x hx => hD x (List.mem_cons_of_mem _ hx)) (by omega)
    show Dbl.add m.skewTop (Dbl.mul (Dbl.mul (Dbl.sub (Dbl.ofInt k) (Dbl.ofInt c))
      (Dbl.sub (Dbl.ofInt k) (Dbl.ofInt c))) (Dbl.sub (Dbl.ofInt k) (Dbl.ofInt c)))
      = Dbl.ofInt (A + (k - c) * (k - c) * (k - c))
    rw [hm, sub_ofInt k c (lt_of_le_of_lt hd hD1), mul_ofInt _ _ (lt_of_le_of_lt h2 hD2),
      mul_ofInt _ _ (by omega), add_ofInt _ _ (by omega)]

theorem sum_reflect (ks : List Int) (c : Int) :
    (ks.map (fun k => 2 * c - k)).sum = (ks.length : Int) * (2 * c) - ks.sum := by
  induction ks with
  | nil => simp
  | cons k ks ih =>
    rw [List.map_cons, List.sum_cons, ih, List.sum_cons, List.length_cons]
    push_cast
    ring

theorem sum_of_symmetric (ks : List Int) (c : Int)
    (hsym : (ks.map (fun k => 2 * c - k)).Perm ks) : ks.sum = (ks.length : Int) * c := by
  have h := hsym.sum_eq
  rw [sum_reflect] at h
  linarith

theorem cubes_reflect (ks : List Int) (c : Int) :
    ((ks.map (fun k => 2 * c - k)).map (fun k => (k - c) * (k - c) * (k - c))).sum
      = -(ks.map (fun k => (k - c) * (k - c) * (k - c))).sum := by
  induction ks with
  | nil => simp
  | cons k ks ih =>
    rw [List.map_cons, List.map_cons, List.sum_cons, ih, List.map_cons, List.sum_cons]
    ring

theorem cubes_of_symmetric (ks : List Int) (c : Int)
    (hsym : (ks.map (fun k => 2 * c - k)).Perm ks) :
    (ks.map (fun k => (k - c) * (k - c) * (k - c))).sum = 0 := by
  have h := (hsym.map (fun k => (k - c) * (k - c) * (k - c))).sum_eq
  rw [cubes_reflect] at h
  linarith

theorem deviation_le_of_symmetric (ks : List Int) (c : Int) (B : Nat)
    (hB : ∀ k ∈ ks, k.natAbs ≤ B) (hsym : (ks.map (fun k => 2 * c - k)).Perm ks)
    (k : Int) (hk : k ∈ ks) : (k - c).natAbs ≤ B := by
  have h1 := hB k hk
  have h2 := hB (2 * c - k) (hsym.mem_iff.mp (List.mem_map_of_mem _ hk))
  omega

/-! ## Lower bounds on rounded results -/

theorem roundMag_ge_pow (n d e : Nat) (hd : 0 < d) (h : 2 ^ e * d ≤ n) :
    2 ^ e ≤ Dbl.roundMag n d := by
  have hq : 2 ^ e ≤ n / d := (Nat.le_div_iff_mul_le hd).mpr h
  unfold Dbl.roundMag
  split
  · exact le_trans hq (roundHalfEven_ge n d)
  · have hq1 : 1 ≤ n / d := le_trans Nat.one_le_two_pow hq
    have hL := log2_le (n / d) hq1
    generalize Dbl.log2 (n / d) = L at hL
    have ht : 2 ^ (L - 52) ≤ n / d :=
      le_trans (pow_le_pow_right₀ one_le_two (Nat.sub_le L 52)) hL
    generalize L - 52 = t at ht
    have hpos : 0 < 2 ^ t := pow_pos two_pos t
    have hfloor : n / d / 2 ^ t ≤ Dbl.roundHalfEven n (d * 2 ^ t) := by
      rw [Nat.div_div_eq_div_mul]
      exact roundHalfEven_ge n (d * 2 ^ t)
    refine le_trans ?_ (Nat.mul_le_mul_right _ hfloor)
    by_cases het : t ≤ e
    · obtain ⟨s, rfl⟩ : ∃ s, e = s + t := ⟨e - t, by omega⟩
      rw [pow_add]
      refine Nat.mul_le_mul_right _ ?_
      rw [Nat.le_div_iff_mul_le hpos, ← pow_add]
      exact hq
    · have h1 : 1 ≤ n / d / 2 ^ t := (Nat.one_le_div_iff hpos).mpr ht
      calc 2 ^ e ≤ 2 ^ t := pow_le_pow_right₀ one_le_two (by omega)
        _ = 1 * 2 ^ t := (Nat.one_mul _).symm
        _ ≤ n / d / 2 ^ t * 2 ^ t := Nat.mul_le_mul_right _ h1

theorem mk_false_ge (n d e : Nat) (hd : 0 < d) (h : 2 ^ e * d ≤ n) :
    Dbl.mk false n d = Dbl.pinf ∨ ∃ a : Nat, Dbl.mk false n d = Dbl.fin (a : Int) ∧ 2 ^ e ≤ a := by
  unfold Dbl.mk
  split
  · exact Or.inl (if_neg Bool.false_ne_true)
  · exact Or.inr ⟨Dbl.roundMag n d, by rw [if_neg Bool.false_ne_true], roundMag_ge_pow n d e hd h⟩

theorem isNeg_natCast (a : Nat) : Dbl.isNeg (Dbl.fin (a : Int)) = false :=
  decide_eq_false (not_lt.mpr (Int.natCast_nonneg a))

theorem mul_ge (x y : Dbl) (e1 e2 e : Nat)
    (hx : x = Dbl.pinf ∨ ∃ a : Nat, x = Dbl.fin (a : Int) ∧ 2 ^ e1 ≤ a)
    (hy : y = Dbl.pinf ∨ ∃ a : Nat, y = Dbl.fin (a : Int) ∧ 2 ^ e2 ≤ a)
    (he : e + 1074 ≤ e1 + e2) :
    Dbl.mul x y = Dbl.pinf ∨ ∃ a : Nat, Dbl.mul x y = Dbl.fin (a : Int) ∧ 2 ^ e ≤ a := by
  rcases hx with rfl | ⟨a, rfl, ha⟩
  · rcases hy with rfl | ⟨b, rfl, hb⟩
    · exact Or.inl rfl
    · left
      have hb0 : (b : Int) ≠ 0 :=
        Int.natCast_ne_zero.mpr (ne_of_gt (lt_of_lt_of_le (pow_pos two_pos e2) hb))
      show (if (b : Int) = 0 then Dbl.nan
        else if (Dbl.isNeg Dbl.pinf != Dbl.isNeg (Dbl.fin (b : Int))) then Dbl.ninf
          else Dbl.pinf) = Dbl.pinf
      rw [if_neg hb0]
      have hs : (Dbl.isNeg Dbl.pinf != Dbl.isNeg (Dbl.fin (b : Int))) = false := by
        rw [isNeg_natCast]
        rfl
      rw [hs]
      rfl
  · have ha0 : (a : Int) ≠ 0 :=
      Int.natCast_ne_zero.mpr (ne_of_gt (lt_of_lt_of_le (pow_pos two_pos e1) ha))
    rcases hy with rfl | ⟨b, rfl, hb⟩
    · left
      show (if (a : Int) = 0 then Dbl.nan
        else if (Dbl.isNeg (Dbl.fin (a : Int)) != Dbl.isNeg Dbl.pinf) then Dbl.ninf
          else Dbl.pinf) = Dbl.pinf
      rw [if_neg ha0]
      have hs : (Dbl.isNeg (Dbl.fin (a : Int)) != Dbl.isNeg Dbl.pinf) = false := by
        rw [isNeg_natCast]
        rfl
      rw [hs]
      rfl
    · show Dbl.mk (Dbl.isNeg (Dbl.fin (a : Int)) != Dbl.isNeg (Dbl.fin (b : Int)))
          ((a : Int).natAbs * (b : Int).natAbs) (2 ^ 1074) = Dbl.pinf
        ∨ ∃ r : Nat, Dbl.mk (Dbl.isNeg (Dbl.fin (a : Int)) != Dbl.isNeg (Dbl.fin (b : Int)))
          ((a : Int).natAbs * (b : Int).natAbs) (2 ^ 1074) = Dbl.fin (r : Int) ∧ 2 ^ e ≤ r
      have hs : (Dbl.isNeg (Dbl.fin (a : Int)) != Dbl.isNeg (Dbl.fin (b : Int))) = false := by
        rw [isNeg_natCast, isNeg_natCast]
        rfl
      rw [hs, Int.natAbs_ofNat, Int.natAbs_ofNat]
      refine mk_false_ge (a * b) (2 ^ 1074) e (pow_pos two_pos 1074) ?_
      calc 2 ^ e * 2 ^ 1074 = 2 ^ (e + 1074) := (pow_add 2 e 1074).symm
        _ ≤ 2 ^ (e1 + e2) := pow_le_pow_right₀ one_le_two he
        _ = 2 ^ e1 * 2 ^ e2 := pow_add 2 e1 e2
        _ ≤ a * b := Nat.mul_le_mul ha hb

theorem isqrtAux_ge (n i r : Nat) : r ≤ Dbl.isqrtAux n i r := by
  induction i generalizing r with
  | zero => exact le_rfl
  | succ i ih =>
    unfold Dbl.isqrtAux
    split
    · exact le_trans (Nat.le_add_right r _) (ih _)
    · exact ih r

theorem isqrtAux_pos (n : Nat) (hn : 1 ≤ n) (i : Nat) : 1 ≤ Dbl.isqrtAux n (i + 1) 0 := by
  induction i with
  | zero =>
    unfold Dbl.isqrtAux
    rw [if_pos (by simpa using hn)]
    exact le_trans (by simp) (isqrtAux_ge n 0 _)
  | succ i ih =>
    unfold Dbl.isqrtAux
    split
    · exact le_trans (by rw [Nat.zero_add]; exact Nat.one_le_two_pow) (isqrtAux_ge n _ _)
    · exact ih

theorem isqrt_pos (n : Nat) (hn : 1 ≤ n) : 1 ≤ Dbl.isqrt n := isqrtAux_pos n hn _

theorem sqrt_pos (x : Dbl) (hx : x = Dbl.pinf ∨ ∃ a : Nat, x = Dbl.fin (a : Int) ∧ 1 ≤ a) :
    Dbl.lt (Dbl.fin 0) (Dbl.sqrt x) = true := by
  rcases hx with rfl | ⟨a, rfl, ha⟩
  · rfl
  · have hM : 1 ≤ a * 2 ^ 1074 := Nat.mul_pos ha (pow_pos two_pos 1074)
    have hs := isqrt_pos _ hM
    have key : ∀ n d : Nat, 0 < d → 2 ^ 0 * d ≤ n →
        Dbl.lt (Dbl.fin 0) (Dbl.mk false n d) = true := by
      intro n d hd h
      rcases mk_false_ge n d 0 hd h with h1 | ⟨r, h1, hr⟩
      · rw [h1]
        rfl
      · rw [h1]
        show decide ((0 : Int) < (r : Int)) = true
        exact decide_eq_true (Int.natCast_pos.mpr hr)
    show Dbl.lt (Dbl.fin 0) (if (a : Int) < 0 then Dbl.nan
      else if Dbl.isqrt ((a : Int).natAbs * 2 ^ 1074) * Dbl.isqrt ((a : Int).natAbs * 2 ^ 1074)
          = (a : Int).natAbs * 2 ^ 1074
        then Dbl.mk false (Dbl.isqrt ((a : Int).natAbs * 2 ^ 1074)) 1
        else Dbl.mk false (2 * Dbl.isqrt ((a : Int).natAbs * 2 ^ 1074) + 1) 2) = true
    rw [if_neg (not_lt.mpr (Int.natCast_nonneg a)), Int.natAbs_ofNat]
    split
    · exact key _ 1 one_pos (by omega)
    · exact key _ 2 two_pos (by omega)

theorem div_ofInt_ge (s n : Int) (hs : 1 ≤ s) (hn : 0 < n) (hn53 : n.natAbs < 2 ^ 53) :
    Dbl.div (Dbl.ofInt s) (Dbl.ofInt n) = Dbl.pinf
      ∨ ∃ a : Nat, Dbl.div (Dbl.ofInt s) (Dbl.ofInt n) = Dbl.fin (a : Int) ∧ 2 ^ 1021 ≤ a := by
  have e : Dbl.div (Dbl.ofInt s) (Dbl.ofInt n)
      = Dbl.mk false (s.natAbs * 2 ^ 1074 * 2 ^ 1074) (n.natAbs * 2 ^ 1074) := by
    show (if n * ((2 ^ 1074 : Nat) : Int) = 0 then
        (if s * ((2 ^ 1074 : Nat) : Int) = 0 then Dbl.nan
          else if s * ((2 ^ 1074 : Nat) : Int) < 0 then Dbl.ninf else Dbl.pinf)
      else Dbl.mk (Dbl.isNeg (Dbl.ofInt s) != Dbl.isNeg (Dbl.ofInt n))
        ((s * ((2 ^ 1074 : Nat) : Int)).natAbs * 2 ^ 1074)
        (n * ((2 ^ 1074 : Nat) : Int)).natAbs) = _
    rw [if_neg (ne_of_gt (mul_pos hn unit_pos)), isNeg_ofInt, isNeg_ofInt, scaled_natAbs,
      scaled_natAbs, decide_eq_false (not_lt.mpr (le_trans zero_le_one hs)),
      decide_eq_false (not_lt.mpr hn.le)]
    rfl
  rw [e]
  refine mk_false_ge _ _ 1021 (Nat.mul_pos (Int.natAbs_pos.mpr (ne_of_gt hn))
    (pow_pos two_pos 1074)) ?_
  have hs1 : 1 ≤ s.natAbs := Int.natAbs_pos.mpr (ne_of_gt (lt_of_lt_of_le zero_lt_one hs))
  have h1 : 2 ^ 1021 * n.natAbs ≤ s.natAbs * 2 ^ 1074 := by
    calc 2 ^ 1021 * n.natAbs ≤ 2 ^ 1021 * 2 ^ 53 := Nat.mul_le_mul_left _ hn53.le
      _ = 2 ^ 1074 := by rw [← pow_add]
      _ = 1 * 2 ^ 1074 := (Nat.one_mul _).symm
      _ ≤ s.natAbs * 2 ^ 1074 := Nat.mul_le_mul_right _ hs1
  calc 2 ^ 1021 * (n.natAbs * 2 ^ 1074) = 2 ^ 1021 * n.natAbs * 2 ^ 1074 :=
        (Nat.mul_assoc _ _ _).symm
    _ ≤ s.natAbs * 2 ^ 1074 * 2 ^ 1074 := Nat.mul_le_mul_right _ h1

theorem div_zero_of_pos (x : Dbl) (hx : Dbl.lt (Dbl.fin 0) x = true) :
    Dbl.div (Dbl.fin 0) x = Dbl.fin 0 := by
  cases x with
  | fin b =>
    have hb : (0 : Int) < b := of_decide_eq_true hx
    exact div_zero_fin b (ne_of_gt hb)
  | pinf => rfl
  | ninf => exact absurd hx (by decide)
  | nan => exact absurd hx (by decide)

theorem skewBotD_pos (ks : List Int) (s : Int) (hn : 1 ≤ ks.length)
    (hn53 : ks.length < 2 ^ 53) (hs : 1 ≤ s)
    (hvar : (sumsD (ks.map Dbl.ofInt)).var = Dbl.ofInt s) :
    Dbl.lt (Dbl.fin 0) (skewBotD (ks.map Dbl.ofInt)) = true := by
  unfold skewBotD
  rw [hvar, List.length_map]
  have hy := div_ofInt_ge s (ks.length : Int) hs (by exact_mod_cast hn)
    (by rw [Int.natAbs_ofNat]; exact hn53)
  have hyy := mul_ge _ _ 1021 1021 968 hy hy (by decide)
  have hyyy := mul_ge _ _ 968 1021 915 hyy hy (by decide)
  refine sqrt_pos _ ?_
  rcases hyyy with h | ⟨a, h, ha⟩
  · exact Or.inl h
  · exact Or.inr ⟨a, h, le_trans Nat.one_le_two_pow ha⟩

/-- C13, the claim refuted: the sample means `2.1, 20.3, 2.5` and their sorted
rearrangement `2.1, 2.5, 20.3`, which is also the vector the first run leaves,
give different means (`8.3` and `8.299999999999999`), variances, standard
deviations, skewnesses and excess kurtoses. -/
theorem rounded_moments_depend_on_order :
    ∃ st1 r1 st2 r2,
      statisticsD 3 [Dbl.ofScaled 4728779608739021 1023, Dbl.ofScaled 5713942027226317 1026,
        Dbl.ofScaled 5 1073] = .ok st1 ∧
      reportD 3 1000000 st1 = .ok r1 ∧
      statisticsD 3 [Dbl.ofScaled 4728779608739021 1023, Dbl.ofScaled 5 1073,
        Dbl.ofScaled 5713942027226317 1026] = .ok st2 ∧
      reportD 3 1000000 st2 = .ok r2 ∧
      [Dbl.ofScaled 4728779608739021 1023, Dbl.ofScaled 5 1073,
        Dbl.ofScaled 5713942027226317 1026].Perm
        [Dbl.ofScaled 4728779608739021 1023, Dbl.ofScaled 5713942027226317 1026,
          Dbl.ofScaled 5 1073] ∧
      st1.avg_payoff = [Dbl.ofScaled 4728779608739021 1023, Dbl.ofScaled 5 1073,
        Dbl.ofScaled 5713942027226317 1026] ∧
      r1.mean = Dbl.ofScaled 2336242306698445 1026 ∧
      r2.mean = Dbl.ofScaled 4672484613396889 1025 ∧
      st1.var = Dbl.ofScaled 7602639120954819 1028 ∧
      st2.var = Dbl.ofScaled 1900659780238705 1030 ∧
      r1.stdDev = Dbl.ofScaled 5851430826059937 1025 ∧
      r2.stdDev = Dbl.ofScaled 2925715413029969 1026 ∧
      r1.skewness = Dbl.ofScaled 1589610538380487 1023 ∧
      r2.skewness = Dbl.ofScaled 6358442153521953 1021 ∧
      r1.excessKurtosis = Dbl.ofScaled (-3) 1073 ∧
      r2.excessKurtosis = Dbl.ofScaled (-3377699720527871) 1023 ∧
      r1.mean ≠ r2.mean ∧ st1.var ≠ st2.var ∧ r1.stdDev ≠ r2.stdDev ∧
      r1.skewness ≠ r2.skewness ∧ r1.excessKurtosis ≠ r2.excessKurtosis := by
  obtain ⟨st1, r1, hst1, hr1, hsort1, hm1, hv1, -, -, hs1, hk1, -, hrm1, -, hsd1, -, -, hrs1,
    hex1⟩ := analysisD_eq [Dbl.ofScaled 4728779608739021 1023,
      Dbl.ofScaled 5713942027226317 1026, Dbl.ofScaled 5 1073] 1000000 (by decide)
  obtain ⟨st2, r2, hst2, hr2, -, hm2, hv2, -, -, hs2, hk2, -, hrm2, -, hsd2, -, -, hrs2,
    hex2⟩ := analysisD_eq [Dbl.ofScaled 4728779608739021 1023, Dbl.ofScaled 5 1073,
      Dbl.ofScaled 5713942027226317 1026] 1000000 (by decide)
  simp only [List.length_cons, List.length_nil, Nat.reduceAdd, Nat.cast_ofNat, zero_add]
    at hst1 hr1 hst2 hr2
  have e1 : r1.mean = Dbl.ofScaled 2336242306698445 1026 := by
    rw [hrm1, hm1]
    decide!
  have e2 : r2.mean = Dbl.ofScaled 4672484613396889 1025 := by
    rw [hrm2, hm2]
    decide!
  have e3 : st1.var = Dbl.ofScaled 7602639120954819 1028 := by
    rw [hv1]
    decide!
  have e4 : st2.var = Dbl.ofScaled 1900659780238705 1030 := by
    rw [hv2]
    decide!
  have e5 : r1.stdDev = Dbl.ofScaled 5851430826059937 1025 := by
    rw [hsd1, e3]
    decide!
  have e6 : r2.stdDev = Dbl.ofScaled 2925715413029969 1026 := by
    rw [hsd2, e4]
    decide!
  have e7 : r1.skewness = Dbl.ofScaled 1589610538380487 1023 := by
    rw [hrs1, hs1]
    decide!
  have e8 : r2.skewness = Dbl.ofScaled 6358442153521953 1021 := by
    rw [hrs2, hs2]
    decide!
  have e9 : r1.excessKurtosis = Dbl.ofScaled (-3) 1073 := by
    rw [hex1, hk1]
    decide!
  have e10 : r2.excessKurtosis = Dbl.ofScaled (-3377699720527871) 1023 := by
    rw [hex2, hk2]
    decide!
  have hperm : [Dbl.ofScaled 4728779608739021 1023, Dbl.ofScaled 5 1073,
      Dbl.ofScaled 5713942027226317 1026].Perm
      [Dbl.ofScaled 4728779608739021 1023, Dbl.ofScaled 5713942027226317 1026,
        Dbl.ofScaled 5 1073] := List.Perm.cons _ (List.Perm.swap _ _ [])
  have hleft : st1.avg_payoff = [Dbl.ofScaled 4728779608739021 1023, Dbl.ofScaled 5 1073,
      Dbl.ofScaled 5713942027226317 1026] := by
    rw [hsort1]
    decide!
  refine ⟨st1, r1, st2, r2, ?_, ?_, ?_, ?_, ?_, ?_, ?_, ?_, ?_, ?_, ?_, ?_, ?_, ?_, ?_, ?_,
    ?_, ?_, ?_, ?_, ?_⟩
  · exact hst1
  · exact hr1
  · exact hst2
  · exact hr2
  · exact hperm
  · exact hleft
  · exact e1
  · exact e2
  · exact e3
  · exact e4
  · exact e5
  · exact e6
  · exact e7
  · exact e8
  · exact e9
  · exact e10
  · rw [e1, e2]
    decide!
  · rw [e3, e4]
    decide!
  · rw [e5, e6]
    decide!
  · rw [e7, e8]
    decide!
  · rw [e9, e10]
    decide!

/-- C13 as amended: for finite sample means `xs` (length at least 2) and any
rearrangement `ys` of them, lines 48-82 in `double` arithmetic leave the same
sorted vector and report the same median, minimum and maximum for `ys` as for
`xs`; so does a second run on the vector the first run leaves.  Nothing is
said of the mean, variance, skewness and kurtosis, which are rounded
left-to-right sums. -/
theorem median_and_range_order_independent (ks ls : List Int) (num_trials : Int)
    (hlen : 2 ≤ ks.length) (hperm : ls.Perm ks) :
    ∃ st r st1 r1 st2 r2,
      statisticsD (ks.length : Int) (ks.map Dbl.fin) = .ok st ∧
      reportD (ks.length : Int) num_trials st = .ok r ∧
      statisticsD (ks.length : Int) (ls.map Dbl.fin) = .ok st1 ∧
      reportD (ks.length : Int) num_trials st1 = .ok r1 ∧
      statisticsD (ks.length : Int) st.avg_payoff = .ok st2 ∧
      reportD (ks.length : Int) num_trials st2 = .ok r2 ∧
      st1.avg_payoff = st.avg_payoff ∧ r1.median = r.median ∧
      r1.rangeLo = r.rangeLo ∧ r1.rangeHi = r.rangeHi ∧
      st2.avg_payoff = st.avg_payoff ∧ r2.median = r.median ∧
      r2.rangeLo = r.rangeLo ∧ r2.rangeHi = r.rangeHi := by
  have hlk : (ks.map Dbl.fin).length = ks.length := List.length_map _ _
  obtain ⟨st, r, st1, r1, hst, hr, hst1, hr1, hs, ha, hm, hlo, hhi⟩ :=
    sorted_fields_eq (ks.map Dbl.fin) (ls.map Dbl.fin) num_trials (by rw [hlk]; omega)
      (by rw [List.length_map, List.length_map, hperm.length_eq]) (sortD_perm ks ls hperm)
  obtain ⟨st', r', st2, r2, hst', hr', hst2, hr2, -, ha2, hm2, hlo2, hhi2⟩ :=
    sorted_fields_eq (ks.map Dbl.fin) (sortD (ks.map Dbl.fin)) num_trials (by rw [hlk]; omega)
      (length_sortD _) (sortD_sortD ks)
  rw [hlk] at hst hr hst1 hr1 hst' hr' hst2 hr2
  have hst_eq : st' = st := Except.ok.inj (hst'.symm.trans hst)
  subst hst_eq
  have hr_eq : r' = r := Except.ok.inj (hr'.symm.trans hr)
  subst hr_eq
  rw [← hs] at hst2
  exact ⟨st', r', st1, r1, st2, r2, hst, hr, hst1, hr1, hst2, hr2, ha, hm, hlo, hhi, ha2, hm2,
    hlo2, hhi2⟩

/-- C13 as amended, on the sample means `2.1, 20.3, 2.5` and their rearrangement
`2.1, 2.5, 20.3`: same sorted vector, median and range. -/
theorem median_and_range_order_independent_witness :
    ∃ st r st1 r1,
      statisticsD 3 [Dbl.ofScaled 4728779608739021 1023, Dbl.ofScaled 5713942027226317 1026,
        Dbl.ofScaled 5 1073] = .ok st ∧
      reportD 3 1000000 st = .ok r ∧
      statisticsD 3 [Dbl.ofScaled 4728779608739021 1023, Dbl.ofScaled 5 1073,
        Dbl.ofScaled 5713942027226317 1026] = .ok st1 ∧
      reportD 3 1000000 st1 = .ok r1 ∧
      st1.avg_payoff = st.avg_payoff ∧ r1.median = r.median ∧
      r1.rangeLo = r.rangeLo ∧ r1.rangeHi = r.rangeHi := by
  obtain ⟨st, r, st1, r1, -, -, hst, hr, hst1, hr1, -, -, ha, hm, hlo, hhi, -⟩ :=
    median_and_range_order_independent
      [4728779608739021 * ((2 ^ 1023 : Nat) : Int), 5713942027226317 * ((2 ^ 1026 : Nat) : Int),
        5 * ((2 ^ 1073 : Nat) : Int)]
      [4728779608739021 * ((2 ^ 1023 : Nat) : Int), 5 * ((2 ^ 1073 : Nat) : Int),
        5713942027226317 * ((2 ^ 1026 : Nat) : Int)]
      1000000 (by decide) (List.Perm.cons _ (List.Perm.swap _ _ []))
  refine ⟨st, r, st1, r1, ?_, ?_, ?_, ?_, ha, hm, hlo, hhi⟩
  · exact hst
  · exact hr
  · exact hst1
  · exact hr1

/-! ## Constant samples -/

/-- For a constant sequence of finite sample means, of length at least 2, whose
mean the `double` arithmetic of lines 54-57 computes exactly, every computed
deviation is `0` and the variance and the standard deviation are `0`. -/
theorem zero_variance_of_exact_mean (k : Int) (n : Nat) (num_trials : Int) (hn : 2 ≤ n)
    (hmean : meanD (List.replicate n (Dbl.fin k)) = Dbl.fin k) :
    ∃ st r, statisticsD (n : Int) (List.replicate n (Dbl.fin k)) = .ok st ∧
      reportD (n : Int) num_trials st = .ok r ∧
      r.mean = Dbl.fin k ∧
      (∀ x ∈ List.replicate n (Dbl.fin k), Dbl.sub x r.mean = Dbl.fin 0) ∧
      st.var = Dbl.fin 0 ∧ r.stdDev = Dbl.fin 0 := by
  have hl : (List.replicate n (Dbl.fin k)).length = n := List.length_replicate n _
  obtain ⟨st, r, hst, hr, -, hm, hv, -, -, -, -, -, hrm, -, hsd, -⟩ :=
    analysisD_eq (List.replicate n (Dbl.fin k)) num_trials (by rw [hl]; omega)
  rw [hl] at hst hr
  have hdev : ∀ x ∈ List.replicate n (Dbl.fin k),
      Dbl.sub x (meanD (List.replicate n (Dbl.fin k))) = Dbl.fin 0 := by
    intro x hx
    rw [List.eq_of_mem_replicate hx, hmean]
    exact sub_self_fin k
  have hvar : st.var = Dbl.fin 0 := by
    rw [hv, varD, sumsD_zero _ hdev, hl]
    exact div_zero_ofInt _ (by omega)
  refine ⟨st, r, hst, hr, by rw [hrm, hm, hmean], ?_, hvar, by rw [hsd, hvar, sqrt_zero]⟩
  intro x hx
  rw [hrm, hm]
  exact hdev x hx

theorem ofScaled_eq (m : Int) (e : Nat) : Dbl.ofScaled m e = Dbl.fin (m * ((2 ^ e : Nat) : Int)) :=
  rfl

theorem pow_unit_pos (e : Nat) : (0 : Int) < ((2 ^ e : Nat) : Int) :=
  Int.natCast_pos.mpr (pow_pos two_pos e)

theorem scaled_pow_neg_iff (x : Int) (e : Nat) : x * ((2 ^ e : Nat) : Int) < 0 ↔ x < 0 := by
  constructor
  · intro h
    by_contra hx
    exact absurd h (not_lt.mpr (mul_nonneg (not_lt.mp hx) (pow_unit_pos e).le))
  · intro h
    exact mul_neg_of_neg_of_pos h (pow_unit_pos e)

theorem scaled_pow_natAbs (x : Int) (e : Nat) :
    (x * ((2 ^ e : Nat) : Int)).natAbs = x.natAbs * 2 ^ e := by
  rw [Int.natAbs_mul, Int.natAbs_ofNat]

theorem ofScaled_zero (e : Nat) : Dbl.ofScaled 0 e = Dbl.fin 0 := by rw [ofScaled_eq, zero_mul]

theorem mk_ofScaled (neg : Bool) (z : Int) (e d : Nat) (hz : z.natAbs < 2 ^ 53)
    (he : 53 + e ≤ 2098) (hd : 0 < d) (hneg : z < 0 → neg = true) (hpos : 0 < z → neg = false) :
    Dbl.mk neg (z.natAbs * 2 ^ e * d) d = Dbl.ofScaled z e := by
  rw [mk_exact_pow neg _ d e hz hd he, ofScaled_eq]
  congr 1
  rw [← scaled_pow_natAbs]
  rcases lt_trichotomy z 0 with h | h | h
  · rw [hneg h, if_pos rfl, Int.natCast_natAbs, abs_of_neg ((scaled_pow_neg_iff z e).mpr h),
      neg_neg]
  · subst h
    rw [zero_mul, Int.natAbs_zero, Nat.cast_zero, neg_zero, ite_self]
  · rw [hpos h, if_neg Bool.false_ne_true, Int.natCast_natAbs,
      abs_of_pos (mul_pos h (pow_unit_pos e))]

theorem add_ofScaled (x y : Int) (e : Nat) (h : (x + y).natAbs < 2 ^ 53) (he : 53 + e ≤ 2098) :
    Dbl.add (Dbl.ofScaled x e) (Dbl.ofScaled y e) = Dbl.ofScaled (x + y) e := by
  show Dbl.mk (decide (x * ((2 ^ e : Nat) : Int) + y * ((2 ^ e : Nat) : Int) < 0))
    (x * ((2 ^ e : Nat) : Int) + y * ((2 ^ e : Nat) : Int)).natAbs 1 = Dbl.ofScaled (x + y) e
  rw [← add_mul, scaled_pow_natAbs]
  have key := mk_ofScaled (decide ((x + y) * ((2 ^ e : Nat) : Int) < 0)) (x + y) e 1 h he one_pos
    (fun hz => decide_eq_true ((scaled_pow_neg_iff _ e).mpr hz))
    (fun hz => decide_eq_false
      (fun hc => absurd ((scaled_pow_neg_iff _ e).mp hc) (not_lt.mpr hz.le)))
  rw [Nat.mul_one] at key
  exact key

theorem div_ofScaled_ofInt (n m : Int) (e : Nat) (hn : 0 < n) (hm : m.natAbs < 2 ^ 53)
    (he : 53 + e ≤ 2098) :
    Dbl.div (Dbl.ofScaled (n * m) e) (Dbl.ofInt n) = Dbl.ofScaled m e := by
  show (if n * ((2 ^ 1074 : Nat) : Int) = 0 then
      (if n * m * ((2 ^ e : Nat) : Int) = 0 then Dbl.nan
        else if n * m * ((2 ^ e : Nat) : Int) < 0 then Dbl.ninf else Dbl.pinf)
    else Dbl.mk (decide (n * m * ((2 ^ e : Nat) : Int) < 0) != Dbl.isNeg (Dbl.ofInt n))
      ((n * m * ((2 ^ e : Nat) : Int)).natAbs * 2 ^ 1074)
      (n * ((2 ^ 1074 : Nat) : Int)).natAbs) = Dbl.ofScaled m e
  rw [if_neg (ne_of_gt (mul_pos hn unit_pos)), isNeg_ofInt, scaled_natAbs, scaled_pow_natAbs,
    decide_eq_decide.mpr (scaled_pow_neg_iff (n * m) e)]
  have e1 : (n * m).natAbs * 2 ^ e * 2 ^ 1074
      = m.natAbs * 2 ^ e * (n.natAbs * 2 ^ 1074) := by
    rw [Int.natAbs_mul]
    generalize (2 : Nat) ^ 1074 = P
    ring
  rw [e1]
  refine mk_ofScaled (decide (n * m < 0) != decide (n < 0)) m e (n.natAbs * 2 ^ 1074) hm he
    (Nat.mul_pos (Int.natAbs_pos.mpr (ne_of_gt hn)) (pow_pos two_pos 1074)) ?_ ?_
  · intro hz
    simp [not_lt.mpr hn.le, mul_neg_of_pos_of_neg hn hz]
  · intro hz
    simp [not_lt.mpr hn.le, not_lt.mpr (mul_pos hn hz).le]

theorem foldl_add_ofScaled (ks : List Int) (e : Nat) (A : Int) (B : Nat)
    (hB : ∀ k ∈ ks, k.natAbs ≤ B) (hA : A.natAbs + ks.length * B < 2 ^ 53)
    (he : 53 + e ≤ 2098) :
    (ks.map (fun k => Dbl.ofScaled k e)).foldl Dbl.add (Dbl.ofScaled A e)
      = Dbl.ofScaled (A + ks.sum) e := by
  induction ks generalizing A with
  | nil => rw [List.map_nil, List.foldl_nil, List.sum_nil, add_zero]
  | cons k ks ih =>
    rw [List.map_cons, List.foldl_cons, List.sum_cons, ← add_assoc]
    have hk : k.natAbs ≤ B := hB k (List.mem_cons_self _ _)
    have hs : (A + k).natAbs ≤ A.natAbs + k.natAbs := Int.natAbs_add_le A k
    rw [List.length_cons, Nat.succ_mul] at hA
    rw [add_ofScaled A k e (by omega) he]
    exact ih (A + k) (fun x hx => hB x (List.mem_cons_of_mem _ hx)) (by omega)

/-- The mean of `n` copies of the `double` `m · 2^(e-1074)` with `n · |m| < 2^53`
is computed exactly: the partial sums and the quotient need no more than 53
significant bits. -/
theorem meanD_replicate_ofScaled (m : Int) (e n : Nat) (hn : 1 ≤ n)
    (h : n * m.natAbs < 2 ^ 53) (he : e ≤ 2045) :
    meanD (List.replicate n (Dbl.ofScaled m e)) = Dbl.ofScaled m e := by
  have hv : List.replicate n (Dbl.ofScaled m e)
      = (List.replicate n m).map (fun k => Dbl.ofScaled k e) := by
    rw [List.map_replicate]
  have hm : m.natAbs < 2 ^ 53 := lt_of_le_of_lt (Nat.le_mul_of_pos_left _ hn) h
  unfold meanD totalD
  rw [hv, List.length_map, List.length_replicate, ← ofScaled_zero e,
    foldl_add_ofScaled (List.replicate n m) e 0 m.natAbs
      (fun k hk => by rw [List.eq_of_mem_replicate hk])
      (by rw [Int.natAbs_zero, List.length_replicate]; omega) (by omega),
    zero_add, List.sum_replicate, nsmul_eq_mul]
  exact div_ofScaled_ofInt (n : Int) m e (by exact_mod_cast hn) hm (by omega)


/-- C14 as amended: for `n ≥ 2` copies of a sample mean `m · 2^(e-1074)` with
`n · |m| < 2^53`, so that the sum of line 55 needs no more than 53 significant
bits (`[5, 5, 5, 5]` is such a sequence), lines 54-57 compute the mean exactly:
the mean is the common value, every computed deviation is `0`, and the variance
and the standard deviation are `0`. -/
theorem constant_sequence_exact_mean (m : Int) (e n : Nat) (num_trials : Int) (hn : 2 ≤ n)
    (hsmall : n * m.natAbs < 2 ^ 53) (he : e ≤ 2045) :
    ∃ st r, statisticsD (n : Int) (List.replicate n (Dbl.ofScaled m e)) = .ok st ∧
      reportD (n : Int) num_trials st = .ok r ∧
      r.mean = Dbl.ofScaled m e ∧
      (∀ x ∈ List.replicate n (Dbl.ofScaled m e), Dbl.sub x r.mean = Dbl.fin 0) ∧
      st.var = Dbl.fin 0 ∧ r.stdDev = Dbl.fin 0 :=
  zero_variance_of_exact_mean (m * ((2 ^ e : Nat) : Int)) n num_trials hn
    (meanD_replicate_ofScaled m e n (by omega) hsmall he)

/-- C14 as amended, on `[5, 5, 5, 5]`: the sum `20` and the mean `5` are exact,
so the variance and the standard deviation are `0`. -/
theorem constant_sequence_exact_mean_witness :
    ∃ st r, statisticsD 4 [Dbl.ofInt 5, Dbl.ofInt 5, Dbl.ofInt 5, Dbl.ofInt 5] = .ok st ∧
      reportD 4 1000000 st = .ok r ∧
      r.mean = Dbl.ofInt 5 ∧ st.var = Dbl.fin 0 ∧ r.stdDev = Dbl.fin 0 := by
  obtain ⟨st, r, hst, hr, hm, -, hv, hs⟩ :=
    constant_sequence_exact_mean 5 1074 4 1000000 (by decide) (by decide) (by decide)
  refine ⟨st, r, ?_, ?_, hm, hv, hs⟩
  · exact hst
  · exact hr

/-- C14, the claim refuted: ten sample means all equal to `2.6666666666666665`
have, in `double` arithmetic, the mean `2.666666666666667`, which is another
number; every deviation is non-zero, and so are the variance and the standard
deviation. -/
theorem constant_sequence_rounded_mean :
    ∃ st r,
      statisticsD 10 (List.replicate 10 (Dbl.ofScaled 6004799503160661 1023)) = .ok st ∧
      reportD 10 1000000 st = .ok r ∧
      r.mean = Dbl.ofScaled 3002399751580331 1024 ∧
      r.mean ≠ Dbl.ofScaled 6004799503160661 1023 ∧
      (∀ x ∈ List.replicate 10 (Dbl.ofScaled 6004799503160661 1023),
        Dbl.sub x r.mean = Dbl.ofScaled (-1) 1023) ∧
      st.var = Dbl.ofScaled 2501999792983609 921 ∧ st.var ≠ Dbl.fin 0 ∧
      r.stdDev = Dbl.ofScaled 2373605415329393 972 ∧ r.stdDev ≠ Dbl.fin 0 := by
  obtain ⟨st, r, hst, hr, -, hm, hv, -, -, -, -, -, hrm, -, hsd, -⟩ :=
    analysisD_eq (List.replicate 10 (Dbl.ofScaled 6004799503160661 1023)) 1000000 (by decide)
  have e1 : r.mean = Dbl.ofScaled 3002399751580331 1024 := by
    rw [hrm, hm]
    decide!
  have e2 : st.var = Dbl.ofScaled 2501999792983609 921 := by
    rw [hv]
    decide!
  have e3 : r.stdDev = Dbl.ofScaled 2373605415329393 972 := by
    rw [hsd, e2]
    decide!
  refine ⟨st, r, ?_, ?_, e1, ?_, ?_, e2, ?_, e3, ?_⟩
  · exact hst
  · exact hr
  · rw [e1]
    decide!
  · intro x hx
    rw [List.eq_of_mem_replicate hx, e1]
    decide!
  · rw [e2]
    decide!
  · rw [e3]
    decide!

/-! ## Symmetric samples -/

/-- C15 as amended: for integer-valued sample means, not all equal, of magnitude
at most `B` with `n · B³ < 2^53`, whose list is invariant under the reflection
`k ↦ 2c - k` about an integer `c`: every operation of lines 54-63 that the
skewness needs is exact in `double` arithmetic, the mean computed is `c`, the
sum of squared deviations is the exact positive integer, the sum of cubed
deviations is exactly `0`, the divisor `skewBot` is positive and the skewness
reported is exactly `0`. -/
theorem symmetric_integers_zero_skewness (ks : List Int) (c : Int) (B : Nat) (num_trials : Int)
    (hB : ∀ k ∈ ks, k.natAbs ≤ B) (hsmall : ks.length * (B * B * B) < 2 ^ 53)
    (hsym : (ks.map (fun k => 2 * c - k)).Perm ks) (hne : ∃ k ∈ ks, k ≠ c) :
    ∃ st r, statisticsD (ks.length : Int) (ks.map Dbl.ofInt) = .ok st ∧
      reportD (ks.length : Int) num_trials st = .ok r ∧
      st.mean = Dbl.ofInt c ∧
      (sumsD (ks.map Dbl.ofInt)).var = Dbl.ofInt (ks.map (fun k => (k - c) * (k - c))).sum ∧
      0 < (ks.map (fun k => (k - c) * (k - c))).sum ∧
      (sumsD (ks.map Dbl.ofInt)).skewTop = Dbl.fin 0 ∧
      Dbl.lt (Dbl.fin 0) st.skewBot = true ∧
      st.skew = Dbl.fin 0 ∧ r.skewness = Dbl.fin 0 := by
  obtain ⟨k0, hk0, hk0c⟩ := hne
  have hn : 1 ≤ ks.length := List.length_pos_of_mem hk0
  have hdev := deviation_le_of_symmetric ks c B hB hsym
  have hB1 : 1 ≤ B := by
    have := hdev k0 hk0
    omega
  have hc : c.natAbs ≤ B := by
    have h1 := hB k0 hk0
    have h2 := hdev k0 hk0
    have h3 := hB (2 * c - k0) (hsym.mem_iff.mp (List.mem_map_of_mem _ hk0))
    omega
  have hBB : B ≤ B * B := Nat.le_mul_self B
  have hBBB : B * B ≤ B * B * B := Nat.le_mul_of_pos_right _ hB1
  have hnB3 : B * B * B ≤ ks.length * (B * B * B) := Nat.le_mul_of_pos_left _ hn
  have hnB : ks.length * B ≤ ks.length * (B * B * B) :=
    Nat.mul_le_mul_left _ (le_trans hBB hBBB)
  have hnB2 : ks.length * (B * B) ≤ ks.length * (B * B * B) := Nat.mul_le_mul_left _ hBBB
  have hn53 : ks.length < 2 ^ 53 := by
    have : ks.length * 1 ≤ ks.length * (B * B * B) :=
      Nat.mul_le_mul_left _ (le_trans hB1 (le_trans hBB hBBB))
    omega
  have hlk : (ks.map Dbl.ofInt).length = ks.length := List.length_map _ _
  have htotal : totalD (ks.map Dbl.ofInt) = Dbl.ofInt ((ks.length : Int) * c) := by
    unfold totalD
    rw [← ofInt_zero, foldl_add_ofInt ks 0 B hB (by rw [Int.natAbs_zero]; omega), zero_add,
      sum_of_symmetric ks c hsym]
  have hmean : meanD (ks.map Dbl.ofInt) = Dbl.ofInt c := by
    unfold meanD
    rw [htotal, hlk]
    exact div_ofInt_exact _ _ (by exact_mod_cast hn) (by omega)
  have hvar : (sumsD (ks.map Dbl.ofInt)).var
      = Dbl.ofInt (ks.map (fun k => (k - c) * (k - c))).sum := by
    unfold sumsD
    rw [hmean, foldl_momentAdd_var c ks B _ 0 ofInt_zero.symm hdev (by omega)
      (by rw [Int.natAbs_zero]; omega), zero_add]
  have hcube : (sumsD (ks.map Dbl.ofInt)).skewTop = Dbl.fin 0 := by
    unfold sumsD
    rw [hmean, foldl_momentAdd_skewTop c ks B _ 0 ofInt_zero.symm hdev (by omega) (by omega)
      (by rw [Int.natAbs_zero]; omega), zero_add, cubes_of_symmetric ks c hsym, ofInt_zero]
  have hpos : 0 < (ks.map (fun k => (k - c) * (k - c))).sum := by
    have h1 : (k0 - c) * (k0 - c) ≤ (ks.map (fun k => (k - c) * (k - c))).sum :=
      List.single_le_sum (fun x hx => by
        obtain ⟨k, -, rfl⟩ := List.mem_map.mp hx
        exact mul_self_nonneg _) _ (List.mem_map_of_mem (fun k => (k - c) * (k - c)) hk0)
    have h2 : 0 < (k0 - c) * (k0 - c) := mul_self_pos.mpr (sub_ne_zero.mpr hk0c)
    exact lt_of_lt_of_le h2 h1
  have hbot := skewBotD_pos ks _ hn hn53 hpos hvar
  obtain ⟨st, r, hst, hr, -, hm, -, htop, hb, hskew, -, -, -, -, -, -, -, hrs, -⟩ :=
    analysisD_eq (ks.map Dbl.ofInt) num_trials (by rw [hlk]; exact hn)
  rw [hlk] at hst hr
  have e1 : st.skewTop = Dbl.fin 0 := by
    rw [htop, skewTopD, hcube, hlk]
    exact div_zero_ofInt _ (by exact_mod_cast (ne_of_gt hn))
  have e2 : st.skew = Dbl.fin 0 := by
    rw [hskew, skewD, ← htop, e1]
    exact div_zero_of_pos _ hbot
  refine ⟨st, r, hst, hr, ?_, hvar, hpos, hcube, ?_, e2, ?_⟩
  · rw [hm, hmean]
  · rw [hb]
    exact hbot
  · rw [hrs, e2]

/-- C15 as amended, on the sample means `1, 2, 3, 4, 5` (symmetric about `3`):
mean `3`, sum of cubed deviations `0`, skewness exactly `0`. -/
theorem symmetric_integers_zero_skewness_witness :
    ∃ st r,
      statisticsD 5 [Dbl.ofInt 1, Dbl.ofInt 2, Dbl.ofInt 3, Dbl.ofInt 4, Dbl.ofInt 5] = .ok st ∧
      reportD 5 1000000 st = .ok r ∧ st.mean = Dbl.ofInt 3 ∧
      (sumsD [Dbl.ofInt 1, Dbl.ofInt 2, Dbl.ofInt 3, Dbl.ofInt 4, Dbl.ofInt 5]).var
        = Dbl.ofInt 10 ∧
      (sumsD [Dbl.ofInt 1, Dbl.ofInt 2, Dbl.ofInt 3, Dbl.ofInt 4, Dbl.ofInt 5]).skewTop
        = Dbl.fin 0 ∧
      st.skew = Dbl.fin 0 ∧ r.skewness = Dbl.fin 0 := by
  obtain ⟨st, r, hst, hr, hm, hv, -, hc, -, hs, hrs⟩ :=
    symmetric_integers_zero_skewness [1, 2, 3, 4, 5] 3 5 1000000 (by decide) (by decide)
      (by decide) ⟨1, by decide, by decide⟩
  refine ⟨st, r, ?_, ?_, hm, ?_, ?_, hs, hrs⟩
  · exact hst
  · exact hr
  · exact hv
  · exact hc

/-- C15, the claim refuted: the sample means `3145728, 2097153, 1048576,
2097151` are invariant under the reflection about their mean `2097152`, the mean
and the deviations `2^20, 1, -2^20, -1` are computed exactly and the sum of
squared deviations is positive.  The cubes are `2^60, 1, -2^60, -1`; added in
this order in `double` arithmetic, `2^60 + 1` rounds to `2^60`, so the sum of
cubed deviations computed is `-1`, not `0`, and the skewness reported is
`-6.13e-19`, not `0`. -/
theorem symmetric_samples_nonzero_skewness :
    ∃ st r,
      statisticsD 4 [Dbl.ofInt 3145728, Dbl.ofInt 2097153, Dbl.ofInt 1048576, Dbl.ofInt 2097151] = .ok st ∧
      reportD 4 1000000 st = .ok r ∧
      (([3145728, 2097153, 1048576, 2097151] : List Int).map
        (fun k => 2 * 2097152 - k)).Perm [3145728, 2097153, 1048576, 2097151] ∧
      st.mean = Dbl.ofInt 2097152 ∧
      ([Dbl.ofInt 3145728, Dbl.ofInt 2097153, Dbl.ofInt 1048576, Dbl.ofInt 2097151].map
        (fun x => Dbl.sub x st.mean))
        = [Dbl.ofInt 1048576, Dbl.ofInt 1, Dbl.ofInt (-1048576), Dbl.ofInt (-1)] ∧
      Dbl.add (Dbl.ofScaled 1 1134) (Dbl.ofInt 1) = Dbl.ofScaled 1 1134 ∧
      (sumsD [Dbl.ofInt 3145728, Dbl.ofInt 2097153, Dbl.ofInt 1048576, Dbl.ofInt 2097151]).var
        = Dbl.ofScaled 1099511627777 1075 ∧
      Dbl.lt (Dbl.fin 0)
        (sumsD [Dbl.ofInt 3145728, Dbl.ofInt 2097153, Dbl.ofInt 1048576, Dbl.ofInt 2097151]).var
        = true ∧
      (sumsD [Dbl.ofInt 3145728, Dbl.ofInt 2097153, Dbl.ofInt 1048576, Dbl.ofInt 2097151]).skewTop
        = Dbl.ofInt (-1) ∧
      (sumsD [Dbl.ofInt 3145728, Dbl.ofInt 2097153, Dbl.ofInt 1048576, Dbl.ofInt 2097151]).skewTop
        ≠ Dbl.fin 0 ∧
      st.skewTop = Dbl.ofScaled (-1) 1072 ∧
      st.skew = Dbl.ofScaled (-1592262918129271) 963 ∧ st.skew ≠ Dbl.fin 0 ∧
      r.skewness = Dbl.ofScaled (-1592262918129271) 963 := by
  obtain ⟨st, r, hst, hr, -, hm, -, htop, -, hskew, -, -, -, -, -, -, -, hrs, -⟩ :=
    analysisD_eq [Dbl.ofInt 3145728, Dbl.ofInt 2097153, Dbl.ofInt 1048576, Dbl.ofInt 2097151]
      1000000 (by decide)
  have e1 : st.mean = Dbl.ofInt 2097152 := by
    rw [hm]
    decide!
  have e2 : st.skewTop = Dbl.ofScaled (-1) 1072 := by
    rw [htop]
    decide!
  have e3 : st.skew = Dbl.ofScaled (-1592262918129271) 963 := by
    rw [hskew]
    decide!
  refine ⟨st, r, ?_, ?_, ?_, e1, ?_, ?_, ?_, ?_, ?_, ?_, e2, e3, ?_, ?_⟩
  · exact hst
  · exact hr
  · decide
  · rw [e1]
    decide!
  · decide!
  · decide!
  · decide!
  · decide!
  · decide!
  · rw [e3]
    decide!
  · rw [hrs, e3]

/-- Rounding of the mean alone breaks the symmetry: five sample means `2`
alternating with five `2.6666666666666665`.  The ten values are invariant under
the reflection about their exact mean (it exchanges the two values) and the sum
of squared deviations computed is positive, yet the mean of line 57 is rounded,
the deviations computed are not symmetric, the sum of cubed deviations computed
is `55 · 2^-56`, not `0`, and the skewness reported is `2.06e-15`, not `0`. -/
theorem rounded_mean_breaks_symmetry :
    ∃ (ks : List Int) (s : Int) (st : Stats Dbl) (r : Report Dbl),
      ks.map Dbl.fin = [Dbl.ofInt 2, Dbl.ofScaled 6004799503160661 1023,
        Dbl.ofInt 2, Dbl.ofScaled 6004799503160661 1023,
        Dbl.ofInt 2, Dbl.ofScaled 6004799503160661 1023,
        Dbl.ofInt 2, Dbl.ofScaled 6004799503160661 1023,
        Dbl.ofInt 2, Dbl.ofScaled 6004799503160661 1023] ∧
      (ks.map (fun k => s - k)).Perm ks ∧ (ks.length : Int) * s = 2 * ks.sum ∧
      statisticsD 10 (ks.map Dbl.fin) = .ok st ∧ reportD 10 1000000 st = .ok r ∧
      st.mean = Dbl.ofScaled 2627099782632789 1024 ∧
      (sumsD (ks.map Dbl.fin)).var = Dbl.ofScaled 5003999585967215 1022 ∧
      Dbl.lt (Dbl.fin 0) (sumsD (ks.map Dbl.fin)).var = true ∧
      (sumsD (ks.map Dbl.fin)).skewTop = Dbl.ofScaled 55 1018 ∧
      (sumsD (ks.map Dbl.fin)).skewTop ≠ Dbl.fin 0 ∧
      st.skewTop = Dbl.ofScaled 11 1017 ∧
      st.skew = Dbl.ofScaled 5224879255191557 973 ∧ st.skew ≠ Dbl.fin 0 ∧
      r.skewness = Dbl.ofScaled 5224879255191557 973 := by
  obtain ⟨st, r, hst, hr, -, hm, -, htop, -, hskew, -, -, -, -, -, -, -, hrs, -⟩ :=
    analysisD_eq [Dbl.ofInt 2, Dbl.ofScaled 6004799503160661 1023,
        Dbl.ofInt 2, Dbl.ofScaled 6004799503160661 1023,
        Dbl.ofInt 2, Dbl.ofScaled 6004799503160661 1023,
        Dbl.ofInt 2, Dbl.ofScaled 6004799503160661 1023,
        Dbl.ofInt 2, Dbl.ofScaled 6004799503160661 1023] 1000000 (by decide)
  have e1 : st.mean = Dbl.ofScaled 2627099782632789 1024 := by
    rw [hm]
    decide!
  have e2 : st.skewTop = Dbl.ofScaled 11 1017 := by
    rw [htop]
    decide!
  have e3 : st.skew = Dbl.ofScaled 5224879255191557 973 := by
    rw [hskew]
    decide!
  refine ⟨[2 * ((2 ^ 1074 : Nat) : Int), 6004799503160661 * ((2 ^ 1023 : Nat) : Int),
      2 * ((2 ^ 1074 : Nat) : Int), 6004799503160661 * ((2 ^ 1023 : Nat) : Int),
      2 * ((2 ^ 1074 : Nat) : Int), 6004799503160661 * ((2 ^ 1023 : Nat) : Int),
      2 * ((2 ^ 1074 : Nat) : Int), 6004799503160661 * ((2 ^ 1023 : Nat) : Int),
      2 * ((2 ^ 1074 : Nat) : Int), 6004799503160661 * ((2 ^ 1023 : Nat) : Int)],
    2 * ((2 ^ 1074 : Nat) : Int) + 6004799503160661 * ((2 ^ 1023 : Nat) : Int), st, r,
    ?_, ?_, ?_, ?_, ?_, e1, ?_, ?_, ?_, ?_, e2, e3, ?_, ?_⟩
  · decide!
  · decide!
  · decide!
  · exact hst
  · exact hr
  · decide!
  · decide!
  · decide!
  · decide!
  · rw [e3]
    decide!
  · rw [hrs, e3]

/-! ## A zero sum of squared deviations -/

/-- C18 as amended: for a non-empty vector of finite sample means, with `min`,
`median`, `max` the entries `0`, `n / 2`, `n - 1` of the sorted vector, lines
73-80 report `min ≤ median ≤ max`.  Nothing is said of the mean, a rounded sum
divided by `n`. -/
theorem min_le_median_le_max (ks : List Int) (num_trials : Int) (hlen : 1 ≤ ks.length) :
    ∃ st r, statisticsD (ks.length : Int) (ks.map Dbl.fin) = .ok st ∧
      reportD (ks.length : Int) num_trials st = .ok r ∧
      (sortD (ks.map Dbl.fin))[0]? = some r.rangeLo ∧
      (sortD (ks.map Dbl.fin))[ks.length / 2]? = some r.median ∧
      (sortD (ks.map Dbl.fin))[ks.length - 1]? = some r.rangeHi ∧
      Dbl.le r.rangeLo r.median = true ∧ Dbl.le r.median r.rangeHi = true := by
  have hlk : (ks.map Dbl.fin).length = ks.length := List.length_map _ _
  obtain ⟨st, r, hst, hr, -, -, -, -, -, -, -, hmed, -, hrmed, -, hlo, hhi, -⟩ :=
    analysisD_eq (ks.map Dbl.fin) num_trials (by rw [hlk]; exact hlen)
  rw [hlk] at hst hr hmed hhi
  rw [← hrmed] at hmed
  have hsl : (ks.insertionSort (· ≤ ·)).length = ks.length := List.length_insertionSort _ ks
  have hs : (ks.insertionSort (· ≤ ·)).Sorted (· ≤ ·) := List.sorted_insertionSort _ ks
  have i0 : 0 < (ks.insertionSort (· ≤ ·)).length := by omega
  have i1 : ks.length / 2 < (ks.insertionSort (· ≤ ·)).length := by omega
  have i2 : ks.length - 1 < (ks.insertionSort (· ≤ ·)).length := by omega
  have hlo1 := hlo
  have hmed1 := hmed
  have hhi1 := hhi
  rw [sortD_map_fin, List.getElem?_map, List.getElem?_eq_getElem i0, Option.map_some',
    Option.some.injEq] at hlo1
  rw [sortD_map_fin, List.getElem?_map, List.getElem?_eq_getElem i1, Option.map_some',
    Option.some.injEq] at hmed1
  rw [sortD_map_fin, List.getElem?_map, List.getElem?_eq_getElem i2, Option.map_some',
    Option.some.injEq] at hhi1
  refine ⟨st, r, hst, hr, hlo, hmed, hhi, ?_, ?_⟩
  · rw [← hlo1, ← hmed1, le_fin]
    exact hs.rel_get_of_le (a := ⟨0, i0⟩) (b := ⟨ks.length / 2, i1⟩) (Nat.zero_le _)
  · rw [← hmed1, ← hhi1, le_fin]
    exact hs.rel_get_of_le (a := ⟨ks.length / 2, i1⟩) (b := ⟨ks.length - 1, i2⟩) (by
      show ks.length / 2 ≤ ks.length - 1
      omega)

/-- C18 as amended, on the sample means `2.1, 20.3, 2.5`: `2.1 ≤ 2.5 ≤ 20.3`. -/
theorem min_le_median_le_max_witness :
    ∃ st r,
      statisticsD 3 [Dbl.ofScaled 4728779608739021 1023, Dbl.ofScaled 5713942027226317 1026,
        Dbl.ofScaled 5 1073] = .ok st ∧
      reportD 3 1000000 st = .ok r ∧
      r.rangeLo = Dbl.ofScaled 4728779608739021 1023 ∧ r.median = Dbl.ofScaled 5 1073 ∧
      r.rangeHi = Dbl.ofScaled 5713942027226317 1026 ∧
      Dbl.le r.rangeLo r.median = true ∧ Dbl.le r.median r.rangeHi = true := by
  obtain ⟨st, r, hst, hr, hlo, hmed, hhi, h1, h2⟩ :=
    min_le_median_le_max
      [4728779608739021 * ((2 ^ 1023 : Nat) : Int), 5713942027226317 * ((2 ^ 1026 : Nat) : Int),
        5 * ((2 ^ 1073 : Nat) : Int)] 1000000 (by decide)
  have hsort : sortD ([4728779608739021 * ((2 ^ 1023 : Nat) : Int),
      5713942027226317 * ((2 ^ 1026 : Nat) : Int), 5 * ((2 ^ 1073 : Nat) : Int)].map Dbl.fin)
      = [Dbl.ofScaled 4728779608739021 1023, Dbl.ofScaled 5 1073,
        Dbl.ofScaled 5713942027226317 1026] := by decide!
  rw [hsort] at hlo hmed hhi
  refine ⟨st, r, ?_, ?_, ?_, ?_, ?_, h1, h2⟩
  · exact hst
  · exact hr
  · exact (Option.some.inj hlo).symm
  · exact (Option.some.inj hmed).symm
  · exact (Option.some.inj hhi).symm

/-- C18, the claim refuted: ten sample means all equal to `2.6666666666666665`
have that number as minimum, median and maximum, and the mean reported by the
`double` arithmetic of lines 54-57 is `2.666666666666667`, above the maximum. -/
theorem rounded_mean_above_max :
    ∃ st r,
      statisticsD 10 (List.replicate 10 (Dbl.ofScaled 6004799503160661 1023)) = .ok st ∧
      reportD 10 1000000 st = .ok r ∧
      r.rangeLo = Dbl.ofScaled 6004799503160661 1023 ∧
      r.rangeHi = Dbl.ofScaled 6004799503160661 1023 ∧
      r.mean = Dbl.ofScaled 3002399751580331 1024 ∧
      Dbl.lt r.rangeHi r.mean = true ∧ Dbl.le r.mean r.rangeHi = false := by
  obtain ⟨st, r, hst, hr, -, hm, -, -, -, -, -, -, hrm, -, -, hlo, hhi, -⟩ :=
    analysisD_eq (List.replicate 10 (Dbl.ofScaled 6004799503160661 1023)) 1000000 (by decide)
  have hsort : sortD (List.replicate 10 (Dbl.ofScaled 6004799503160661 1023))
      = List.replicate 10 (Dbl.ofScaled 6004799503160661 1023) := by decide!
  rw [hsort] at hlo hhi
  have e0 : r.rangeLo = Dbl.ofScaled 6004799503160661 1023 := (Option.some.inj hlo).symm
  have e1 : r.rangeHi = Dbl.ofScaled 6004799503160661 1023 := (Option.some.inj hhi).symm
  have e2 : r.mean = Dbl.ofScaled 3002399751580331 1024 := by
    rw [hrm, hm]
    decide!
  refine ⟨st, r, ?_, ?_, e0, e1, e2, ?_, ?_⟩
  · exact hst
  · exact hr
  · rw [e1, e2]
    decide!
  · rw [e1, e2]
    decide!

/-! ## Sign of the variance, bounds on the kurtosis -/

/-- C19 as amended: for finite sample means, at least 2 of them, the variance
that line 67 computes in `double` arithmetic is not negative (it is a
non-negative number or `+inf`, never NaN).  Nothing is said of bounds on the
kurtosis. -/
theorem variance_nonneg (ks : List Int) (num_trials : Int) (hlen : 2 ≤ ks.length) :
    ∃ st r, statisticsD (ks.length : Int) (ks.map Dbl.fin) = .ok st ∧
      reportD (ks.length : Int) num_trials st = .ok r ∧
      st.var = Dbl.div (sumsD (ks.map Dbl.fin)).var (Dbl.ofInt ((ks.length : Int) - 1)) ∧
      Dbl.le (Dbl.fin 0) st.var = true ∧ st.var ≠ Dbl.nan := by
  have hlk : (ks.map Dbl.fin).length = ks.length := List.length_map _ _
  obtain ⟨st, r, hst, hr, -, -, hv, -⟩ :=
    analysisD_eq (ks.map Dbl.fin) num_trials (by rw [hlk]; omega)
  rw [hlk] at hst hr
  have hv1 : st.var
      = Dbl.div (sumsD (ks.map Dbl.fin)).var (Dbl.ofInt ((ks.length : Int) - 1)) := by
    rw [hv, varD, hlk]
  have hs : Dbl.le (Dbl.fin 0) (sumsD (ks.map Dbl.fin)).var = true :=
    foldl_momentAdd_var_nonneg _ (meanD_ne_nan ks (by omega)) ks _ (by decide)
  have hnn : Dbl.le (Dbl.fin 0) st.var = true := by
    rw [hv1]
    exact div_nonneg_of_pos _ _ hs (scaled_pos _ (by omega))
  refine ⟨st, r, hst, hr, hv1, hnn, ?_⟩
  intro h
  rw [h] at hnn
  exact absurd hnn (by decide)

/-- C19 as amended, on five sample means `2` and five `4.666666666666667`: the
variance is `1.9753086419753092`, not negative. -/
theorem variance_nonneg_witness :
    ∃ st r,
      statisticsD 10 [Dbl.ofInt 2, Dbl.ofInt 2, Dbl.ofInt 2, Dbl.ofInt 2, Dbl.ofInt 2,
        Dbl.ofScaled 5254199565265579 1024, Dbl.ofScaled 5254199565265579 1024,
        Dbl.ofScaled 5254199565265579 1024, Dbl.ofScaled 5254199565265579 1024,
        Dbl.ofScaled 5254199565265579 1024] = .ok st ∧
      reportD 10 1000000 st = .ok r ∧ Dbl.le (Dbl.fin 0) st.var = true := by
  obtain ⟨st, r, hst, hr, -, hnn, -⟩ :=
    variance_nonneg
      [2 * ((2 ^ 1074 : Nat) : Int), 2 * ((2 ^ 1074 : Nat) : Int), 2 * ((2 ^ 1074 : Nat) : Int),
        2 * ((2 ^ 1074 : Nat) : Int), 2 * ((2 ^ 1074 : Nat) : Int),
        5254199565265579 * ((2 ^ 1024 : Nat) : Int), 5254199565265579 * ((2 ^ 1024 : Nat) : Int),
        5254199565265579 * ((2 ^ 1024 : Nat) : Int), 5254199565265579 * ((2 ^ 1024 : Nat) : Int),
        5254199565265579 * ((2 ^ 1024 : Nat) : Int)] 1000000 (by decide)
  refine ⟨st, r, ?_, ?_, hnn⟩
  · exact hst
  · exact hr

/-- C19, the claim refuted: for five sample means `2` and five
`4.666666666666667` the sum of squared deviations is not zero, and the raw
kurtosis computed in `double` arithmetic is `0.9999999999999997`, below `1`; the
excess kurtosis reported is `-2.0000000000000004`, below `-2`. -/
theorem rounded_kurtosis_below_one :
    ∃ st r,
      statisticsD 10 [Dbl.ofInt 2, Dbl.ofInt 2, Dbl.ofInt 2, Dbl.ofInt 2, Dbl.ofInt 2,
        Dbl.ofScaled 5254199565265579 1024, Dbl.ofScaled 5254199565265579 1024,
        Dbl.ofScaled 5254199565265579 1024, Dbl.ofScaled 5254199565265579 1024,
        Dbl.ofScaled 5254199565265579 1024] = .ok st ∧
      reportD 10 1000000 st = .ok r ∧
      (sumsD [Dbl.ofInt 2, Dbl.ofInt 2, Dbl.ofInt 2, Dbl.ofInt 2, Dbl.ofInt 2,
        Dbl.ofScaled 5254199565265579 1024, Dbl.ofScaled 5254199565265579 1024,
        Dbl.ofScaled 5254199565265579 1024, Dbl.ofScaled 5254199565265579 1024,
        Dbl.ofScaled 5254199565265579 1024]).var = Dbl.ofScaled 5003999585967219 1026 ∧
      st.kurt = Dbl.ofScaled 9007199254740989 1021 ∧
      Dbl.lt st.kurt (Dbl.ofInt 1) = true ∧ Dbl.le (Dbl.ofInt 1) st.kurt = false ∧
      r.excessKurtosis = Dbl.ofScaled (-4503599627370497) 1023 ∧
      Dbl.lt r.excessKurtosis (Dbl.ofInt (-2)) = true ∧
      Dbl.le (Dbl.ofInt (-2)) r.excessKurtosis = false := by
  obtain ⟨st, r, hst, hr, -, -, -, -, -, -, hkurt, -, -, -, -, -, -, -, hex⟩ :=
    analysisD_eq [Dbl.ofInt 2, Dbl.ofInt 2, Dbl.ofInt 2, Dbl.ofInt 2, Dbl.ofInt 2,
        Dbl.ofScaled 5254199565265579 1024, Dbl.ofScaled 5254199565265579 1024,
        Dbl.ofScaled 5254199565265579 1024, Dbl.ofScaled 5254199565265579 1024,
        Dbl.ofScaled 5254199565265579 1024] 1000000 (by decide)
  have e1 : st.kurt = Dbl.ofScaled 9007199254740989 1021 := by
    rw [hkurt]
    decide!
  have e2 : r.excessKurtosis = Dbl.ofScaled (-4503599627370497) 1023 := by
    rw [hex, e1]
    decide!
  refine ⟨st, r, ?_, ?_, ?_, e1, ?_, ?_, e2, ?_, ?_⟩
  · exact hst
  · exact hr
  · decide!
  · rw [e1]
    decide!
  · rw [e1]
    decide!
  · rw [e2]
    decide!
  · rw [e2]
    decide!

end PetersburgParadox
